import Mathlib

/-!
# Speedy: flattening of nested records and the batching pusher

A shallow embedding of `pkg/utils.go` (`FlattenMap`), `pkg/pusher.go`
(`LokiStreams`, `Pusher`) and `pkg/loki.go` (the two sinks and their factory)
together with the properties established about them.

Conventions of the embedding:

* a Go panic is the `Except.error` branch, carrying the panic message;
* a Go `map[string]interface{}` is the list of its entries in the order in which
  the `range` loop visits them (Go leaves that order unspecified, so every
  ordering of the list is a possible run);
* a Go `[]string` is a slice header pointing into a heap of backing arrays, because
  `append` may write into the backing array of its argument;
* a Go `int` is a 64-bit two's complement integer: additions wrap (`wrapInt`);
* `make([]T, 0, n)` panics when the runtime function `makeslice` rejects `n`
  (`makeslicePanics`);
* the maps and slices of a `LokiStream` are given by their contents; where Go tells a
  nil one from an empty one, which `json.Marshal` does, they are an `Option`
  (`MarshalStream`);
* a Go `string` is a `String`, a sequence of Unicode characters.
-/

namespace Speedy

deriving instance DecidableEq for Except

/-! ## Nested records -/

/-- The dynamic values `FlattenMap` distinguishes with its type switch:
`map[string]interface{}` (`object`), `[]interface{}` (`array`), and every other
dynamic type (`scalar`), which the `default` branch stores unchanged. -/
inductive Value (σ : Type) where
  | scalar : σ → Value σ
  | object : List (String × Value σ) → Value σ
  | array : List (Value σ) → Value σ

/-! ## Go string slices -/

/-- A Go slice header for `[]string`: the backing array it points to (an index into
the heap), its length and its capacity. Every slice in `FlattenMap` starts at
offset 0 of its backing array. -/
structure StrSlice where
  arr : Nat
  len : Nat
  cap : Nat
deriving DecidableEq, Repr

/-- The heap of backing arrays; array `i` is the list of its cells (as many as its
capacity). -/
abbrev Heap := List (List String)

/-- The elements `s[0], ..., s[len-1]` of a slice. -/
def StrSlice.elems (h : Heap) (s : StrSlice) : List String :=
  (h.getD s.arr []).take s.len

/-- Allocate a fresh backing array holding `cells`. -/
def Heap.alloc (h : Heap) (cells : List String) : Heap × Nat :=
  (h ++ [cells], h.length)

/-- Store `x` in cell `i` of backing array `a`. -/
def Heap.store (h : Heap) (a i : Nat) (x : String) : Heap :=
  h.set a ((h.getD a []).set i x)

/-- The slice literal `[]string{}`: length 0, capacity 0. -/
def emptySlice : StrSlice := ⟨0, 0, 0⟩

/-- The slice literal `[]string{key}`: a fresh array of capacity 1. -/
def singletonSlice (h : Heap) (key : String) : Heap × StrSlice :=
  let (h1, a) := h.alloc [key]
  (h1, ⟨a, 1, 1⟩)

/-- Go's `append(s, x)` for one element. When `len(s) < cap(s)` the element is
written into the backing array of `s` and the result shares that array; otherwise
a new array is allocated whose capacity is chosen by the runtime (`grow oldCap
neededLen`, never less than the needed length) and the old elements are copied. -/
def goAppend (grow : Nat → Nat → Nat) (h : Heap) (s : StrSlice) (x : String) :
    Heap × StrSlice :=
  if s.len < s.cap then
    (h.store s.arr s.len x, ⟨s.arr, s.len + 1, s.cap⟩)
  else
    let newCap := max (s.len + 1) (grow s.cap (s.len + 1))
    let (h1, a) := h.alloc (s.elems h ++ [x] ++ List.replicate (newCap - (s.len + 1)) "")
    (h1, ⟨a, s.len + 1, newCap⟩)

/-- The statements `newKeys := make([]string, len(s)); itemsCopied := copy(newKeys, s)`:
a fresh array of capacity `len(s)` holding a copy of the elements of `s`. -/
def makeCopy (h : Heap) (s : StrSlice) : Heap × StrSlice :=
  let (h1, a) := h.alloc (s.elems h)
  (h1, ⟨a, s.len, s.len⟩)

/-- The size classes (in bytes) of the Go allocator up to 32 KiB. -/
def sizeClasses : List Nat :=
  [8, 16, 24, 32, 48, 64, 80, 96, 112, 128, 144, 160, 176, 192, 208, 224, 240, 256,
   288, 320, 352, 384, 416, 448, 480, 512, 576, 640, 704, 768, 896, 1024, 1152, 1280,
   1408, 1536, 1792, 2048, 2304, 2688, 3072, 3200, 3456, 4096, 4864, 5120, 5376, 6144,
   6528, 6784, 6912, 8192, 9472, 9728, 10240, 10880, 12288, 13568, 14336, 16384,
   18432, 19072, 20480, 21760, 24576, 27264, 28672, 32768]

/-- The allocator's `roundupsize`: the smallest size class holding `n` bytes, or the
next multiple of the 8 KiB page size above 32 KiB. -/
def roundupsize (n : Nat) : Nat :=
  match sizeClasses.find? (fun c => n ≤ c) with
  | some c => c
  | none => (n + 8191) / 8192 * 8192

/-- The loop of the runtime's `nextslicecap` for capacities of 256 and more: grow by
`(cap + 768) / 4` until the needed length fits. -/
def growLarge (newLen : Nat) : Nat → Nat → Nat
  | 0, c => max c newLen
  | fuel + 1, c =>
    let c1 := c + (c + 3 * 256) / 4
    if newLen ≤ c1 then c1 else growLarge newLen fuel c1

/-- The capacity the gc runtime (`runtime.growslice`, 64-bit, 16-byte string
headers) gives the new array when `append` must reallocate: double the old
capacity below 256 elements, grow by about a quarter above, then round the byte
size up to an allocator size class. -/
def goGrowCap (oldCap newLen : Nat) : Nat :=
  let newCap :=
    if 2 * oldCap < newLen then newLen
    else if oldCap < 256 then 2 * oldCap
    else growLarge newLen newLen oldCap
  roundupsize (newCap * 16) / 16

/-! ## `FlattenMap` -/

/-- The work-list item `pair` of `utils.go`. -/
structure pair (σ : Type) where
  key : StrSlice
  isRoot : Bool
  value : Value σ

/-- An element of the `container/list` work list, whose `Value` field has the
dynamic type `interface{}`: either a `pair` or a value of some other type. -/
inductive Element (σ : Type) where
  | ofPair : pair σ → Element σ
  | other : Element σ

/-- The Go assignment `m[k] = v` on a `map[string]interface{}`, kept as the list of
its entries: an existing key keeps its place and gets the new value, a new key is
added. -/
def mapAssign {σ : Type} : List (String × σ) → String → σ → List (String × σ)
  | [], k, v => [(k, v)]
  | (k1, v1) :: rest, k, v =>
    if k1 = k then (k1, v) :: rest else (k1, v1) :: mapAssign rest k v

/-- The value stored under a key of a `map[string]interface{}`. -/
def mapLookup {σ : Type} : List (String × σ) → String → Option σ
  | [], _ => none
  | (k1, v1) :: rest, k => if k1 = k then some v1 else mapLookup rest k

/-- The local state of `FlattenMap`: the heap of key arrays, the work list `stack`
(its back is the head of the list) and the result map `returnValue`. -/
structure FlattenState (σ : Type) where
  heap : Heap
  stack : List (Element σ)
  returnValue : List (String × σ)

/-- The `range` loop of the map case (`utils.go` lines 37-44): one pushed pair per
entry, in iteration order. -/
def pushFields {σ : Type} (grow : Nat → Nat → Nat) (thePair : pair σ) :
    List (String × Value σ) → FlattenState σ → FlattenState σ
  | [], st => st
  | (key, val) :: rest, st =>
    if thePair.isRoot then
      let (h1, s) := singletonSlice st.heap key
      pushFields grow thePair rest
        { st with heap := h1, stack := Element.ofPair ⟨s, false, val⟩ :: st.stack }
    else
      let (h1, newKeys) := goAppend grow st.heap thePair.key key
      pushFields grow thePair rest
        { st with heap := h1, stack := Element.ofPair ⟨newKeys, false, val⟩ :: st.stack }

/-- The `range` loop of the array case (`utils.go` lines 48-53), from index `index`
on: each element gets a copy of the parent key whose last segment is replaced by
`lastKey[index]`. -/
def pushItems {σ : Type} (thePair : pair σ) (lastKey : String) :
    Nat → List (Value σ) → FlattenState σ → FlattenState σ
  | _, [], st => st
  | index, val :: rest, st =>
    let (h1, newKeys) := makeCopy st.heap thePair.key
    let h2 := h1.store newKeys.arr (newKeys.len - 1) (lastKey ++ "[" ++ toString index ++ "]")
    pushItems thePair lastKey (index + 1) rest
      { st with heap := h2, stack := Element.ofPair ⟨newKeys, false, val⟩ :: st.stack }

/-- One iteration of the `for` loop of `FlattenMap` after `element` has been removed
from the work list (`utils.go` lines 29-57). -/
def processElement {σ : Type} (grow : Nat → Nat → Nat) (element : Element σ)
    (st : FlattenState σ) : Except String (FlattenState σ) :=
  match element with
  | Element.other => Except.error "can't cast element to pair"
  | Element.ofPair thePair =>
    match thePair.value with
    | Value.object v => Except.ok (pushFields grow thePair v st)
    | Value.array v =>
      if thePair.key.len = 0 then
        Except.error "index out of range [-1]"
      else
        let lastKey := (thePair.key.elems st.heap).getD (thePair.key.len - 1) ""
        Except.ok (pushItems thePair lastKey 0 v st)
    | Value.scalar v =>
      Except.ok { st with
        returnValue := mapAssign st.returnValue
          (String.intercalate "." (thePair.key.elems st.heap)) v }

/-- The `for` loop of `FlattenMap`, run for at most `fuel` iterations: `none` when
the work list is still non-empty after `fuel` pops. -/
def flattenLoop {σ : Type} (grow : Nat → Nat → Nat) :
    Nat → FlattenState σ → Option (Except String (List (String × σ)))
  | fuel, st =>
    match st.stack with
    | [] => some (Except.ok st.returnValue)
    | element :: rest =>
      match fuel with
      | 0 => none
      | fuel + 1 =>
        match processElement grow element { st with stack := rest } with
        | Except.error e => some (Except.error e)
        | Except.ok st1 => flattenLoop grow fuel st1

/-- The state in which `FlattenMap` enters its loop: the root pair, with the empty
key and `isRoot` set, is the only item of the work list. -/
def flattenInit {σ : Type} (input : List (String × Value σ)) : FlattenState σ :=
  { heap := [], stack := [Element.ofPair ⟨emptySlice, true, Value.object input⟩],
    returnValue := [] }

/-- The number of nodes (scalars, maps and lists) of a nested value, with the
helper sums over the entries of a map and the elements of a list. -/
def Value.nodes {σ : Type} : Value σ → Nat
  | Value.scalar _ => 1
  | Value.object fs => 1 + fieldsNodes fs
  | Value.array vs => 1 + itemsNodes vs
where
  /-- Nodes below the entries of a map. -/
  fieldsNodes {σ : Type} : List (String × Value σ) → Nat
    | [] => 0
    | (_, v) :: rest => v.nodes + fieldsNodes rest
  /-- Nodes below the elements of a list. -/
  itemsNodes {σ : Type} : List (Value σ) → Nat
    | [] => 0
    | v :: rest => v.nodes + itemsNodes rest

/-- The function `FlattenMap`: the loop is run from `flattenInit` with one
iteration available per node of the input, which `flattenLoop_fuel` shows to be
exactly the number of iterations the loop performs (`none` would mean that the loop
was still running after them). -/
def FlattenMap {σ : Type} (grow : Nat → Nat → Nat) (input : List (String × Value σ)) :
    Option (Except String (List (String × σ))) :=
  flattenLoop grow (Value.nodes (Value.object input)) (flattenInit input)

/-- The flat map the specification describes for a value reached by the path
`path`: a scalar gives one entry keyed by the segments joined with dots, a map child
extends the path by its key, and element `i` of a list replaces the last segment `s`
of the path by `s[i]`. -/
def Value.leaves {σ : Type} (path : List String) : Value σ → List (String × σ)
  | Value.scalar v => [(String.intercalate "." path, v)]
  | Value.object fs => fieldLeaves path fs
  | Value.array vs => itemLeaves path 0 vs
where
  /-- Leaves below the entries of a map reached by `path`. -/
  fieldLeaves {σ : Type} (path : List String) : List (String × Value σ) → List (String × σ)
    | [] => []
    | (k, v) :: rest => v.leaves (path ++ [k]) ++ fieldLeaves path rest
  /-- Leaves below the elements, from index `i` on, of a list reached by `path`. -/
  itemLeaves {σ : Type} (path : List String) (i : Nat) : List (Value σ) → List (String × σ)
    | [] => []
    | v :: rest =>
      v.leaves (path.dropLast ++ [path.getLastD "" ++ "[" ++ toString i ++ "]"]) ++
        itemLeaves path (i + 1) rest

/-- Nodes still to be visited below one work-list element. -/
def Element.nodes {σ : Type} : Element σ → Nat
  | Element.ofPair p => p.value.nodes
  | Element.other => 0

/-- Nodes still to be visited below the whole work list. -/
def stackNodes {σ : Type} : List (Element σ) → Nat
  | [] => 0
  | e :: rest => e.nodes + stackNodes rest

/-- A work-list element the loop can process without failing: it is a `pair`, and
its key is non-empty unless its value is a map. -/
def Element.Good {σ : Type} : Element σ → Prop
  | Element.ofPair p => 0 < p.key.len ∨ ∃ fs, p.value = Value.object fs
  | Element.other => False

/-! ## Go integers and time -/

/-- The range of a Go `int` (64 bits). -/
def IsInt (x : Int) : Prop := -(2 ^ 63) ≤ x ∧ x < 2 ^ 63

instance (x : Int) : Decidable (IsInt x) := by
  unfold IsInt
  infer_instance

/-- Reduction of an integer to the Go `int` with the same low 64 bits, which is what
`+` and `+=` on `int` produce. -/
def wrapInt (x : Int) : Int := (x + 2 ^ 63) % 2 ^ 64 - 2 ^ 63

/-- Go's `t.Sub(u)` on times given in nanoseconds: the difference as a `Duration`,
saturated at the largest and smallest `Duration`. -/
def timeSub (t u : Int) : Int := max (-(2 ^ 63)) (min (2 ^ 63 - 1) (t - u))

/-- Go's `Duration.Milliseconds`: the nanosecond count divided by 10^6, truncated
toward zero. -/
def Milliseconds (d : Int) : Int := Int.tdiv d 1000000

/-! ## Batches (`LokiStreams`) -/

/-- A `LokiStream` of `pusher.go`: labels, value pairs and size. The entry owns its
`Values` arrays (no two entries share one), as the entries built in `main.go` do. The
map and the slices are given by their contents: a nil one is the empty one here, which
the pusher and the binary sink do not tell apart (`Marshal` does, see
`MarshalStream`). -/
structure LokiStream where
  Labels : List (String × String)
  Values : List (List String)
  Size : Int
deriving DecidableEq, Repr

/-- A `LokiStreams` of `pusher.go`. -/
structure LokiStreams where
  Streams : List LokiStream
  Count : Int
  TotalSize : Int
  bufferMaxBatchSize : Int
  bufferMaxByteSize : Int
deriving DecidableEq, Repr

/-- The method `AddData`. -/
def LokiStreams.AddData (ls : LokiStreams) (s : LokiStream) : LokiStreams :=
  { ls with
    Count := wrapInt (ls.Count + 1)
    Streams := ls.Streams ++ [s]
    TotalSize := wrapInt (ls.TotalSize + s.Size) }

/-- The method `IsFull`. -/
def LokiStreams.IsFull (ls : LokiStreams) : Bool :=
  if ls.TotalSize ≥ ls.bufferMaxByteSize then true
  else if ls.Count ≥ ls.bufferMaxBatchSize then true
  else false

/-- The check of the runtime function `makeslice` for `make([]T, 0, cap)` with
elements of `elemSize` bytes: it panics with `makeslice: cap out of range` when `cap`
is negative or the array would exceed `maxAlloc`, which is 2^48 bytes on the 64-bit
platforms (`elemSize * uintptr(cap)` overflowing counts as exceeding it). -/
def makeslicePanics (elemSize cap : Int) : Bool :=
  decide (cap < 0 ∨ 2 ^ 48 < elemSize * cap)

/-- The function `NewLokiStreams`. `make([]LokiStream, 0, maxCapacity)` panics when
`makeslice` rejects the capacity; a `LokiStream` (a map, a slice header and an `int`)
has 40 bytes. The slice it makes is not nil. A machine that cannot provide the memory
for an accepted capacity ends the process with a fatal error, which is not part of the
model. -/
def NewLokiStreams (maxCapacity maxSizeBytes : Int) : Except String LokiStreams :=
  if makeslicePanics 40 maxCapacity then Except.error "makeslice: cap out of range"
  else Except.ok
    { Streams := [], Count := 0, TotalSize := 0,
      bufferMaxBatchSize := maxCapacity, bufferMaxByteSize := maxSizeBytes }

/-! ## The pusher -/

/-- A call received by the sink (`ISpeedySink`): `SendData` with the batch it was
given and the error it returned (`none` for `nil`), or `Shutdown`. -/
inductive SinkCall where
  | SendData (data : LokiStreams) (err : Option String)
  | Shutdown
deriving DecidableEq, Repr

/-- A sink, observed through the calls it has received, oldest first. -/
structure SpeedySink where
  calls : List SinkCall
deriving DecidableEq, Repr

/-- What the surroundings answer during one `flushCurrentBatch`: the error returned
by the sink's `SendData` and the value of `time.Now()`. -/
structure FlushEnv where
  sendErr : Option String
  now : Int
deriving DecidableEq, Repr

/-- The fields of `Pusher` that `RunForever` reads or writes. The channels are
replaced by the events taken from them and `TimeProvider` by the values it returns. -/
structure Pusher where
  speedySink : SpeedySink
  lastFlush : Int
  SecondsToFlush : Int
  currentStreams : LokiStreams
  maxBatchSize : Int
  maxBatchSizeBytes : Int
deriving DecidableEq, Repr

/-- The function `NewPusher`; `sink = none` is the nil interface, `now` the value of
`time.Now()`. -/
def NewPusher (sink : Option SpeedySink) (maxBatchSize maxBatchSizeBytes now : Int) :
    Except String Pusher :=
  match sink with
  | none => Except.error "Speedy sink is nil"
  | some s =>
    match NewLokiStreams maxBatchSize maxBatchSizeBytes with
    | Except.error e => Except.error e
    | Except.ok fresh => Except.ok
      { speedySink := s, lastFlush := now, SecondsToFlush := 60000000000,
        currentStreams := fresh, maxBatchSize := maxBatchSize,
        maxBatchSizeBytes := maxBatchSizeBytes }

/-- The method `flushCurrentBatch`. -/
def Pusher.flushCurrentBatch (lp : Pusher) (env : FlushEnv) : Except String Pusher :=
  if lp.currentStreams.Count = 0 then Except.ok lp
  else
    let sink : SpeedySink :=
      ⟨lp.speedySink.calls ++ [SinkCall.SendData lp.currentStreams env.sendErr]⟩
    match NewLokiStreams lp.maxBatchSize lp.maxBatchSizeBytes with
    | Except.error e => Except.error e
    | Except.ok fresh =>
      Except.ok { lp with speedySink := sink, lastFlush := env.now, currentStreams := fresh }

/-- The statement `data.Values[0][0] = ts`, which panics when `Values` or its first
row is empty. -/
def setTimestamp (data : LokiStream) (ts : String) : Except String LokiStream :=
  match data.Values with
  | [] => Except.error "index out of range [0] with length 0"
  | [] :: _ => Except.error "index out of range [0] with length 0"
  | (_ :: cols) :: rows => Except.ok { data with Values := (ts :: cols) :: rows }

/-- An entry taken from `DataChannel`, with the answers of the surroundings while it
is processed: the value `TimeProvider()` returns and the flush environment. -/
structure Arrival where
  data : LokiStream
  timestamp : String
  flush : FlushEnv
deriving DecidableEq, Repr

/-- The events `RunForever` selects on: an entry from `DataChannel`, a shutdown
request (with the entries that are in the queue while it drains and the environment
of the final flush), and a timer tick (with the value of `time.Now()`). -/
inductive Event where
  | data (a : Arrival)
  | shutdown (queued : List Arrival) (final : FlushEnv)
  | tick (now : Int) (flush : FlushEnv)
deriving DecidableEq, Repr

/-- The body shared by both `case data := <-lp.DataChannel` branches: stamp the
entry, append it, flush if the batch is full. -/
def Pusher.receive (lp : Pusher) (a : Arrival) : Except String Pusher :=
  match setTimestamp a.data a.timestamp with
  | Except.error e => Except.error e
  | Except.ok data =>
    let lp1 := { lp with currentStreams := lp.currentStreams.AddData data }
    if lp1.currentStreams.IsFull then lp1.flushCurrentBatch a.flush else Except.ok lp1

/-- The drain loop of the shutdown branch over the entries in the queue. -/
def Pusher.drain (lp : Pusher) : List Arrival → Except String Pusher
  | [] => Except.ok lp
  | a :: rest =>
    match lp.receive a with
    | Except.error e => Except.error e
    | Except.ok lp1 => lp1.drain rest

/-- Where `RunForever` stands after a sequence of events: still in its loop, waiting
for the next event, or returned. -/
inductive RunState where
  | running (lp : Pusher)
  | returned (lp : Pusher)
deriving DecidableEq, Repr

/-- The method `RunForever`, driven by the events its `select` takes, in order. -/
def Pusher.RunForever (lp : Pusher) : List Event → Except String RunState
  | [] => Except.ok (RunState.running lp)
  | Event.data a :: rest =>
    match lp.receive a with
    | Except.error e => Except.error e
    | Except.ok lp1 => lp1.RunForever rest
  | Event.shutdown queued final :: _ =>
    match lp.drain queued with
    | Except.error e => Except.error e
    | Except.ok lp1 =>
      match lp1.flushCurrentBatch final with
      | Except.error e => Except.error e
      | Except.ok lp2 =>
        Except.ok (RunState.returned
          { lp2 with speedySink := ⟨lp2.speedySink.calls ++ [SinkCall.Shutdown]⟩ })
  | Event.tick now env :: rest =>
    if Milliseconds (timeSub now lp.lastFlush) ≥ Milliseconds lp.SecondsToFlush then
      match lp.flushCurrentBatch env with
      | Except.error e => Except.error e
      | Except.ok lp1 => lp1.RunForever rest
    else lp.RunForever rest

/-! ## The pusher with a sink that may panic

`Pusher.RunForever` above follows the runs in which every call of the sink's
`SendData` returns. The functions below are the same methods for a sink whose
`SendData` may panic: `panics b` is the message of the panic that `SendData` raises
when it is given the batch `b`, and `none` when it returns (with the error the flush
environment holds). Neither `flushCurrentBatch` nor `RunForever` has a `recover`, so
the panic ends them. -/

/-- The method `flushCurrentBatch` with a sink that may panic. -/
def Pusher.flushCurrentBatchWith (panics : LokiStreams → Option String) (lp : Pusher)
    (env : FlushEnv) : Except String Pusher :=
  if lp.currentStreams.Count = 0 then Except.ok lp
  else
    match panics lp.currentStreams with
    | some msg => Except.error msg
    | none =>
      let sink : SpeedySink :=
        ⟨lp.speedySink.calls ++ [SinkCall.SendData lp.currentStreams env.sendErr]⟩
      match NewLokiStreams lp.maxBatchSize lp.maxBatchSizeBytes with
      | Except.error e => Except.error e
      | Except.ok fresh =>
        Except.ok { lp with speedySink := sink, lastFlush := env.now, currentStreams := fresh }

/-- The body of the `case data := <-lp.DataChannel` branches with a sink that may
panic. -/
def Pusher.receiveWith (panics : LokiStreams → Option String) (lp : Pusher) (a : Arrival) :
    Except String Pusher :=
  match setTimestamp a.data a.timestamp with
  | Except.error e => Except.error e
  | Except.ok data =>
    let lp1 := { lp with currentStreams := lp.currentStreams.AddData data }
    if lp1.currentStreams.IsFull then lp1.flushCurrentBatchWith panics a.flush
    else Except.ok lp1

/-- The drain loop of the shutdown branch with a sink that may panic. -/
def Pusher.drainWith (panics : LokiStreams → Option String) (lp : Pusher) :
    List Arrival → Except String Pusher
  | [] => Except.ok lp
  | a :: rest =>
    match lp.receiveWith panics a with
    | Except.error e => Except.error e
    | Except.ok lp1 => lp1.drainWith panics rest

/-- The method `RunForever` with a sink that may panic. -/
def Pusher.RunForeverWith (panics : LokiStreams → Option String) (lp : Pusher) :
    List Event → Except String RunState
  | [] => Except.ok (RunState.running lp)
  | Event.data a :: rest =>
    match lp.receiveWith panics a with
    | Except.error e => Except.error e
    | Except.ok lp1 => lp1.RunForeverWith panics rest
  | Event.shutdown queued final :: _ =>
    match lp.drainWith panics queued with
    | Except.error e => Except.error e
    | Except.ok lp1 =>
      match lp1.flushCurrentBatchWith panics final with
      | Except.error e => Except.error e
      | Except.ok lp2 =>
        Except.ok (RunState.returned
          { lp2 with speedySink := ⟨lp2.speedySink.calls ++ [SinkCall.Shutdown]⟩ })
  | Event.tick now env :: rest =>
    if Milliseconds (timeSub now lp.lastFlush) ≥ Milliseconds lp.SecondsToFlush then
      match lp.flushCurrentBatchWith panics env with
      | Except.error e => Except.error e
      | Except.ok lp1 => lp1.RunForeverWith panics rest
    else lp.RunForeverWith panics rest

/-! ## Notions used to state the properties of the pusher -/

/-- The sum of the `Size` fields of a list of entries, as an integer. -/
def totalSize (es : List LokiStream) : Int := (es.map LokiStream.Size).sum

/-- The entry has a cell `Values[0][0]`, the slot of its timestamp. -/
def LokiStream.hasTimestamp (s : LokiStream) : Bool :=
  match s.Values with
  | (_ :: _) :: _ => true
  | _ => false

/-- The entry of an arrival as the pusher stores it: the producer's entry after
`setTimestamp` with the value `TimeProvider` returned. -/
def Arrival.stamped (a : Arrival) : LokiStream :=
  match setTimestamp a.data a.timestamp with
  | Except.ok s => s
  | Except.error _ => a.data

/-- The empty batch with the thresholds of the pusher. -/
def Pusher.freshBatch (lp : Pusher) : LokiStreams :=
  { Streams := [], Count := 0, TotalSize := 0, bufferMaxBatchSize := lp.maxBatchSize,
    bufferMaxByteSize := lp.maxBatchSizeBytes }

/-- The entries of the batches handed to `SendData`, in call order. -/
def sentEntries : List SinkCall → List LokiStream
  | [] => []
  | SinkCall.SendData d _ :: rest => d.Streams ++ sentEntries rest
  | SinkCall.Shutdown :: rest => sentEntries rest

/-- The batches handed to `SendData`, in call order. -/
def sentBatches : List SinkCall → List LokiStreams
  | [] => []
  | SinkCall.SendData d _ :: rest => d :: sentBatches rest
  | SinkCall.Shutdown :: rest => sentBatches rest

/-- The entries `RunForever` takes from the queue while it processes a sequence of
events, in the order it takes them; events after a shutdown request are not
processed. -/
def entriesTaken : List Event → List Arrival
  | [] => []
  | Event.data a :: rest => a :: entriesTaken rest
  | Event.shutdown queued _ :: _ => queued
  | Event.tick _ _ :: rest => entriesTaken rest

/-- Whether a sequence of events contains a shutdown request. -/
def hasShutdown : List Event → Bool
  | [] => false
  | Event.shutdown _ _ :: _ => true
  | _ :: rest => hasShutdown rest

/-- The pusher held by a run state. -/
def RunState.pusher : RunState → Pusher
  | RunState.running lp => lp
  | RunState.returned lp => lp

/-- Whether `RunForever` has returned. -/
def RunState.isReturned : RunState → Bool
  | RunState.running _ => false
  | RunState.returned _ => true

/-- The invariant of the pushers built by `NewPusher`: the counter of the open batch
is the number of its entries, the open batch is empty or below the count threshold,
it carries the thresholds of the pusher, the count threshold is a capacity that
`make` accepts, and the flush interval is a Go `Duration`. -/
structure Pusher.Inv (lp : Pusher) : Prop where
  count : lp.currentStreams.Count = lp.currentStreams.Streams.length
  room : lp.currentStreams.Count = 0 ∨ lp.currentStreams.Count < lp.maxBatchSize
  batchSize : lp.currentStreams.bufferMaxBatchSize = lp.maxBatchSize
  byteSize : lp.currentStreams.bufferMaxByteSize = lp.maxBatchSizeBytes
  nonneg : 0 ≤ lp.maxBatchSize
  isInt : lp.maxBatchSize < 2 ^ 63
  interval : IsInt lp.SecondsToFlush
  alloc : makeslicePanics 40 lp.maxBatchSize = false

/-- The states a pusher can be in while `RunForever` is in its loop: it was built by
`NewPusher` with thresholds that are Go integers, its exported field `SecondsToFlush`
was possibly set to another `Duration`, and `RunForever` has processed some events
without returning. -/
def Pusher.Reachable (lp : Pusher) : Prop :=
  ∃ (sink : SpeedySink) (maxBatchSize maxBatchSizeBytes now interval : Int)
    (events : List Event) (lp0 : Pusher),
    IsInt maxBatchSize ∧ IsInt maxBatchSizeBytes ∧ IsInt interval ∧
    NewPusher (some sink) maxBatchSize maxBatchSizeBytes now = Except.ok lp0 ∧
    Pusher.RunForever { lp0 with SecondsToFlush := interval } events =
      Except.ok (RunState.running lp)

/-- An entry like those of `pusher_test.go`: one label, one value pair. -/
def sampleEntry (i : Nat) (size : Int) : LokiStream :=
  ⟨[("label1", "value")], [[toString i, "log-line-" ++ toString i]], size⟩

/-- The arrival of a sample entry for which `TimeProvider` returns
`"1700000000000000000"`, `SendData` returns `nil` and `time.Now()` returns 5. -/
def sampleArrival (i : Nat) (size : Int) : Arrival :=
  ⟨sampleEntry i size, "1700000000000000000", ⟨none, 5⟩⟩

/-- The pusher `NewPusher(sink, 3, 16)` built at time 0 with a sink that has received
no call. -/
def samplePusher0 : Pusher :=
  ⟨⟨[]⟩, 0, 60000000000, ⟨[], 0, 0, 3, 16⟩, 3, 16⟩

/-- The pusher `samplePusher0` after the arrival of one 10-byte sample entry. -/
def samplePusher1 : Pusher :=
  ⟨⟨[]⟩, 0, 60000000000,
    ⟨[⟨[("label1", "value")], [["1700000000000000000", "log-line-0"]], 10⟩], 1, 10, 3, 16⟩,
    3, 16⟩

/-! ## The text sink: JSON encoding of a batch -/

/-- A JSON document, as far as `LokiStreams` produces one. -/
inductive Json where
  | null : Json
  | str : String → Json
  | arr : List Json → Json
  | obj : List (String × Json) → Json

/-- The compact text of a JSON document; `quote` is the encoding of a string as a
JSON string literal. -/
def Json.render (quote : String → String) : Json → String
  | Json.null => "null"
  | Json.str s => quote s
  | Json.arr xs => "[" ++ ",".intercalate (renderItems quote xs) ++ "]"
  | Json.obj fs => "\x7b" ++ ",".intercalate (renderFields quote fs) ++ "\x7d"
where
  /-- The texts of the elements of an array. -/
  renderItems (quote : String → String) : List Json → List String
    | [] => []
    | x :: rest => x.render quote :: renderItems quote rest
  /-- The texts of the members of an object. -/
  renderFields (quote : String → String) : List (String × Json) → List String
    | [] => []
    | (k, v) :: rest => (quote k ++ ":" ++ v.render quote) :: renderFields quote rest

/-- Lower-case hexadecimal digits of `n`, padded with zeros to `width` digits. -/
def hexPadded (width n : Nat) : String :=
  let digits := Nat.toDigits 16 n
  String.mk (List.replicate (width - digits.length) (Char.ofNat 48) ++ digits)

/-- The JSON string escape of one character, as the `json` package (`go-json`, with
its default escaping of HTML characters) writes it: a backslash before the quote and
the backslash, the short forms for backspace, form feed, newline, carriage return and
tab, `\u` and four hexadecimal digits for the other control characters, for `<`,
`>`, `&` and for the line and paragraph separators, and the character itself
otherwise. -/
def jsonEscapeChar (c : Char) : String :=
  let n := c.toNat
  if n = 34 then "\\\""
  else if n = 92 then "\\\\"
  else if n = 8 then "\\b"
  else if n = 12 then "\\f"
  else if n = 10 then "\\n"
  else if n = 13 then "\\r"
  else if n = 9 then "\\t"
  else if n < 32 ∨ n = 60 ∨ n = 62 ∨ n = 38 ∨ n = 8232 ∨ n = 8233 then "\\u" ++ hexPadded 4 n
  else String.singleton c

/-- The JSON string literal of a string, as the `json` package writes it for a string
of Unicode characters. -/
def jsonQuote (s : String) : String :=
  "\"" ++ String.join (s.toList.map jsonEscapeChar) ++ "\""

/-- Lexicographic order on the code points of two strings, the order in which
`Marshal` writes the keys of a map. -/
def keyLE : List Char → List Char → Bool
  | [], _ => true
  | _ :: _, [] => false
  | a :: as, b :: bs =>
    if a.toNat < b.toNat then true
    else if b.toNat < a.toNat then false
    else keyLE as bs

/-- Insertion of a map entry into a list of entries sorted by key. -/
def insertByKey (e : String × String) : List (String × String) → List (String × String)
  | [] => [e]
  | x :: rest => if keyLE e.1.toList x.1.toList then e :: x :: rest else x :: insertByKey e rest

/-- The entries of a map sorted by key. -/
def sortByKey : List (String × String) → List (String × String)
  | [] => []
  | e :: rest => insertByKey e (sortByKey rest)

/-- The fields of a `LokiStream` that `Marshal` reads, as Go holds them: the label
map, the slice of rows and each row may be nil, which is `none`. `Size` has the tag
`json:"-"` and is not read. -/
structure MarshalStream where
  Labels : Option (List (String × String))
  Values : Option (List (Option (List String)))
deriving DecidableEq, Repr

/-- The fields of a `LokiStreams` that `Marshal` reads: the slice `Streams`, which may
be nil. `Count` and `TotalSize` have the tag `json:"-"` and the two thresholds are
unexported fields. -/
structure MarshalStreams where
  Streams : Option (List MarshalStream)
deriving DecidableEq, Repr

/-- The JSON document `Marshal` builds for a `[]string`: `null` for the nil slice. -/
def rowJson : Option (List String) → Json
  | none => Json.null
  | some row => Json.arr (row.map Json.str)

/-- The JSON document `Marshal` builds for a `map[string]string`: `null` for the nil
map, and otherwise an object with the keys in sorted order. -/
def labelsJson : Option (List (String × String)) → Json
  | none => Json.null
  | some labels => Json.obj ((sortByKey labels).map fun kv => (kv.1, Json.str kv.2))

/-- The JSON document `Marshal` builds for a `[][]string`: `null` for the nil slice. -/
def valuesJson : Option (List (Option (List String))) → Json
  | none => Json.null
  | some rows => Json.arr (rows.map rowJson)

/-- The JSON document `Marshal` builds for a `LokiStream` from its struct tags: the
members `stream` and `values`. -/
def MarshalStream.toJson (s : MarshalStream) : Json :=
  Json.obj [("stream", labelsJson s.Labels), ("values", valuesJson s.Values)]

/-- The JSON document `Marshal` builds for a `LokiStreams`: the single member
`streams`, `null` for the nil slice. -/
def MarshalStreams.toJson (ls : MarshalStreams) : Json :=
  Json.obj [("streams", match ls.Streams with
    | none => Json.null
    | some streams => Json.arr (streams.map MarshalStream.toJson))]

/-- The call `json.Marshal(data)` for a non-nil `*LokiStreams`; it has no failing case
for this type. -/
def jsonMarshal (quote : String → String) (data : MarshalStreams) : Except String String :=
  Except.ok (data.toJson.render quote)

/-- What `Marshal` reads of an entry whose label map and slices are not nil. -/
def LokiStream.forMarshal (s : LokiStream) : MarshalStream :=
  ⟨some s.Labels, some (s.Values.map some)⟩

/-- What `Marshal` reads of a batch whose slice of entries is not nil, as
`NewLokiStreams` makes it, and whose entries have label maps and slices that are not
nil. -/
def LokiStreams.forMarshal (ls : LokiStreams) : MarshalStreams :=
  ⟨some (ls.Streams.map LokiStream.forMarshal)⟩

/-! ## The binary sink: stream records -/

/-- One character in Go's `strconv.Quote`, which `%q` applies to a string; `isPrint`
tells which characters beyond ASCII are printable. -/
def goQuoteChar (isPrint : Char → Bool) (c : Char) : String :=
  let n := c.toNat
  if n = 34 then "\\\""
  else if n = 92 then "\\\\"
  else if n = 7 then "\\a"
  else if n = 8 then "\\b"
  else if n = 12 then "\\f"
  else if n = 10 then "\\n"
  else if n = 13 then "\\r"
  else if n = 9 then "\\t"
  else if n = 11 then "\\v"
  else if n < 32 ∨ n = 127 then "\\x" ++ hexPadded 2 n
  else if n < 128 then String.singleton c
  else if isPrint c then String.singleton c
  else if n < 65536 then "\\u" ++ hexPadded 4 n
  else "\\U" ++ hexPadded 8 n

/-- Go's `strconv.Quote`: the double-quoted Go string literal of a string. -/
def goQuote (isPrint : Char → Bool) (s : String) : String :=
  "\"" ++ String.join (s.toList.map (goQuoteChar isPrint)) ++ "\""

/-- Modelled from the spec: the log entry of the binary wire format,
`{timestamp, line}` (the type `logproto.Entry`, whose declaration is generated code). -/
structure logproto.Entry where
  Timestamp : Int
  Line : String
deriving DecidableEq, Repr

/-- Modelled from the spec: the stream record of the binary wire format,
`{labels, entries}` (the type `logproto.Stream`, whose declaration is generated
code). -/
structure logproto.Stream where
  Labels : String
  Entries : List logproto.Entry
deriving DecidableEq, Repr

/-- The inner loop of `LokiProtoClient.SendData` over the labels of an entry, in the
iteration order of the map: `tmpLabels = append(tmpLabels, fmt.Sprintf("%s=%q", k, v))`. -/
def appendLabels (quote : String → String) :
    List (String × String) → List String → List String
  | [], tmpLabels => tmpLabels
  | (k, v) :: rest, tmpLabels => appendLabels quote rest (tmpLabels ++ [k ++ "=" ++ quote v])

/-- The index expression `entry.Values[0][1]`, which panics when `Values` is empty or
its first row has fewer than two elements. -/
def LokiStream.line (entry : LokiStream) : Except String String :=
  match entry.Values with
  | [] => Except.error "index out of range [0] with length 0"
  | [] :: _ => Except.error "index out of range [1] with length 0"
  | [_] :: _ => Except.error "index out of range [1] with length 1"
  | (_ :: line :: _) :: _ => Except.ok line

/-- The outer loop of `LokiProtoClient.SendData` from entry number `i` on: one stream
record is appended per entry; `now i` is the value of `time.Now().UTC()` for entry
number `i`. -/
def appendStreams (quote : String → String) (now : Nat → Int) :
    Nat → List LokiStream → List logproto.Stream → Except String (List logproto.Stream)
  | _, [], streams => Except.ok streams
  | i, entry :: rest, streams =>
    let labels := "\x7b" ++ ", ".intercalate (appendLabels quote entry.Labels []) ++ "\x7d"
    match entry.line with
    | Except.error e => Except.error e
    | Except.ok line =>
      appendStreams quote now (i + 1) rest (streams ++ [⟨labels, [⟨now i, line⟩]⟩])

/-! ## The two sinks and their factory -/

/-- The request a sink hands to `HttpClient.Do`. -/
structure HttpRequest where
  method : String
  url : String
  contentType : String
  body : String
deriving DecidableEq, Repr

/-- The response `HttpClient.Do` returns: its status code and what
`ioutil.ReadAll(resp.Body)` gives. -/
structure HttpResponse where
  StatusCode : Int
  body : Except String String

/-- What the surroundings answer during one `SendData`: the error of
`http.NewRequestWithContext` (`none` for `nil`), the result of `HttpClient.Do` and the
error of `Body.Close`. -/
structure TransportEnv where
  requestErr : Option String
  response : Except String HttpResponse
  closeErr : Option String

/-- What a sink writes to the logger and to Sentry. -/
inductive LogEvent where
  | error (msg : String)
  | debug (msg : String)
  | sentry (err : Option String)
deriving DecidableEq, Repr

/-- The observable outcome of one `SendData`: the returned error (`none` for `nil`),
the request handed to `HttpClient.Do` if it got that far, and the log. -/
structure SendOutcome where
  err : Option String
  request : Option HttpRequest
  logs : List LogEvent
deriving DecidableEq, Repr

/-- The part of `SendData` both sinks share after the request has been built
(`loki.go` lines 57-83 and 147-173); `closeLogs` is what the deferred function logs
when `Body.Close` fails, which differs in order between the sinks. -/
def doRequest (env : TransportEnv) (req : HttpRequest) (closeLogs : String → List LogEvent) :
    SendOutcome :=
  match env.response with
  | Except.error e =>
    ⟨some e, some req, [LogEvent.error ("failed to execute request: %s" ++ e),
      LogEvent.sentry (some e)]⟩
  | Except.ok resp =>
    let closing := match env.closeErr with
      | some e => closeLogs e
      | none => []
    if resp.StatusCode ≠ 204 then
      match resp.body with
      | Except.ok responseBody =>
        ⟨none, some req,
          [LogEvent.debug ("\x7b" ++ toString resp.StatusCode ++ "\x7d - \x7b" ++
            responseBody ++ "\x7d"), LogEvent.sentry none] ++ closing⟩
      | Except.error e =>
        ⟨none, some req, [LogEvent.debug e, LogEvent.sentry (some e)] ++ closing⟩
    else
      ⟨none, some req,
        [LogEvent.debug ("\x7b" ++ toString resp.StatusCode ++ "\x7d")] ++ closing⟩

/-- The struct `LokiHttpClient`; its `HttpClient` is represented by the answers in
`TransportEnv`. -/
structure LokiHttpClient where
  lokiUrl : String
deriving DecidableEq, Repr

/-- The struct `LokiProtoClient`. -/
structure LokiProtoClient where
  lokiUrl : String
deriving DecidableEq, Repr

/-- The method `LokiHttpClient.SendData`; `quote` is the JSON string encoding of the
`json` package and `data` is what `Marshal` reads of the batch the pointer refers to. -/
def LokiHttpClient.SendData (quote : String → String) (l : LokiHttpClient)
    (env : TransportEnv) (data : MarshalStreams) : SendOutcome :=
  match jsonMarshal quote data with
  | Except.error e => ⟨some e, none, [LogEvent.error e, LogEvent.sentry (some e)]⟩
  | Except.ok b =>
    match env.requestErr with
    | some e =>
      ⟨some e, none, [LogEvent.error ("failed to create new POST request: " ++ e),
        LogEvent.sentry (some e)]⟩
    | none =>
      doRequest env ⟨"POST", l.lokiUrl, "application/json", b⟩
        (fun e => [LogEvent.sentry (some e), LogEvent.error e])

/-- The method `LokiProtoClient.SendData` on the batch the pointer `data` refers to;
`streamSize` is the size in bytes of a `logproto.Stream` (a type of generated code),
`quote` is the `%q` verb, `now` the clock and `encode` is `proto.Marshal` followed by
`snappy.Encode`. The `Except.error` branch is a panic: of
`make([]logproto.Stream, 0, data.Count)` when `makeslice` rejects `data.Count`, or of
the index expression `entry.Values[0][1]`. -/
def LokiProtoClient.SendData (streamSize : Int) (quote : String → String) (now : Nat → Int)
    (encode : List logproto.Stream → Except String String) (l : LokiProtoClient)
    (env : TransportEnv) (data : LokiStreams) : Except String SendOutcome :=
  if makeslicePanics streamSize data.Count then Except.error "makeslice: cap out of range"
  else
    match appendStreams quote now 0 data.Streams [] with
    | Except.error e => Except.error e
    | Except.ok streams =>
      match encode streams with
      | Except.error e =>
        Except.ok ⟨some e, none, [LogEvent.error ("Failed to marshall into protobuffer " ++ e)]⟩
      | Except.ok b =>
        match env.requestErr with
        | some e =>
          Except.ok ⟨some e, none,
            [LogEvent.error ("failed to create new POST request: " ++ e),
              LogEvent.sentry (some e)]⟩
        | none =>
          Except.ok (doRequest env ⟨"POST", l.lokiUrl, "application/x-protobuf", b⟩
            (fun e => [LogEvent.error e, LogEvent.sentry (some e)]))

/-- A non-nil `ISpeedySink` as the factory returns it: one of the two clients. -/
inductive LokiSink where
  | http (client : LokiHttpClient)
  | proto (client : LokiProtoClient)
deriving DecidableEq, Repr

/-- The function `NewLokiHttpClient`. -/
def NewLokiHttpClient (lokiUrl : String) : LokiSink := LokiSink.http ⟨lokiUrl⟩

/-- The function `NewLokiProtoClient`. -/
def NewLokiProtoClient (lokiUrl : String) : LokiSink := LokiSink.proto ⟨lokiUrl⟩

/-- The function `LokiClientFactoryCreate`; `none` is the nil interface. -/
def LokiClientFactoryCreate (clientName lokiUrl : String) : Option LokiSink :=
  if clientName = "http" then some (NewLokiHttpClient lokiUrl)
  else if clientName = "proto" then some (NewLokiProtoClient lokiUrl)
  else none

/-- The URL a sink sends its requests to. -/
def LokiSink.lokiUrl : LokiSink → String
  | LokiSink.http client => client.lokiUrl
  | LokiSink.proto client => client.lokiUrl

/-! ## Further notions for the work list and the open batch -/

/-- The first `n` iterations of the `for` loop of `FlattenMap` (fewer when the work
list becomes empty before). -/
def flattenIterate {σ : Type} (grow : Nat → Nat → Nat) :
    Nat → FlattenState σ → Except String (FlattenState σ)
  | 0, st => Except.ok st
  | n + 1, st =>
    match st.stack with
    | [] => Except.ok st
    | element :: rest =>
      match processElement grow element { st with stack := rest } with
      | Except.error e => Except.error e
      | Except.ok st1 => flattenIterate grow n st1

/-- A well-formed work-list element: it is a `pair`; the root has the empty path and
holds a map; every other pair has a path of at least one segment. -/
def Element.WellFormed {σ : Type} : Element σ → Prop
  | Element.ofPair p =>
    (p.isRoot = true → p.key.len = 0 ∧ ∃ fs, p.value = Value.object fs) ∧
      (p.isRoot = false → 0 < p.key.len)
  | Element.other => False

/-- The invariant of a pusher built with thresholds of at least 1: besides
`Pusher.Inv`, the open batch is not full and its byte total is the sum of the sizes
of its entries, as a Go `int`. -/
structure Pusher.Tight (lp : Pusher) : Prop where
  inv : lp.Inv
  count : 1 ≤ lp.maxBatchSize
  bytes : 1 ≤ lp.maxBatchSizeBytes
  notFull : lp.currentStreams.IsFull = false
  total : lp.currentStreams.TotalSize = wrapInt (totalSize lp.currentStreams.Streams)

/-- The entry holds exactly one `[timestamp, line]` pair. -/
def LokiStream.hasOnePair (s : LokiStream) : Bool :=
  match s.Values with
  | [[_, _]] => true
  | _ => false

/-- The batch of `loki_test.go`: one entry with the label `label1=value` and the pair
`["0", "log-line"]`. -/
def sampleBatch : LokiStreams :=
  ⟨[⟨[("label1", "value")], [["0", "log-line"]], 0⟩], 0, 0, 0, 0⟩

/-- The panic, if any, that the binary sink raises when it is given a batch: the
`panics` of `Pusher.RunForeverWith` for a pusher whose sink is a `LokiProtoClient`. -/
def LokiProtoClient.panicOn (streamSize : Int) (quote : String → String) (now : Nat → Int)
    (encode : List logproto.Stream → Except String String) (l : LokiProtoClient)
    (env : TransportEnv) (data : LokiStreams) : Option String :=
  match LokiProtoClient.SendData streamSize quote now encode l env data with
  | Except.error msg => some msg
  | Except.ok _ => none

/-- A serialiser of stream records that succeeds with the text `bytes`. -/
def sampleEncode : List logproto.Stream → Except String String :=
  fun _ => Except.ok "bytes"

/-- Surroundings in which the request is built and answered with the given status
code and the response body `boom`. -/
def sampleTransport (status : Int) : TransportEnv :=
  ⟨none, Except.ok ⟨status, Except.ok "boom"⟩, none⟩

/-! ## Reading a JSON string literal

The notions below are not part of the program: they say how a reader of JSON
understands a string literal, and serve to state that the literals of the text sink
are well formed. -/

/-- The value of a hexadecimal digit. -/
def hexDigitValue (c : Char) : Option Nat :=
  let n := c.toNat
  if 48 ≤ n ∧ n ≤ 57 then some (n - 48)
  else if 97 ≤ n ∧ n ≤ 102 then some (n - 87)
  else if 65 ≤ n ∧ n ≤ 70 then some (n - 55)
  else none

/-- The character a short escape stands for: the character after the backslash in
one of the two-character escapes of JSON. -/
def jsonShortEscape (e : Char) : Option Char :=
  let n := e.toNat
  if n = 34 then some (Char.ofNat 34)
  else if n = 92 then some (Char.ofNat 92)
  else if n = 47 then some (Char.ofNat 47)
  else if n = 98 then some (Char.ofNat 8)
  else if n = 102 then some (Char.ofNat 12)
  else if n = 110 then some (Char.ofNat 10)
  else if n = 114 then some (Char.ofNat 13)
  else if n = 116 then some (Char.ofNat 9)
  else none

/-- The reading of the inside of a JSON string literal: the text between the two
quotes is read character by character, a backslash starting one of the escapes of
JSON; a raw quote or control character makes it ill-formed (`none`). Surrogate pairs
are not combined. -/
def jsonUnescape : List Char → Option (List Char)
  | [] => some []
  | c :: rest =>
    if c.toNat = 92 then
      match rest with
      | [] => none
      | e :: rest1 =>
        if e.toNat = 117 then
          match rest1 with
          | h1 :: h2 :: h3 :: h4 :: rest2 =>
            match hexDigitValue h1, hexDigitValue h2, hexDigitValue h3, hexDigitValue h4,
              jsonUnescape rest2 with
            | some d1, some d2, some d3, some d4, some r =>
              some (Char.ofNat (((d1 * 16 + d2) * 16 + d3) * 16 + d4) :: r)
            | _, _, _, _, _ => none
          | _ => none
        else
          match jsonShortEscape e, jsonUnescape rest1 with
          | some x, some r => some (x :: r)
          | _, _ => none
    else if c.toNat = 34 ∨ c.toNat < 32 then none
    else
      match jsonUnescape rest with
      | some r => some (c :: r)
      | none => none

/-- Whether the `\u` escape of the code point `n` reads back as `n`. -/
def uEscapeReadsBack (n : Nat) : Bool :=
  match (hexPadded 4 n).data with
  | [h1, h2, h3, h4] =>
    match hexDigitValue h1, hexDigitValue h2, hexDigitValue h3, hexDigitValue h4 with
    | some d1, some d2, some d3, some d4 => decide (((d1 * 16 + d2) * 16 + d3) * 16 + d4 = n)
    | _, _, _, _ => false
  | _ => false

/-! # Theorems -/

/-! ## Termination of `FlattenMap` -/

section FlattenTermination
variable {σ : Type}

theorem Value.nodes_pos (v : Value σ) : 0 < v.nodes := by
  cases v <;> simp [Value.nodes]

theorem goAppend_len (grow : Nat → Nat → Nat) (h : Heap) (s : StrSlice) (x : String) :
    (goAppend grow h s x).2.len = s.len + 1 := by
  unfold goAppend
  split <;> rfl

theorem pushFields_stack (grow : Nat → Nat → Nat) (p : pair σ)
    (fs : List (String × Value σ)) (st : FlattenState σ)
    (hgood : ∀ e ∈ st.stack, e.Good) :
    (∀ e ∈ (pushFields grow p fs st).stack, e.Good) ∧
      stackNodes (pushFields grow p fs st).stack =
        Value.nodes.fieldsNodes fs + stackNodes st.stack ∧
      (pushFields grow p fs st).returnValue = st.returnValue := by
  induction fs generalizing st with
  | nil => exact ⟨hgood, by simp [pushFields, Value.nodes.fieldsNodes], rfl⟩
  | cons f rest ih =>
    obtain ⟨key, val⟩ := f
    unfold pushFields
    split
    · rcases hs : singletonSlice st.heap key with ⟨h1, s⟩
      have hlen : s.len = 1 := by
        simp only [singletonSlice, Heap.alloc] at hs
        cases hs
        rfl
      have h := ih ⟨h1, Element.ofPair ⟨s, false, val⟩ :: st.stack, st.returnValue⟩
        (by
          intro e he
          rcases List.mem_cons.1 he with rfl | he
          · left
            show 0 < s.len
            omega
          · exact hgood e he)
      refine ⟨h.1, ?_, h.2.2⟩
      show stackNodes (pushFields grow p rest _).stack = _
      rw [h.2.1]
      simp only [stackNodes, Element.nodes, Value.nodes.fieldsNodes]
      omega
    · rcases hs : goAppend grow st.heap p.key key with ⟨h1, s⟩
      have hlen : s.len = p.key.len + 1 := by
        have := goAppend_len grow st.heap p.key key
        rw [hs] at this
        exact this
      have h := ih ⟨h1, Element.ofPair ⟨s, false, val⟩ :: st.stack, st.returnValue⟩
        (by
          intro e he
          rcases List.mem_cons.1 he with rfl | he
          · left
            show 0 < s.len
            omega
          · exact hgood e he)
      refine ⟨h.1, ?_, h.2.2⟩
      show stackNodes (pushFields grow p rest _).stack = _
      rw [h.2.1]
      simp only [stackNodes, Element.nodes, Value.nodes.fieldsNodes]
      omega

theorem pushItems_stack (p : pair σ) (hp : 0 < p.key.len) (lastKey : String) (index : Nat)
    (vs : List (Value σ)) (st : FlattenState σ)
    (hgood : ∀ e ∈ st.stack, e.Good) :
    (∀ e ∈ (pushItems p lastKey index vs st).stack, e.Good) ∧
      stackNodes (pushItems p lastKey index vs st).stack =
        Value.nodes.itemsNodes vs + stackNodes st.stack ∧
      (pushItems p lastKey index vs st).returnValue = st.returnValue := by
  induction vs generalizing st index with
  | nil => exact ⟨hgood, by simp [pushItems, Value.nodes.itemsNodes], rfl⟩
  | cons val rest ih =>
    unfold pushItems
    rcases hs : makeCopy st.heap p.key with ⟨h1, s⟩
    have hlen : s.len = p.key.len := by
      simp only [makeCopy, Heap.alloc] at hs
      cases hs
      rfl
    have h := ih (index + 1)
      ⟨h1.store s.arr (s.len - 1) (lastKey ++ "[" ++ toString index ++ "]"),
        Element.ofPair ⟨s, false, val⟩ :: st.stack, st.returnValue⟩
      (by
        intro e he
        rcases List.mem_cons.1 he with rfl | he
        · left
          show 0 < s.len
          omega
        · exact hgood e he)
    refine ⟨h.1, ?_, h.2.2⟩
    show stackNodes (pushItems p lastKey (index + 1) rest _).stack = _
    rw [h.2.1]
    simp only [stackNodes, Element.nodes, Value.nodes.itemsNodes]
    omega

/-- One iteration on a good work list does not fail, keeps the work list good and
replaces the popped node by its children. -/
theorem processElement_good (grow : Nat → Nat → Nat) (e : Element σ) (st : FlattenState σ)
    (he : e.Good) (hgood : ∀ x ∈ st.stack, x.Good) :
    ∃ st1, processElement grow e st = Except.ok st1 ∧ (∀ x ∈ st1.stack, x.Good) ∧
      stackNodes st1.stack + 1 = e.nodes + stackNodes st.stack := by
  cases e with
  | other => exact absurd he (by simp [Element.Good])
  | ofPair p =>
    obtain ⟨key, isRoot, value⟩ := p
    cases value with
    | scalar v =>
      refine ⟨_, rfl, hgood, ?_⟩
      simp only [Element.nodes, Value.nodes]
      omega
    | object fs =>
      have h := pushFields_stack grow ⟨key, isRoot, Value.object fs⟩ fs st hgood
      refine ⟨_, rfl, h.1, ?_⟩
      rw [h.2.1]
      simp only [Element.nodes, Value.nodes]
      omega
    | array vs =>
      have hk : 0 < key.len := by
        rcases he with h | ⟨fs, h⟩
        · exact h
        · cases h
      have hk0 : ¬ key.len = 0 := by omega
      have h := pushItems_stack ⟨key, isRoot, Value.array vs⟩ hk
        ((key.elems st.heap).getD (key.len - 1) "") 0 vs st hgood
      refine ⟨_, by simp only [processElement, hk0, if_false], h.1, ?_⟩
      rw [h.2.1]
      simp only [Element.nodes, Value.nodes]
      omega

theorem flattenLoop_nil (grow : Nat → Nat → Nat) (fuel : Nat) (heap : Heap)
    (rv : List (String × σ)) :
    flattenLoop grow fuel ⟨heap, [], rv⟩ = some (Except.ok rv) := by
  cases fuel <;> rfl

theorem flattenLoop_succ_cons (grow : Nat → Nat → Nat) (fuel : Nat) (heap : Heap)
    (e : Element σ) (rest : List (Element σ)) (rv : List (String × σ)) :
    flattenLoop grow (fuel + 1) ⟨heap, e :: rest, rv⟩ =
      match processElement grow e ⟨heap, rest, rv⟩ with
      | Except.error msg => some (Except.error msg)
      | Except.ok st1 => flattenLoop grow fuel st1 := rfl

/-- The loop on a good work list performs exactly one iteration per node still to
be visited: with that much fuel it stops with a result, with less it is still
running. -/
theorem flattenLoop_fuel (grow : Nat → Nat → Nat) (fuel : Nat) (st : FlattenState σ)
    (hgood : ∀ x ∈ st.stack, x.Good) :
    (stackNodes st.stack ≤ fuel → ∃ r, flattenLoop grow fuel st = some (Except.ok r)) ∧
      (fuel < stackNodes st.stack → flattenLoop grow fuel st = none) := by
  induction fuel generalizing st with
  | zero =>
    obtain ⟨heap, stack, rv⟩ := st
    cases stack with
    | nil => exact ⟨fun _ => ⟨rv, flattenLoop_nil _ _ _ _⟩, fun h => by simp [stackNodes] at h⟩
    | cons e rest =>
      refine ⟨fun h => ?_, fun _ => rfl⟩
      cases e with
      | other => exact absurd (hgood _ (List.mem_cons_self _ _)) (by simp [Element.Good])
      | ofPair p =>
        have := Value.nodes_pos p.value
        simp only [stackNodes, Element.nodes] at h
        omega
  | succ n ih =>
    obtain ⟨heap, stack, rv⟩ := st
    cases stack with
    | nil => exact ⟨fun _ => ⟨rv, flattenLoop_nil _ _ _ _⟩, fun h => by simp [stackNodes] at h⟩
    | cons e rest =>
      obtain ⟨st1, hst1, hg1, hn1⟩ := processElement_good grow e ⟨heap, rest, rv⟩
        (hgood _ (List.mem_cons_self _ _)) (fun x hx => hgood x (List.mem_cons_of_mem _ hx))
      have hstep : flattenLoop grow (n + 1) ⟨heap, e :: rest, rv⟩ = flattenLoop grow n st1 := by
        rw [flattenLoop_succ_cons, hst1]
      rw [hstep]
      simp only [stackNodes] at hn1 ⊢
      exact ⟨fun h => (ih st1 hg1).1 (by omega), fun h => (ih st1 hg1).2 (by omega)⟩

/-- More fuel does not change the outcome of a loop that has stopped. -/
theorem flattenLoop_mono (grow : Nat → Nat → Nat) (fuel k : Nat) (st : FlattenState σ)
    (r : Except String (List (String × σ))) (h : flattenLoop grow fuel st = some r) :
    flattenLoop grow (fuel + k) st = some r := by
  induction fuel generalizing st with
  | zero =>
    obtain ⟨heap, stack, rv⟩ := st
    cases stack with
    | nil =>
      rw [flattenLoop_nil] at h ⊢
      exact h
    | cons e rest => exact absurd h (by simp [flattenLoop])
  | succ n ih =>
    obtain ⟨heap, stack, rv⟩ := st
    cases stack with
    | nil =>
      rw [flattenLoop_nil] at h ⊢
      exact h
    | cons e rest =>
      have e1 : n + 1 + k = (n + k) + 1 := by omega
      rw [e1]
      rw [flattenLoop_succ_cons] at h ⊢
      cases hp : processElement grow e ⟨heap, rest, rv⟩ with
      | error msg =>
        rw [hp] at h
        exact h
      | ok st1 =>
        rw [hp] at h
        exact ih st1 h

/-- C8: `FlattenMap` terminates on every finite nested record, for every growth
policy of `append`: its work-list loop returns a result, it does so after exactly
one pop per node of the input (with fewer iterations the work list is still
non-empty), and further iterations do not change the result. -/
theorem FlattenMap_terminates (grow : Nat → Nat → Nat) (input : List (String × Value σ)) :
    (∃ result, FlattenMap grow input = some (Except.ok result)) ∧
      (∀ fuel, Value.nodes (Value.object input) ≤ fuel →
        flattenLoop grow fuel (flattenInit input) = FlattenMap grow input) ∧
      (∀ fuel, fuel < Value.nodes (Value.object input) →
        flattenLoop grow fuel (flattenInit input) = none) := by
  have hgood : ∀ x ∈ (flattenInit input).stack, x.Good := by
    intro x hx
    simp only [flattenInit, List.mem_singleton] at hx
    subst hx
    exact Or.inr ⟨input, rfl⟩
  have hn : stackNodes (flattenInit input).stack = Value.nodes (Value.object input) := by
    simp [flattenInit, stackNodes, Element.nodes]
  obtain ⟨r, hr⟩ := (flattenLoop_fuel grow _ (flattenInit input) hgood).1 (le_of_eq hn)
  refine ⟨⟨r, hr⟩, fun fuel hf => ?_, fun fuel hf => ?_⟩
  · obtain ⟨k, rfl⟩ := Nat.exists_eq_add_of_le hf
    unfold FlattenMap
    rw [hr]
    exact flattenLoop_mono grow _ k _ _ hr
  · exact (flattenLoop_fuel grow fuel (flattenInit input) hgood).2 (by omega)

end FlattenTermination

/-! ## The keys `FlattenMap` builds for nested maps -/

/-- C1 (evaluation at a failing input): for the record
`{"a":{"b":{"c":{"xs":[10,20],"y":3}}}}`, whose three leaves have the distinct
structural paths `a.b.c.xs[0]`, `a.b.c.xs[1]` and `a.b.c.y`, `FlattenMap` returns the
keys `a.b.c.y`, `a.b.c.y[1]` and `a.b.c.y[0]`: the entries for the two list elements
are missing and two keys that are no leaf's path are present. -/
theorem FlattenMap_misnames_list_beside_sibling :
    FlattenMap goGrowCap
        [("a", Value.object [("b", Value.object [("c", Value.object
          [("xs", Value.array [Value.scalar 10, Value.scalar 20]), ("y", Value.scalar 3)])])])] =
      some (Except.ok [("a.b.c.y", 3), ("a.b.c.y[1]", 20), ("a.b.c.y[0]", 10)]) ∧
    Value.leaves [] (Value.object
        [("a", Value.object [("b", Value.object [("c", Value.object
          [("xs", Value.array [Value.scalar 10, Value.scalar 20]), ("y", Value.scalar 3)])])])]) =
      [("a.b.c.xs[0]", 10), ("a.b.c.xs[1]", 20), ("a.b.c.y", 3)] := by
  decide

/-- C9 (evaluation at a failing input): for the record
`{"a":{"b":{"c":{"d":1,"e":2}}}}` the two siblings `d` and `e` end up under one key.
When the map is ranged over in the order `d`, `e` the result is `{"a.b.c.e": 1}`, in
the order `e`, `d` it is `{"a.b.c.d": 2}`; the specified result has the two entries
`a.b.c.d = 1` and `a.b.c.e = 2`. -/
theorem FlattenMap_deep_siblings_share_key :
    FlattenMap goGrowCap
        [("a", Value.object [("b", Value.object [("c", Value.object
          [("d", Value.scalar 1), ("e", Value.scalar 2)])])])] =
      some (Except.ok [("a.b.c.e", 1)]) ∧
    FlattenMap goGrowCap
        [("a", Value.object [("b", Value.object [("c", Value.object
          [("e", Value.scalar 2), ("d", Value.scalar 1)])])])] =
      some (Except.ok [("a.b.c.d", 2)]) ∧
    Value.leaves [] (Value.object
        [("a", Value.object [("b", Value.object [("c", Value.object
          [("d", Value.scalar 1), ("e", Value.scalar 2)])])])]) =
      [("a.b.c.d", 1), ("a.b.c.e", 2)] := by
  decide

/-! ## Batches -/

theorem wrapInt_of_isInt (x : Int) (h : IsInt x) : wrapInt x = x := by
  unfold IsInt at h
  unfold wrapInt
  norm_num at h ⊢
  omega

theorem wrapInt_add_left (x y : Int) : wrapInt (wrapInt x + y) = wrapInt (x + y) := by
  unfold wrapInt
  norm_num
  omega

theorem wrapInt_zero : wrapInt 0 = 0 := by decide

theorem foldl_AddData (es : List LokiStream) (b : LokiStreams) (c t : Int)
    (hc : b.Count = wrapInt c) (ht : b.TotalSize = wrapInt t) :
    (es.foldl LokiStreams.AddData b).Streams = b.Streams ++ es ∧
    (es.foldl LokiStreams.AddData b).Count = wrapInt (c + es.length) ∧
    (es.foldl LokiStreams.AddData b).TotalSize = wrapInt (t + totalSize es) ∧
    (es.foldl LokiStreams.AddData b).bufferMaxBatchSize = b.bufferMaxBatchSize ∧
    (es.foldl LokiStreams.AddData b).bufferMaxByteSize = b.bufferMaxByteSize := by
  induction es generalizing b c t with
  | nil => simp [totalSize, hc, ht]
  | cons e rest ih =>
    have h := ih (b.AddData e) (c + 1) (t + e.Size)
      (by simp only [LokiStreams.AddData, hc, wrapInt_add_left])
      (by simp only [LokiStreams.AddData, ht, wrapInt_add_left])
    simp only [List.foldl_cons]
    refine ⟨?_, ?_, ?_, h.2.2.2.1, h.2.2.2.2⟩
    · rw [h.1]; simp [LokiStreams.AddData]
    · rw [h.2.1]; congr 1; simp; ring
    · rw [h.2.2.1]; congr 1; simp [totalSize]; ring

theorem IsFull_iff (b : LokiStreams) :
    b.IsFull = true ↔ b.Count ≥ b.bufferMaxBatchSize ∨ b.TotalSize ≥ b.bufferMaxByteSize := by
  unfold LokiStreams.IsFull
  split
  · simp_all
  · split <;> simp_all

theorem IsFull_after_appends (maxCount maxBytes : Int) (b : LokiStreams)
    (es : List LokiStream) (hb : NewLokiStreams maxCount maxBytes = Except.ok b)
    (hk : IsInt es.length) (hs : IsInt (totalSize es)) :
    (es.foldl LokiStreams.AddData b).IsFull = true ↔
      (es.length : Int) ≥ maxCount ∨ totalSize es ≥ maxBytes := by
  unfold NewLokiStreams at hb
  split at hb
  · cases hb
  · cases hb
    have h := foldl_AddData es
      { Streams := [], Count := 0, TotalSize := 0, bufferMaxBatchSize := maxCount,
        bufferMaxByteSize := maxBytes } 0 0 wrapInt_zero.symm wrapInt_zero.symm
    rw [IsFull_iff, h.2.1, h.2.2.1, h.2.2.2.1, h.2.2.2.2]
    simp only [zero_add]
    rw [wrapInt_of_isInt _ hk, wrapInt_of_isInt _ hs]

/-! ## One arrival and one flush -/

theorem setTimestamp_ok (a : Arrival) (h : a.data.hasTimestamp = true) :
    setTimestamp a.data a.timestamp = Except.ok a.stamped := by
  unfold LokiStream.hasTimestamp at h
  unfold Arrival.stamped setTimestamp
  split at h
  · rename_i heq
    simp [heq]
  · cases h

theorem setTimestamp_eq_ok (a : Arrival) (s : LokiStream)
    (h : setTimestamp a.data a.timestamp = Except.ok s) :
    a.data.hasTimestamp = true ∧ s = a.stamped := by
  unfold Arrival.stamped
  rw [h]
  refine ⟨?_, rfl⟩
  unfold setTimestamp at h
  unfold LokiStream.hasTimestamp
  split at h
  · cases h
  · cases h
  · rename_i heq
    simp [heq]

theorem makeslicePanics_false (a : Int) :
    makeslicePanics 40 a = false ↔ 0 ≤ a ∧ 40 * a ≤ 2 ^ 48 := by
  unfold makeslicePanics
  rw [decide_eq_false_iff_not]
  omega

theorem NewLokiStreams_ok (a b : Int) (h : makeslicePanics 40 a = false) :
    NewLokiStreams a b = Except.ok ⟨[], 0, 0, a, b⟩ := by
  unfold NewLokiStreams
  rw [h]
  rfl

theorem NewLokiStreams_eq_ok (a b : Int) (fresh : LokiStreams)
    (h : NewLokiStreams a b = Except.ok fresh) :
    makeslicePanics 40 a = false ∧ fresh = ⟨[], 0, 0, a, b⟩ := by
  unfold NewLokiStreams at h
  cases hp : makeslicePanics 40 a with
  | true => rw [hp] at h; cases h
  | false =>
    rw [hp] at h
    cases h
    exact ⟨rfl, rfl⟩

theorem flushCurrentBatch_eq (lp : Pusher) (env : FlushEnv)
    (h : makeslicePanics 40 lp.maxBatchSize = false) :
    lp.flushCurrentBatch env =
      if lp.currentStreams.Count = 0 then Except.ok lp
      else Except.ok
        { lp with
          speedySink := ⟨lp.speedySink.calls ++
            [SinkCall.SendData lp.currentStreams env.sendErr]⟩
          lastFlush := env.now
          currentStreams := lp.freshBatch } := by
  unfold Pusher.flushCurrentBatch
  rw [NewLokiStreams_ok _ _ h]
  rfl

theorem AddData_count (lp : Pusher) (h : lp.Inv) (s : LokiStream) :
    (lp.currentStreams.AddData s).Count = (lp.currentStreams.Streams ++ [s]).length ∧
      (lp.currentStreams.AddData s).Count ≠ 0 := by
  have hc := h.count
  have hr := h.room
  have hi := h.isInt
  have hw : wrapInt (lp.currentStreams.Count + 1) = lp.currentStreams.Count + 1 := by
    apply wrapInt_of_isInt
    unfold IsInt
    norm_num at hi ⊢
    omega
  simp only [LokiStreams.AddData, hw, List.length_append, List.length_singleton]
  constructor
  · rw [hc]; push_cast; ring
  · omega

/-- What one arrival does to a pusher satisfying the invariant. -/
theorem receive_spec (lp lp1 : Pusher) (a : Arrival) (h : lp.Inv)
    (hr : lp.receive a = Except.ok lp1) :
    lp1.Inv ∧ a.data.hasTimestamp = true ∧
      lp1.maxBatchSize = lp.maxBatchSize ∧ lp1.maxBatchSizeBytes = lp.maxBatchSizeBytes ∧
      lp1.SecondsToFlush = lp.SecondsToFlush ∧
      ((lp1.speedySink = lp.speedySink ∧
          lp1.currentStreams = lp.currentStreams.AddData a.stamped ∧
          lp1.lastFlush = lp.lastFlush ∧
          (lp.currentStreams.AddData a.stamped).IsFull = false) ∨
        (lp1.speedySink.calls = lp.speedySink.calls ++
            [SinkCall.SendData (lp.currentStreams.AddData a.stamped) a.flush.sendErr] ∧
          lp1.currentStreams = lp.freshBatch ∧
          lp1.lastFlush = a.flush.now ∧
          (lp.currentStreams.AddData a.stamped).IsFull = true)) := by
  unfold Pusher.receive at hr
  cases hst : setTimestamp a.data a.timestamp with
  | error e => rw [hst] at hr; cases hr
  | ok data =>
    obtain ⟨hts, rfl⟩ := setTimestamp_eq_ok a data hst
    rw [hst] at hr
    simp only at hr
    have hcnt := AddData_count lp h a.stamped
    by_cases hfull : (lp.currentStreams.AddData a.stamped).IsFull = true
    · have hf := flushCurrentBatch_eq
        { lp with currentStreams := lp.currentStreams.AddData a.stamped } a.flush h.alloc
      rw [if_pos hfull, hf, if_neg hcnt.2] at hr
      cases hr
      refine ⟨⟨?_, ?_, ?_, ?_, h.nonneg, h.isInt, h.interval, h.alloc⟩, hts, rfl, rfl, rfl, Or.inr ⟨rfl, rfl, rfl, hfull⟩⟩
      · simp [Pusher.freshBatch]
      · left; rfl
      · rfl
      · rfl
    · rw [if_neg hfull] at hr
      cases hr
      have hnf : (lp.currentStreams.AddData a.stamped).IsFull = false := by
        simpa using hfull
      refine ⟨⟨?_, ?_, ?_, ?_, h.nonneg, h.isInt, h.interval, h.alloc⟩, hts, rfl, rfl, rfl, Or.inl ⟨rfl, rfl, rfl, hnf⟩⟩
      · rw [hcnt.1]; rfl
      · right
        unfold LokiStreams.IsFull at hnf
        split at hnf
        · cases hnf
        · split at hnf
          · cases hnf
          · rename_i h1 h2
            have := h.batchSize
            simp only [LokiStreams.AddData] at h2 ⊢
            omega
      · exact h.batchSize
      · exact h.byteSize

theorem receive_ok (lp : Pusher) (a : Arrival) (h : lp.Inv)
    (hts : a.data.hasTimestamp = true) : ∃ lp1, lp.receive a = Except.ok lp1 := by
  unfold Pusher.receive
  rw [setTimestamp_ok a hts]
  simp only
  split
  · have hf := flushCurrentBatch_eq
      { lp with currentStreams := lp.currentStreams.AddData a.stamped } a.flush h.alloc
    rw [hf]
    split <;> exact ⟨_, rfl⟩
  · exact ⟨_, rfl⟩

/-! ## Flushes, arrivals and the drain loop as seen by the sink -/

theorem sentEntries_append (xs ys : List SinkCall) :
    sentEntries (xs ++ ys) = sentEntries xs ++ sentEntries ys := by
  induction xs with
  | nil => rfl
  | cons c rest ih =>
    cases c <;> simp [sentEntries, ih]

theorem Inv.streams_eq_nil_iff (lp : Pusher) (h : lp.Inv) :
    lp.currentStreams.Count = 0 ↔ lp.currentStreams.Streams = [] := by
  rw [h.count]
  constructor
  · intro h0
    exact List.length_eq_zero.1 (by exact_mod_cast h0)
  · intro h0
    rw [h0]; rfl

theorem freshBatch_inv (lp : Pusher) (h : lp.Inv) (sink : SpeedySink) (t : Int) :
    Pusher.Inv { lp with speedySink := sink, lastFlush := t, currentStreams := lp.freshBatch } :=
  ⟨rfl, Or.inl rfl, rfl, rfl, h.nonneg, h.isInt, h.interval, h.alloc⟩

/-- A flush of a pusher satisfying the invariant: nothing happens when the open batch
is empty; otherwise the batch goes to `SendData` and a fresh batch takes its place. -/
theorem flushCurrentBatch_spec (lp : Pusher) (env : FlushEnv) (h : lp.Inv) :
    (lp.currentStreams.Streams = [] → lp.flushCurrentBatch env = Except.ok lp) ∧
      (lp.currentStreams.Streams ≠ [] → lp.flushCurrentBatch env = Except.ok
        { lp with
          speedySink := ⟨lp.speedySink.calls ++
            [SinkCall.SendData lp.currentStreams env.sendErr]⟩
          lastFlush := env.now
          currentStreams := lp.freshBatch }) := by
  rw [flushCurrentBatch_eq lp env h.alloc]
  constructor
  · intro h0
    rw [if_pos ((Inv.streams_eq_nil_iff lp h).2 h0)]
  · intro h0
    rw [if_neg (fun hc => h0 ((Inv.streams_eq_nil_iff lp h).1 hc))]

/-- The calls a flush adds, and what it leaves in the open batch. -/
theorem flushCurrentBatch_trace (lp : Pusher) (env : FlushEnv) (h : lp.Inv) :
    ∃ lp1 sends, lp.flushCurrentBatch env = Except.ok lp1 ∧ lp1.Inv ∧
      lp1.maxBatchSize = lp.maxBatchSize ∧ lp1.maxBatchSizeBytes = lp.maxBatchSizeBytes ∧
      lp1.SecondsToFlush = lp.SecondsToFlush ∧
      lp1.speedySink.calls = lp.speedySink.calls ++ sends ∧
      (∀ c ∈ sends, ∃ b err, c = SinkCall.SendData b err ∧ b.Streams ≠ []) ∧
      sends.length ≤ 1 ∧
      sentEntries sends = lp.currentStreams.Streams ∧
      lp1.currentStreams.Streams = [] := by
  have hs := flushCurrentBatch_spec lp env h
  by_cases h0 : lp.currentStreams.Streams = []
  · refine ⟨lp, [], hs.1 h0, h, rfl, rfl, rfl, by simp, by simp, by simp, ?_, h0⟩
    rw [h0]; rfl
  · refine ⟨_, [SinkCall.SendData lp.currentStreams env.sendErr], hs.2 h0,
      freshBatch_inv lp h _ _, rfl, rfl, rfl, rfl, ?_, by simp, by simp [sentEntries], rfl⟩
    intro c hc
    rw [List.mem_singleton] at hc
    exact ⟨_, _, hc, h0⟩

/-- The calls one arrival adds, and what it leaves in the open batch. -/
theorem receive_trace (lp lp1 : Pusher) (a : Arrival) (h : lp.Inv)
    (hr : lp.receive a = Except.ok lp1) :
    ∃ sends, lp1.speedySink.calls = lp.speedySink.calls ++ sends ∧
      (∀ c ∈ sends, ∃ b err, c = SinkCall.SendData b err ∧ b.Streams ≠ [] ∧ b.IsFull = true) ∧
      sentEntries sends ++ lp1.currentStreams.Streams =
        lp.currentStreams.Streams ++ [a.stamped] := by
  obtain ⟨-, -, -, -, -, hcase⟩ := receive_spec lp lp1 a h hr
  rcases hcase with ⟨hs, hc, -, -⟩ | ⟨hs, hc, -, hfull⟩
  · refine ⟨[], by simp [hs], by simp, ?_⟩
    rw [hc]
    simp [sentEntries, LokiStreams.AddData]
  · refine ⟨[SinkCall.SendData (lp.currentStreams.AddData a.stamped) a.flush.sendErr], hs, ?_, ?_⟩
    · intro c hc
      rw [List.mem_singleton] at hc
      exact ⟨_, _, hc, by simp [LokiStreams.AddData], hfull⟩
    · rw [hc]
      simp [sentEntries, LokiStreams.AddData, Pusher.freshBatch]

/-- The drain loop of a shutdown: it does not fail on entries that have a timestamp
slot, it only adds `SendData` calls with full batches, and every entry is either
sent or in the open batch afterwards. -/
theorem drain_spec (queued : List Arrival) (lp : Pusher) (h : lp.Inv)
    (hts : ∀ a ∈ queued, a.data.hasTimestamp = true) :
    ∃ lp1 sends, lp.drain queued = Except.ok lp1 ∧ lp1.Inv ∧
      lp1.speedySink.calls = lp.speedySink.calls ++ sends ∧
      (∀ c ∈ sends, ∃ b err, c = SinkCall.SendData b err ∧ b.Streams ≠ [] ∧ b.IsFull = true) ∧
      sentEntries sends ++ lp1.currentStreams.Streams =
        lp.currentStreams.Streams ++ queued.map Arrival.stamped := by
  induction queued generalizing lp with
  | nil => exact ⟨lp, [], rfl, h, by simp, by simp, by simp [sentEntries]⟩
  | cons a rest ih =>
    obtain ⟨lp1, hr⟩ := receive_ok lp a h (hts a (List.mem_cons_self _ _))
    have hinv := (receive_spec lp lp1 a h hr).1
    obtain ⟨s1, hc1, hf1, he1⟩ := receive_trace lp lp1 a h hr
    obtain ⟨lp2, s2, hd, hinv2, hc2, hf2, he2⟩ :=
      ih lp1 hinv (fun x hx => hts x (List.mem_cons_of_mem _ hx))
    refine ⟨lp2, s1 ++ s2, ?_, hinv2, ?_, ?_, ?_⟩
    · simp only [Pusher.drain, hr]
      exact hd
    · rw [hc2, hc1, List.append_assoc]
    · intro c hc
      rcases List.mem_append.1 hc with hc | hc
      · exact hf1 c hc
      · exact hf2 c hc
    · rw [sentEntries_append, List.append_assoc, he2, ← List.append_assoc, he1]
      simp

/-! ## Runs of `RunForever` -/

theorem RunForever_data (lp : Pusher) (a : Arrival) (rest : List Event) :
    lp.RunForever (Event.data a :: rest) =
      match lp.receive a with
      | Except.error e => Except.error e
      | Except.ok lp1 => lp1.RunForever rest := rfl

theorem RunForever_tick (lp : Pusher) (now : Int) (env : FlushEnv) (rest : List Event) :
    lp.RunForever (Event.tick now env :: rest) =
      if Milliseconds (timeSub now lp.lastFlush) ≥ Milliseconds lp.SecondsToFlush then
        match lp.flushCurrentBatch env with
        | Except.error e => Except.error e
        | Except.ok lp1 => lp1.RunForever rest
      else lp.RunForever rest := rfl

theorem RunForever_shutdown (lp : Pusher) (queued : List Arrival) (final : FlushEnv)
    (rest : List Event) :
    lp.RunForever (Event.shutdown queued final :: rest) =
      match lp.drain queued with
      | Except.error e => Except.error e
      | Except.ok lp1 =>
        match lp1.flushCurrentBatch final with
        | Except.error e => Except.error e
        | Except.ok lp2 =>
          Except.ok (RunState.returned
            { lp2 with speedySink := ⟨lp2.speedySink.calls ++ [SinkCall.Shutdown]⟩ }) := rfl

theorem sentBatches_append (xs ys : List SinkCall) :
    sentBatches (xs ++ ys) = sentBatches xs ++ sentBatches ys := by
  induction xs with
  | nil => rfl
  | cons c rest ih =>
    cases c <;> simp [sentBatches, ih]

theorem sentBatches_full (sends : List SinkCall)
    (h : ∀ c ∈ sends, ∃ b err, c = SinkCall.SendData b err ∧ b.Streams ≠ [] ∧ b.IsFull = true) :
    ∀ b ∈ sentBatches sends, b.IsFull = true := by
  induction sends with
  | nil => intro b hb; simp [sentBatches] at hb
  | cons c rest ih =>
    intro b hb
    obtain ⟨b1, err, rfl, -, hfull⟩ := h c (List.mem_cons_self _ _)
    simp only [sentBatches, List.mem_cons] at hb
    rcases hb with rfl | hb
    · exact hfull
    · exact ih (fun x hx => h x (List.mem_cons_of_mem _ hx)) b hb

/-- The entries a successful drain has taken all had a timestamp slot. -/
theorem drain_hasTimestamp (queued : List Arrival) (lp lp1 : Pusher) (h : lp.Inv)
    (hd : lp.drain queued = Except.ok lp1) : ∀ a ∈ queued, a.data.hasTimestamp = true := by
  induction queued generalizing lp with
  | nil => intro a ha; cases ha
  | cons a rest ih =>
    simp only [Pusher.drain] at hd
    cases hrec : lp.receive a with
    | error e => rw [hrec] at hd; cases hd
    | ok lp2 =>
      rw [hrec] at hd
      obtain ⟨hinv, hts, -⟩ := receive_spec lp lp2 a h hrec
      intro x hx
      rcases List.mem_cons.1 hx with rfl | hx
      · exact hts
      · exact ih lp2 hinv hd x hx

/-- A shutdown request received by a pusher satisfying the invariant. -/
theorem shutdown_spec (lp : Pusher) (h : lp.Inv) (queued : List Arrival) (final : FlushEnv)
    (rest : List Event) (hts : ∀ a ∈ queued, a.data.hasTimestamp = true) :
    ∃ lp1 sends, lp.RunForever (Event.shutdown queued final :: rest) =
        Except.ok (RunState.returned lp1) ∧
      lp1.speedySink.calls = lp.speedySink.calls ++ sends ++ [SinkCall.Shutdown] ∧
      (∀ c ∈ sends, ∃ b err, c = SinkCall.SendData b err ∧ b.Streams ≠ []) ∧
      (∀ b ∈ (sentBatches sends).dropLast, b.IsFull = true) ∧
      sentEntries sends = lp.currentStreams.Streams ++ queued.map Arrival.stamped ∧
      lp1.currentStreams.Streams = [] := by
  obtain ⟨lp1, s1, hd, hinv1, hc1, hf1, he1⟩ := drain_spec queued lp h hts
  obtain ⟨lp2, s2, hfl, -, -, -, -, hc2, hf2, hlen2, he2, hem2⟩ :=
    flushCurrentBatch_trace lp1 final hinv1
  refine ⟨{ lp2 with speedySink := ⟨lp2.speedySink.calls ++ [SinkCall.Shutdown]⟩ }, s1 ++ s2,
    ?_, ?_, ?_, ?_, ?_, hem2⟩
  · rw [RunForever_shutdown, hd]
    simp only [hfl]
  · simp only [hc2, hc1, List.append_assoc]
  · intro c hc
    rcases List.mem_append.1 hc with hc | hc
    · obtain ⟨b, err, hb, hne, -⟩ := hf1 c hc
      exact ⟨b, err, hb, hne⟩
    · exact hf2 c hc
  · intro b hb
    have hfull := sentBatches_full s1 hf1
    rw [sentBatches_append] at hb
    cases s2 with
    | nil =>
      simp only [sentBatches, List.append_nil] at hb
      exact hfull b (List.dropLast_subset _ hb)
    | cons c rest =>
      cases rest with
      | nil =>
        obtain ⟨b2, err, rfl, -⟩ := hf2 c (List.mem_cons_self _ _)
        simp only [sentBatches, List.dropLast_concat] at hb
        exact hfull b hb
      | cons c2 rest2 => simp at hlen2
  · rw [sentEntries_append, he2, ← he1]

/-- What a run of `RunForever` from a pusher satisfying the invariant has done when it
does not fail. -/
theorem RunForever_spec (events : List Event) (lp : Pusher) (r : RunState) (h : lp.Inv)
    (hr : lp.RunForever events = Except.ok r) :
    r.isReturned = hasShutdown events ∧ (r.isReturned = false → r.pusher.Inv) ∧
      ∃ sends, r.pusher.speedySink.calls =
          lp.speedySink.calls ++ sends ++ (if r.isReturned then [SinkCall.Shutdown] else []) ∧
        (∀ c ∈ sends, ∃ b err, c = SinkCall.SendData b err ∧ b.Streams ≠ []) ∧
        sentEntries sends ++ r.pusher.currentStreams.Streams =
          lp.currentStreams.Streams ++ (entriesTaken events).map Arrival.stamped ∧
        (r.isReturned = true → r.pusher.currentStreams.Streams = []) := by
  induction events generalizing lp with
  | nil =>
    cases hr
    exact ⟨rfl, fun _ => h, [], by simp [RunState.pusher, RunState.isReturned],
      by simp, by simp [sentEntries, entriesTaken, RunState.pusher],
      by simp [RunState.isReturned]⟩
  | cons ev rest ih =>
    cases ev with
    | data a =>
      rw [RunForever_data] at hr
      cases hrec : lp.receive a with
      | error e => rw [hrec] at hr; cases hr
      | ok lp1 =>
        rw [hrec] at hr
        have hinv := (receive_spec lp lp1 a h hrec).1
        obtain ⟨s1, hc1, hf1, he1⟩ := receive_trace lp lp1 a h hrec
        obtain ⟨hret, hri, s2, hc2, hf2, he2, hem⟩ := ih lp1 hinv hr
        refine ⟨by simpa [hasShutdown] using hret, hri, s1 ++ s2, ?_, ?_, ?_, hem⟩
        · rw [hc2, hc1]; simp
        · intro c hc
          rcases List.mem_append.1 hc with hc | hc
          · obtain ⟨b, err, hb, hne, -⟩ := hf1 c hc
            exact ⟨b, err, hb, hne⟩
          · exact hf2 c hc
        · rw [sentEntries_append, List.append_assoc, he2, ← List.append_assoc, he1]
          simp [entriesTaken]
    | tick now env =>
      rw [RunForever_tick] at hr
      by_cases hcond : Milliseconds (timeSub now lp.lastFlush) ≥ Milliseconds lp.SecondsToFlush
      · rw [if_pos hcond] at hr
        obtain ⟨lp1, s1, hfl, hinv, -, -, -, hc1, hf1, -, he1, hem1⟩ :=
          flushCurrentBatch_trace lp env h
        rw [hfl] at hr
        obtain ⟨hret, hri, s2, hc2, hf2, he2, hem⟩ := ih lp1 hinv hr
        refine ⟨by simpa [hasShutdown] using hret, hri, s1 ++ s2, ?_, ?_, ?_, hem⟩
        · rw [hc2, hc1]; simp
        · intro c hc
          rcases List.mem_append.1 hc with hc | hc
          · exact hf1 c hc
          · exact hf2 c hc
        · rw [sentEntries_append, List.append_assoc, he2, hem1, he1]
          simp [entriesTaken]
      · rw [if_neg hcond] at hr
        obtain ⟨hret, hri, s2, hc2, hf2, he2, hem⟩ := ih lp h hr
        exact ⟨by simpa [hasShutdown] using hret, hri, s2, hc2, hf2,
          by simpa [entriesTaken] using he2, hem⟩
    | shutdown queued final =>
      have hts : ∀ a ∈ queued, a.data.hasTimestamp = true := by
        rw [RunForever_shutdown] at hr
        cases hd : lp.drain queued with
        | error e => rw [hd] at hr; cases hr
        | ok lp1 => exact drain_hasTimestamp queued lp lp1 h hd
      obtain ⟨lp1, sends, hrun, hc, hf, -, he, hem⟩ := shutdown_spec lp h queued final rest hts
      rw [hrun] at hr
      cases hr
      refine ⟨rfl, fun hx => absurd hx (by simp [RunState.isReturned]), sends,
        by simpa [RunState.pusher, RunState.isReturned] using hc, hf, ?_, fun _ => hem⟩
      simp only [RunState.pusher, hem, List.append_nil, entriesTaken]
      exact he

/-- The method `RunForever` does not fail when every entry it takes has a timestamp slot. -/
theorem RunForever_ok (events : List Event) (lp : Pusher) (h : lp.Inv)
    (hts : ∀ a ∈ entriesTaken events, a.data.hasTimestamp = true) :
    ∃ r, lp.RunForever events = Except.ok r := by
  induction events generalizing lp with
  | nil => exact ⟨_, rfl⟩
  | cons ev rest ih =>
    cases ev with
    | data a =>
      obtain ⟨lp1, hrec⟩ := receive_ok lp a h (hts a (by simp [entriesTaken]))
      rw [RunForever_data, hrec]
      exact ih lp1 (receive_spec lp lp1 a h hrec).1
        (fun x hx => hts x (by simp [entriesTaken, hx]))
    | tick now env =>
      rw [RunForever_tick]
      obtain ⟨lp1, s1, hfl, hinv, -⟩ := flushCurrentBatch_trace lp env h
      split
      · rw [hfl]
        exact ih lp1 hinv (fun x hx => hts x (by simpa [entriesTaken] using hx))
      · exact ih lp h (fun x hx => hts x (by simpa [entriesTaken] using hx))
    | shutdown queued final =>
      obtain ⟨lp1, sends, hrun, -⟩ := shutdown_spec lp h queued final rest
        (fun x hx => hts x (by simpa [entriesTaken] using hx))
      exact ⟨_, hrun⟩

/-- A pusher built by `NewPusher` from thresholds that are Go integers satisfies the
invariant, whatever `Duration` its flush interval is set to. -/
theorem NewPusher_inv (sink : Option SpeedySink) (a b now d : Int) (lp0 : Pusher)
    (ha : IsInt a) (hd : IsInt d) (hnew : NewPusher sink a b now = Except.ok lp0) :
    Pusher.Inv { lp0 with SecondsToFlush := d } ∧ lp0.currentStreams = ⟨[], 0, 0, a, b⟩ ∧
      lp0.maxBatchSize = a ∧ lp0.maxBatchSizeBytes = b ∧ 0 ≤ a ∧
      (∀ s, sink = some s → lp0.speedySink = s) ∧ lp0.lastFlush = now := by
  unfold NewPusher at hnew
  cases sink with
  | none => cases hnew
  | some s =>
    simp only at hnew
    cases hp : makeslicePanics 40 a with
    | true => simp [NewLokiStreams, hp] at hnew
    | false =>
      have h0' : 0 ≤ a := ((makeslicePanics_false a).1 hp).1
      rw [NewLokiStreams_ok a b hp] at hnew
      cases hnew
      refine ⟨⟨rfl, Or.inl rfl, rfl, rfl, h0', ha.2, hd, hp⟩, rfl, rfl, rfl, h0', ?_, rfl⟩
      intro s' hs'
      cases hs'
      rfl

theorem Reachable.inv (lp : Pusher) (h : lp.Reachable) : lp.Inv := by
  obtain ⟨sink, a, b, now, d, events, lp0, ha, -, hd, hnew, hrun⟩ := h
  have hinv := (NewPusher_inv (some sink) a b now d lp0 ha hd hnew).1
  exact (RunForever_spec events _ _ hinv hrun).2.1 rfl

/-! ## The timer -/

theorem Milliseconds_mono (a b : Int) (h : a ≤ b) : Milliseconds a ≤ Milliseconds b := by
  unfold Milliseconds
  rcases le_or_lt 0 a with ha | ha
  · rw [Int.tdiv_eq_ediv ha (by norm_num), Int.tdiv_eq_ediv (le_trans ha h) (by norm_num)]
    omega
  · obtain ⟨a', rfl⟩ : ∃ a', a = -a' := ⟨-a, by simp⟩
    rw [Int.neg_tdiv, Int.tdiv_eq_ediv (by omega) (by norm_num)]
    rcases le_or_lt 0 b with hb | hb
    · rw [Int.tdiv_eq_ediv hb (by norm_num)]
      omega
    · obtain ⟨b', rfl⟩ : ∃ b', b = -b' := ⟨-b, by simp⟩
      rw [Int.neg_tdiv, Int.tdiv_eq_ediv (by omega) (by norm_num)]
      omega

theorem tick_due (now last d : Int) (hd : IsInt d) (h : d ≤ now - last) :
    Milliseconds (timeSub now last) ≥ Milliseconds d := by
  apply Milliseconds_mono
  unfold timeSub
  unfold IsInt at hd
  norm_num at hd
  omega

/-! ## Runs made of arrivals -/

theorem stamped_Size (a : Arrival) : a.stamped.Size = a.data.Size := by
  unfold Arrival.stamped setTimestamp
  split
  · rename_i s hs
    split at hs
    · cases hs
    · cases hs
    · cases hs; rfl
  · rfl

theorem totalSize_map_stamped (as : List Arrival) :
    totalSize (as.map Arrival.stamped) = totalSize (as.map Arrival.data) := by
  induction as with
  | nil => rfl
  | cons a rest ih =>
    simp only [totalSize, List.map_cons, List.sum_cons] at ih ⊢
    rw [ih, stamped_Size]

theorem totalSize_append (xs ys : List LokiStream) :
    totalSize (xs ++ ys) = totalSize xs + totalSize ys := by
  simp [totalSize]

theorem totalSize_nonneg (es : List LokiStream) (h : ∀ e ∈ es, 0 ≤ e.Size) :
    0 ≤ totalSize es := by
  induction es with
  | nil => simp [totalSize]
  | cons e rest ih =>
    have h1 := h e (List.mem_cons_self _ _)
    have h2 := ih (fun x hx => h x (List.mem_cons_of_mem _ hx))
    simp only [totalSize, List.map_cons, List.sum_cons] at h2 ⊢
    omega

theorem forall2_stamped (as : List Arrival) (h : ∀ a ∈ as, a.data.hasTimestamp = true) :
    List.Forall₂ (fun a s => setTimestamp a.data a.timestamp = Except.ok s) as
      (as.map Arrival.stamped) := by
  induction as with
  | nil => exact List.Forall₂.nil
  | cons a rest ih =>
    exact List.Forall₂.cons (setTimestamp_ok a (h a (List.mem_cons_self _ _)))
      (ih (fun x hx => h x (List.mem_cons_of_mem _ hx)))

theorem RunForever_append (xs ys : List Event) (lp lp1 : Pusher)
    (h : lp.RunForever xs = Except.ok (RunState.running lp1)) :
    lp.RunForever (xs ++ ys) = lp1.RunForever ys := by
  induction xs generalizing lp with
  | nil => cases h; rfl
  | cons ev rest ih =>
    cases ev with
    | data a =>
      rw [List.cons_append, RunForever_data] at *
      cases hrec : lp.receive a with
      | error e => rw [hrec] at h; cases h
      | ok lp2 =>
        rw [hrec] at h
        exact ih lp2 h
    | tick now env =>
      rw [List.cons_append, RunForever_tick] at *
      split
      · rename_i hc
        rw [if_pos hc] at h
        cases hfl : lp.flushCurrentBatch env with
        | error e => rw [hfl] at h; cases h
        | ok lp2 =>
          rw [hfl] at h
          exact ih lp2 h
      · rename_i hc
        rw [if_neg hc] at h
        exact ih lp h
    | shutdown queued final =>
      exfalso
      rw [RunForever_shutdown] at h
      cases hd : lp.drain queued with
      | error e => rw [hd] at h; cases h
      | ok lp2 =>
        rw [hd] at h
        simp only at h
        cases hfl : lp2.flushCurrentBatch final with
        | error e => rw [hfl] at h; cases h
        | ok lp3 => rw [hfl] at h; cases h

/-- Arrivals that leave the open batch below its thresholds only accumulate. -/
theorem RunForever_accumulate (as : List Arrival) (lp : Pusher) (h : lp.Inv)
    (hts : ∀ a ∈ as, a.data.hasTimestamp = true)
    (hroom : ∀ k, 0 < k → k ≤ as.length →
      (((as.take k).map Arrival.stamped).foldl LokiStreams.AddData lp.currentStreams).IsFull
        = false) :
    lp.RunForever (as.map Event.data) = Except.ok (RunState.running
      { lp with currentStreams :=
          (as.map Arrival.stamped).foldl LokiStreams.AddData lp.currentStreams }) := by
  induction as generalizing lp with
  | nil => rfl
  | cons a rest ih =>
    have h1 := hroom 1 (by omega) (by simp)
    simp only [List.take_succ_cons, List.take_zero, List.map_cons, List.map_nil,
      List.foldl_cons, List.foldl_nil] at h1
    have hrec : lp.receive a =
        Except.ok { lp with currentStreams := lp.currentStreams.AddData a.stamped } := by
      unfold Pusher.receive
      rw [setTimestamp_ok a (hts a (List.mem_cons_self _ _))]
      simp only [h1]
      rfl
    have hinv := (receive_spec lp _ a h hrec).1
    rw [List.map_cons, RunForever_data, hrec]
    have := ih { lp with currentStreams := lp.currentStreams.AddData a.stamped } hinv
      (fun x hx => hts x (List.mem_cons_of_mem _ hx))
      (fun k hk hkl => by
        have := hroom (k + 1) (by omega) (by simp; omega)
        simpa using this)
    simpa using this

/-! ## Exactly `maxCount` arrivals -/

theorem IsFull_foldl_fresh (mc mb : Int) (es : List LokiStream) :
    (es.foldl LokiStreams.AddData ⟨[], 0, 0, mc, mb⟩).IsFull = true ↔
      wrapInt es.length ≥ mc ∨ wrapInt (totalSize es) ≥ mb := by
  have h := foldl_AddData es ⟨[], 0, 0, mc, mb⟩ 0 0 wrapInt_zero.symm wrapInt_zero.symm
  rw [IsFull_iff, h.2.1, h.2.2.1, h.2.2.2.1, h.2.2.2.2]
  simp only [zero_add]

theorem totalSize_take_le (es : List LokiStream) (k : Nat) (h : ∀ e ∈ es, 0 ≤ e.Size) :
    0 ≤ totalSize (es.take k) ∧ totalSize (es.take k) ≤ totalSize es := by
  have h1 := totalSize_nonneg (es.take k) (fun e he => h e (List.mem_of_mem_take he))
  have h2 := totalSize_nonneg (es.drop k) (fun e he => h e (List.mem_of_mem_drop he))
  have h3 := totalSize_append (es.take k) (es.drop k)
  rw [List.take_append_drop] at h3
  omega

theorem isInt_of_bounds (x lo hi : Int) (hlo : IsInt lo) (hhi : IsInt hi) (h1 : lo ≤ x)
    (h2 : x ≤ hi) : IsInt x := by
  unfold IsInt at *
  omega

theorem NewPusher_eq_ok (sink : SpeedySink) (a b now : Int) (lp0 : Pusher)
    (h : NewPusher (some sink) a b now = Except.ok lp0) :
    makeslicePanics 40 a = false ∧
      lp0 = ⟨sink, now, 60000000000, ⟨[], 0, 0, a, b⟩, a, b⟩ := by
  unfold NewPusher at h
  simp only at h
  cases hp : makeslicePanics 40 a with
  | true => simp [NewLokiStreams, hp] at h
  | false =>
    rw [NewLokiStreams_ok a b hp] at h
    cases h
    exact ⟨rfl, rfl⟩

/-- The stored form of an entry that has a timestamp slot: the producer's entry with
the first cell of its first row replaced by the value of `TimeProvider`. -/
theorem stamped_values (a : Arrival) (h : a.data.hasTimestamp = true) :
    ∃ old cols rows, a.data.Values = (old :: cols) :: rows ∧
      a.stamped = ⟨a.data.Labels, (a.timestamp :: cols) :: rows, a.data.Size⟩ := by
  unfold LokiStream.hasTimestamp at h
  split at h
  · rename_i old cols rows hv
    refine ⟨old, cols, rows, hv, ?_⟩
    unfold Arrival.stamped setTimestamp
    simp [hv]
  · cases h

theorem forall2_stamped_values (as : List Arrival)
    (h : ∀ a ∈ as, a.data.hasTimestamp = true) :
    List.Forall₂
      (fun a s => ∃ old cols rows, a.data.Values = (old :: cols) :: rows ∧
        s = ⟨a.data.Labels, (a.timestamp :: cols) :: rows, a.data.Size⟩)
      as (as.map Arrival.stamped) := by
  induction as with
  | nil => exact List.Forall₂.nil
  | cons a rest ih =>
    exact List.Forall₂.cons (stamped_values a (h a (List.mem_cons_self _ _)))
      (ih (fun x hx => h x (List.mem_cons_of_mem _ hx)))

/-- C2 (amended): for every `maxCount >= 1`, every pusher `lp0` that `NewPusher` has
just built with the thresholds `maxCount` and `maxBytes`, and every sequence of
exactly `maxCount` entries that have a timestamp slot `Values[0][0]` and a
non-negative size and whose sizes sum to less than `maxBytes`: the pusher that
processes those arrivals calls `SendData` exactly once, with a batch holding exactly
those entries in arrival order, each being the producer's entry (same labels, same
size, same other values) with the cell `Values[0][0]` replaced by the value
`TimeProvider` returned for it, whatever the producer had put there; the open batch
is empty afterwards. -/
theorem exactly_maxCount_entries_one_send (sink : SpeedySink) (maxCount maxBytes now : Int)
    (lp0 : Pusher) (arrivals : List Arrival) (hcount : 1 ≤ maxCount)
    (hintb : IsInt maxBytes)
    (hnew : NewPusher (some sink) maxCount maxBytes now = Except.ok lp0)
    (hlen : (arrivals.length : Int) = maxCount)
    (hts : ∀ a ∈ arrivals, a.data.hasTimestamp = true)
    (hsize : ∀ a ∈ arrivals, 0 ≤ a.data.Size)
    (hsum : totalSize (arrivals.map Arrival.data) < maxBytes) :
    ∃ lp batch err,
      lp0.RunForever (arrivals.map Event.data) = Except.ok (RunState.running lp) ∧
      lp.speedySink.calls = sink.calls ++ [SinkCall.SendData batch err] ∧
      List.Forall₂
        (fun a s => ∃ old cols rows, a.data.Values = (old :: cols) :: rows ∧
          s = ⟨a.data.Labels, (a.timestamp :: cols) :: rows, a.data.Size⟩)
        arrivals batch.Streams ∧
      lp.currentStreams.Streams = [] := by
  obtain ⟨hp, rfl⟩ := NewPusher_eq_ok sink maxCount maxBytes now lp0 hnew
  have hcap := (makeslicePanics_false maxCount).1 hp
  have hnn : 0 ≤ maxCount := hcap.1
  have hintc : IsInt maxCount := by
    unfold IsInt
    omega
  have hinv0 : Pusher.Inv
      ⟨sink, now, 60000000000, ⟨[], 0, 0, maxCount, maxBytes⟩, maxCount, maxBytes⟩ :=
    ⟨rfl, Or.inl rfl, rfl, rfl, hnn, hintc.2, (by decide : IsInt 60000000000), hp⟩
  have hne : arrivals ≠ [] := by
    intro h0
    rw [h0] at hlen
    simp at hlen
    omega
  obtain ⟨init, last, rfl⟩ : ∃ init last, arrivals = init ++ [last] :=
    ⟨arrivals.dropLast, arrivals.getLast hne, (List.dropLast_append_getLast hne).symm⟩
  have hlen1 : (init.length : Int) + 1 = maxCount := by
    rw [← hlen]; simp
  have hsizes : ∀ e ∈ (init ++ [last]).map Arrival.stamped, 0 ≤ e.Size := by
    intro e he
    obtain ⟨a, ha, rfl⟩ := List.mem_map.1 he
    rw [stamped_Size]
    exact hsize a ha
  have hsum1 : totalSize ((init ++ [last]).map Arrival.stamped) < maxBytes := by
    rw [totalSize_map_stamped]; exact hsum
  have hzero : IsInt 0 := by decide
  -- the arrivals before the last one accumulate in the open batch
  have hacc := RunForever_accumulate init
    ⟨sink, now, 60000000000, ⟨[], 0, 0, maxCount, maxBytes⟩, maxCount, maxBytes⟩ hinv0
    (fun a ha => hts a (List.mem_append_left _ ha))
    (fun k hk hkl => by
      have hpre : ((init ++ [last]).map Arrival.stamped).take k =
          (init.take k).map Arrival.stamped := by
        rw [← List.map_take, List.take_append_of_le_length hkl]
      have hb := totalSize_take_le _ k hsizes
      rw [hpre] at hb
      have hfull := IsFull_foldl_fresh maxCount maxBytes ((init.take k).map Arrival.stamped)
      have hkl2 : ((List.map Arrival.stamped (List.take k init)).length : Int) = k := by
        simp [Nat.min_eq_left hkl]
      rw [hkl2, wrapInt_of_isInt _ (isInt_of_bounds _ 0 maxCount hzero hintc (by omega) (by omega)),
        wrapInt_of_isInt _ (isInt_of_bounds _ 0 maxBytes hzero hintb hb.1 (by omega))] at hfull
      have hnot : ¬ (((k : Int) ≥ maxCount) ∨
          totalSize ((init.take k).map Arrival.stamped) ≥ maxBytes) := by omega
      cases hf : (List.foldl LokiStreams.AddData ⟨[], 0, 0, maxCount, maxBytes⟩
          (List.map Arrival.stamped (List.take k init))).IsFull with
      | false => rfl
      | true => exact absurd (hfull.1 hf) hnot)
  have hinv1 : Pusher.Inv ⟨sink, now, 60000000000,
      List.foldl LokiStreams.AddData ⟨[], 0, 0, maxCount, maxBytes⟩
        (List.map Arrival.stamped init), maxCount, maxBytes⟩ :=
    (RunForever_spec _ _ _ hinv0 hacc).2.1 rfl
  -- the last arrival fills the batch
  obtain ⟨lp, hrec⟩ := receive_ok _ last hinv1 (hts last (by simp))
  obtain ⟨-, -, -, -, -, hcase⟩ := receive_spec _ lp last hinv1 hrec
  have hbatch : (LokiStreams.AddData
      (List.foldl LokiStreams.AddData ⟨[], 0, 0, maxCount, maxBytes⟩
        (List.map Arrival.stamped init)) last.stamped) =
      List.foldl LokiStreams.AddData ⟨[], 0, 0, maxCount, maxBytes⟩
        (List.map Arrival.stamped (init ++ [last])) := by
    simp [List.foldl_append]
  have hfull : (List.foldl LokiStreams.AddData ⟨[], 0, 0, maxCount, maxBytes⟩
      (List.map Arrival.stamped (init ++ [last]))).IsFull = true := by
    rw [IsFull_foldl_fresh]
    left
    have hl : ((List.map Arrival.stamped (init ++ [last])).length : Int) = maxCount := by
      rw [← hlen]; simp
    rw [hl, wrapInt_of_isInt _ hintc]
  have hstreams := (foldl_AddData (List.map Arrival.stamped (init ++ [last]))
    ⟨[], 0, 0, maxCount, maxBytes⟩ 0 0 wrapInt_zero.symm wrapInt_zero.symm).1
  rw [hbatch] at hcase
  rcases hcase with ⟨-, -, -, hnf⟩ | ⟨hcalls, hcur, -, -⟩
  · rw [hfull] at hnf; cases hnf
  · refine ⟨lp, _, last.flush.sendErr, ?_, hcalls, ?_, ?_⟩
    · rw [List.map_append, RunForever_append _ _ _ _ hacc]
      simp only [List.map_cons, List.map_nil, RunForever_data, hrec]
      rfl
    · rw [hstreams, List.nil_append]
      exact forall2_stamped_values _ hts
    · rw [hcur]; rfl

/-! ## Shutdown -/

/-- The scenario of three 10-byte entries and a shutdown request on a pusher with
thresholds 3 and 16, wherever the shutdown request falls: `k` entries are taken by
the main loop and the others by the drain loop. -/
theorem three_entries_then_shutdown (sink : SpeedySink) (now : Int) (a0 a1 a2 : Arrival) (final : FlushEnv)
    (h0 : a0.data.hasTimestamp = true) (h1 : a1.data.hasTimestamp = true)
    (h2 : a2.data.hasTimestamp = true) (s0 : a0.data.Size = 10) (s1 : a1.data.Size = 10)
    (s2 : a2.data.Size = 10) (k : Nat) :
    ∃ lp0 lp2, NewPusher (some sink) 3 16 now = Except.ok lp0 ∧
      lp0.RunForever (([a0, a1, a2].take k).map Event.data ++
        [Event.shutdown ([a0, a1, a2].drop k) final]) = Except.ok (RunState.returned lp2) ∧
      lp2.speedySink.calls = sink.calls ++
        [SinkCall.SendData ⟨[a0.stamped, a1.stamped], 2, 20, 3, 16⟩ a1.flush.sendErr,
         SinkCall.SendData ⟨[a2.stamped], 1, 10, 3, 16⟩ final.sendErr,
         SinkCall.Shutdown] := by
  have e0 := stamped_Size a0
  have e1 := stamped_Size a1
  have e2 := stamped_Size a2
  rw [s0] at e0
  rw [s1] at e1
  rw [s2] at e2
  have w1 : wrapInt 1 = 1 := by decide
  have w2 : wrapInt 2 = 2 := by decide
  have w10 : wrapInt 10 = 10 := by decide
  have w20 : wrapInt 20 = 20 := by decide
  have hm : makeslicePanics 40 3 = false := by decide
  refine ⟨_, ⟨⟨sink.calls ++
        [SinkCall.SendData ⟨[a0.stamped, a1.stamped], 2, 20, 3, 16⟩ a1.flush.sendErr,
         SinkCall.SendData ⟨[a2.stamped], 1, 10, 3, 16⟩ final.sendErr,
         SinkCall.Shutdown]⟩, final.now, 60000000000, ⟨[], 0, 0, 3, 16⟩, 3, 16⟩, rfl, ?_, rfl⟩
  rcases k with _ | _ | _ | _ | k <;>
    simp [Pusher.RunForever, Pusher.drain, Pusher.receive, setTimestamp_ok, h0, h1, h2,
      LokiStreams.AddData, LokiStreams.IsFull, Pusher.flushCurrentBatch, NewLokiStreams,
      e0, e1, e2, w1, w2, w10, w20, hm]

theorem RunForever_hasTimestamp (events : List Event) (lp : Pusher) (r : RunState)
    (h : lp.Inv) (hr : lp.RunForever events = Except.ok r) :
    ∀ a ∈ entriesTaken events, a.data.hasTimestamp = true := by
  induction events generalizing lp with
  | nil => intro a ha; cases ha
  | cons ev rest ih =>
    cases ev with
    | data a =>
      rw [RunForever_data] at hr
      cases hrec : lp.receive a with
      | error e => rw [hrec] at hr; cases hr
      | ok lp1 =>
        rw [hrec] at hr
        obtain ⟨hinv, hts, -⟩ := receive_spec lp lp1 a h hrec
        intro x hx
        rcases List.mem_cons.1 hx with rfl | hx
        · exact hts
        · exact ih lp1 hinv hr x hx
    | tick now env =>
      rw [RunForever_tick] at hr
      obtain ⟨lp1, s1, hfl, hinv, -⟩ := flushCurrentBatch_trace lp env h
      by_cases hc : Milliseconds (timeSub now lp.lastFlush) ≥ Milliseconds lp.SecondsToFlush
      · rw [if_pos hc, hfl] at hr
        exact ih lp1 hinv hr
      · rw [if_neg hc] at hr
        exact ih lp h hr
    | shutdown queued final =>
      rw [RunForever_shutdown] at hr
      cases hd : lp.drain queued with
      | error e => rw [hd] at hr; cases hr
      | ok lp1 => exact drain_hasTimestamp queued lp lp1 h hd

/-! ## The claims about the pusher -/

/-- C2 (counterexample): with `maxCount = 2` and `maxBytes = 5`, the two entries of
sizes 10 and -10 sum to 0, which is less than `maxBytes`, yet the fresh pusher that
processes their two arrivals has called `SendData` with a batch holding the first
entry alone, and the second entry is still in the open batch. And with two entries
of size 1 of which the first has an empty list of values, the same pusher stops with
the panic of the index expression `data.Values[0][0]` and calls `SendData` not at
all. -/
theorem negative_size_splits_the_batch :
    totalSize [sampleEntry 0 10, sampleEntry 1 (-10)] < 5 ∧
    NewPusher (some ⟨[]⟩) 2 5 0 =
      Except.ok ⟨⟨[]⟩, 0, 60000000000, ⟨[], 0, 0, 2, 5⟩, 2, 5⟩ ∧
    Pusher.RunForever ⟨⟨[]⟩, 0, 60000000000, ⟨[], 0, 0, 2, 5⟩, 2, 5⟩
        [Event.data (sampleArrival 0 10), Event.data (sampleArrival 1 (-10))] =
      Except.ok (RunState.running
        ⟨⟨[SinkCall.SendData
            ⟨[⟨[("label1", "value")], [["1700000000000000000", "log-line-0"]], 10⟩],
              1, 10, 2, 5⟩ none]⟩,
          5, 60000000000,
          ⟨[⟨[("label1", "value")], [["1700000000000000000", "log-line-1"]], -10⟩],
            1, -10, 2, 5⟩, 2, 5⟩) ∧
    totalSize [⟨[("label1", "value")], [], 1⟩, sampleEntry 1 1] < 5 ∧
    Pusher.RunForever ⟨⟨[]⟩, 0, 60000000000, ⟨[], 0, 0, 2, 5⟩, 2, 5⟩
        [Event.data ⟨⟨[("label1", "value")], [], 1⟩, "1700000000000000000", ⟨none, 5⟩⟩,
          Event.data (sampleArrival 1 1)] =
      Except.error "index out of range [0] with length 0" := by
  decide

/-- Witness of `exactly_maxCount_entries_one_send`: three sample entries of 10 bytes
with `maxCount = 3` and `maxBytes = 2147483647`. -/
theorem exactly_maxCount_entries_one_send_witness :
    ∃ lp batch err,
      Pusher.RunForever ⟨⟨[]⟩, 0, 60000000000, ⟨[], 0, 0, 3, 2147483647⟩, 3, 2147483647⟩
        ([sampleArrival 0 10, sampleArrival 1 10, sampleArrival 2 10].map
        Event.data) = Except.ok (RunState.running lp) ∧
      lp.speedySink.calls = [] ++ [SinkCall.SendData batch err] ∧
      List.Forall₂
        (fun a s => ∃ old cols rows, a.data.Values = (old :: cols) :: rows ∧
          s = ⟨a.data.Labels, (a.timestamp :: cols) :: rows, a.data.Size⟩)
        [sampleArrival 0 10, sampleArrival 1 10, sampleArrival 2 10] batch.Streams ∧
      lp.currentStreams.Streams = [] :=
  exactly_maxCount_entries_one_send ⟨[]⟩ 3 2147483647 0
    ⟨⟨[]⟩, 0, 60000000000, ⟨[], 0, 0, 3, 2147483647⟩, 3, 2147483647⟩
    [sampleArrival 0 10, sampleArrival 1 10, sampleArrival 2 10]
    (by decide) (by decide) (by decide) (by decide) (by decide) (by decide) (by decide)

/-! ## Runs with a sink that does not panic -/

theorem flushCurrentBatchWith_eq (panics : LokiStreams → Option String)
    (h : ∀ b, panics b = none) (lp : Pusher) (env : FlushEnv) :
    lp.flushCurrentBatchWith panics env = lp.flushCurrentBatch env := by
  unfold Pusher.flushCurrentBatchWith Pusher.flushCurrentBatch
  rw [h]

theorem receiveWith_eq (panics : LokiStreams → Option String)
    (h : ∀ b, panics b = none) (lp : Pusher) (a : Arrival) :
    lp.receiveWith panics a = lp.receive a := by
  unfold Pusher.receiveWith Pusher.receive
  simp only [flushCurrentBatchWith_eq panics h]

theorem drainWith_eq (panics : LokiStreams → Option String)
    (h : ∀ b, panics b = none) (queued : List Arrival) (lp : Pusher) :
    lp.drainWith panics queued = lp.drain queued := by
  induction queued generalizing lp with
  | nil => rfl
  | cons a rest ih =>
    simp only [Pusher.drainWith, Pusher.drain, receiveWith_eq panics h]
    cases lp.receive a with
    | error e => rfl
    | ok lp1 => exact ih lp1

/-- With a sink whose `SendData` always returns, `RunForeverWith` is `RunForever`. -/
theorem RunForeverWith_eq (panics : LokiStreams → Option String)
    (h : ∀ b, panics b = none) (events : List Event) (lp : Pusher) :
    lp.RunForeverWith panics events = lp.RunForever events := by
  induction events generalizing lp with
  | nil => rfl
  | cons ev rest ih =>
    cases ev with
    | data a =>
      simp only [Pusher.RunForeverWith, RunForever_data, receiveWith_eq panics h]
      cases lp.receive a with
      | error e => rfl
      | ok lp1 => exact ih lp1
    | shutdown queued final =>
      simp only [Pusher.RunForeverWith, RunForever_shutdown, drainWith_eq panics h,
        flushCurrentBatchWith_eq panics h]
    | tick now env =>
      simp only [Pusher.RunForeverWith, RunForever_tick, flushCurrentBatchWith_eq panics h]
      split
      · cases lp.flushCurrentBatch env with
        | error e => rfl
        | ok lp1 => exact ih lp1
      · exact ih lp

/-- C3 (counterexample): the pusher `NewPusher(sink, 3, 16)` that holds one 10-byte
entry receives a shutdown request while one more 10-byte entry is in the queue.
When that entry has an empty list of values, the drain loop stops with the panic of
`data.Values[0][0]`, although the sink's `SendData` never panics: no final flush, no
`Shutdown`, no return. When that entry is `[["ts"]]` and the sink is the binary sink,
the flush of the full batch stops with the panic that `SendData` raises on
`entry.Values[0][1]`, again before the final flush and `Shutdown`. -/
theorem shutdown_stopped_by_panics :
    NewPusher (some ⟨[]⟩) 3 16 0 = Except.ok samplePusher0 ∧
    samplePusher0.RunForeverWith (fun _ => none) [Event.data (sampleArrival 0 10)] =
      Except.ok (RunState.running samplePusher1) ∧
    samplePusher1.RunForeverWith (fun _ => none)
        [Event.shutdown
          [⟨⟨[("label1", "value")], [], 10⟩, "1700000000000000000", ⟨none, 6⟩⟩]
          ⟨none, 7⟩] =
      Except.error "index out of range [0] with length 0" ∧
    samplePusher1.RunForeverWith
        (LokiProtoClient.panicOn 40 (goQuote fun _ => true) (fun _ => 0) sampleEncode
          ⟨"https://loki.com/loki/api/v1/push"⟩ (sampleTransport 204))
        [Event.shutdown
          [⟨⟨[("label1", "value")], [["ts"]], 10⟩, "1700000000000000000", ⟨none, 6⟩⟩]
          ⟨none, 7⟩] =
      Except.error "index out of range [1] with length 1" := by
  decide

/-- C3 (amended): a shutdown request received by a running pusher whose sink's
`SendData` returns whenever it is called, with `queued` the entries in the queue, each
with a timestamp slot `Values[0][0]`: `RunForever` returns, ignoring later events; the
calls it adds to the sink are `SendData` calls followed by exactly one `Shutdown`,
which comes last; the batches sent, concatenated in call order, are the open batch
followed by every queued entry; all of them except possibly the last (the final
flush) were full when sent; and the open batch is empty at the end. In particular,
for a fresh pusher with `maxCount = 3` and `maxBytes = 16` and three 10-byte entries
followed by the shutdown request (`k` of them taken before it, the others drained),
the sink receives exactly `SendData` with entries 0 and 1, then `SendData` with entry
2 alone, then `Shutdown`. -/
theorem shutdown_drains_flushes_and_returns (panics : LokiStreams → Option String)
    (lp : Pusher) (queued : List Arrival)
    (final : FlushEnv) (rest : List Event) (sink : SpeedySink) (now : Int)
    (a0 a1 a2 : Arrival) (k : Nat) (h : lp.Reachable)
    (hsend : ∀ b, panics b = none)
    (hts : ∀ a ∈ queued, a.data.hasTimestamp = true)
    (h0 : a0.data.hasTimestamp = true) (h1 : a1.data.hasTimestamp = true)
    (h2 : a2.data.hasTimestamp = true) (s0 : a0.data.Size = 10) (s1 : a1.data.Size = 10)
    (s2 : a2.data.Size = 10) :
    (∃ lp1 sends, lp.RunForeverWith panics (Event.shutdown queued final :: rest) =
        Except.ok (RunState.returned lp1) ∧
      lp1.speedySink.calls = lp.speedySink.calls ++ sends ++ [SinkCall.Shutdown] ∧
      (∀ c ∈ sends, ∃ b err, c = SinkCall.SendData b err ∧ b.Streams ≠ []) ∧
      (∀ b ∈ (sentBatches sends).dropLast, b.IsFull = true) ∧
      sentEntries sends = lp.currentStreams.Streams ++ queued.map Arrival.stamped ∧
      lp1.currentStreams.Streams = []) ∧
    (∃ lp0 lp2, NewPusher (some sink) 3 16 now = Except.ok lp0 ∧
      lp0.RunForeverWith panics (([a0, a1, a2].take k).map Event.data ++
        [Event.shutdown ([a0, a1, a2].drop k) final]) = Except.ok (RunState.returned lp2) ∧
      lp2.speedySink.calls = sink.calls ++
        [SinkCall.SendData ⟨[a0.stamped, a1.stamped], 2, 20, 3, 16⟩ a1.flush.sendErr,
         SinkCall.SendData ⟨[a2.stamped], 1, 10, 3, 16⟩ final.sendErr,
         SinkCall.Shutdown]) := by
  simp only [RunForeverWith_eq panics hsend]
  exact ⟨shutdown_spec lp (Reachable.inv lp h) queued final rest hts,
    three_entries_then_shutdown sink now a0 a1 a2 final h0 h1 h2 s0 s1 s2 k⟩

/-- Witness of `shutdown_drains_flushes_and_returns`: the pusher holding one sample
entry receives a shutdown request with one more entry in the queue; the scenario is
instantiated with three sample entries, the first of which is taken before the
shutdown request; the sink never panics. -/
theorem shutdown_drains_flushes_and_returns_witness :
    (∃ lp1 sends, samplePusher1.RunForeverWith (fun _ => none)
        (Event.shutdown [sampleArrival 1 10] ⟨none, 7⟩ :: [Event.tick 9 ⟨none, 9⟩]) =
        Except.ok (RunState.returned lp1) ∧
      lp1.speedySink.calls = samplePusher1.speedySink.calls ++ sends ++ [SinkCall.Shutdown] ∧
      (∀ c ∈ sends, ∃ b err, c = SinkCall.SendData b err ∧ b.Streams ≠ []) ∧
      (∀ b ∈ (sentBatches sends).dropLast, b.IsFull = true) ∧
      sentEntries sends = samplePusher1.currentStreams.Streams ++
        [sampleArrival 1 10].map Arrival.stamped ∧
      lp1.currentStreams.Streams = []) ∧
    (∃ lp0 lp2, NewPusher (some ⟨[]⟩) 3 16 0 = Except.ok lp0 ∧
      lp0.RunForeverWith (fun _ => none)
        (([sampleArrival 0 10, sampleArrival 1 10, sampleArrival 2 10].take 1).map Event.data ++
        [Event.shutdown ([sampleArrival 0 10, sampleArrival 1 10, sampleArrival 2 10].drop 1)
          ⟨none, 7⟩]) = Except.ok (RunState.returned lp2) ∧
      lp2.speedySink.calls = [] ++
        [SinkCall.SendData ⟨[(sampleArrival 0 10).stamped, (sampleArrival 1 10).stamped],
            2, 20, 3, 16⟩ (sampleArrival 1 10).flush.sendErr,
         SinkCall.SendData ⟨[(sampleArrival 2 10).stamped], 1, 10, 3, 16⟩ none,
         SinkCall.Shutdown]) :=
  shutdown_drains_flushes_and_returns (fun _ => none) samplePusher1 [sampleArrival 1 10]
    ⟨none, 7⟩ [Event.tick 9 ⟨none, 9⟩] ⟨[]⟩ 0 (sampleArrival 0 10) (sampleArrival 1 10)
    (sampleArrival 2 10) 1
    ⟨⟨[]⟩, 3, 16, 0, 60000000000, [Event.data (sampleArrival 0 10)], samplePusher0,
      by decide, by decide, by decide, by decide, by decide⟩
    (fun _ => rfl)
    (by decide) (by decide) (by decide) (by decide) (by decide) (by decide) (by decide)

/-- C4 (counterexample): the batch `NewLokiStreams(3, 16)` after two `AddData` calls
with entries of size `2^62` is not full, although the sum of the two sizes, `2^63`,
is at least `maxBytes = 16`: the running total has wrapped around to `-2^63`. -/
theorem IsFull_false_after_overflow :
    NewLokiStreams 3 16 = Except.ok ⟨[], 0, 0, 3, 16⟩ ∧
    ([sampleEntry 0 (2 ^ 62), sampleEntry 1 (2 ^ 62)].foldl LokiStreams.AddData
      ⟨[], 0, 0, 3, 16⟩).IsFull = false ∧
    ([sampleEntry 0 (2 ^ 62), sampleEntry 1 (2 ^ 62)].foldl LokiStreams.AddData
      ⟨[], 0, 0, 3, 16⟩).TotalSize = -(2 ^ 63) ∧
    totalSize [sampleEntry 0 (2 ^ 62), sampleEntry 1 (2 ^ 62)] ≥ 16 := by
  decide

/-- C4 (amended): for every `maxCount` and `maxBytes` for which `NewLokiStreams`
returns a batch, and every sequence of entries whose number and whose sum of sizes
are in the range of a Go `int`, the batch after the `AddData` calls for these entries
is full exactly when their number is at least `maxCount` or the sum of their sizes is
at least `maxBytes`. -/
theorem IsFull_iff_count_or_bytes (maxCount maxBytes : Int) (b : LokiStreams)
    (es : List LokiStream) (hb : NewLokiStreams maxCount maxBytes = Except.ok b)
    (hk : IsInt es.length) (hs : IsInt (totalSize es)) :
    (es.foldl LokiStreams.AddData b).IsFull = true ↔
      (es.length : Int) ≥ maxCount ∨ totalSize es ≥ maxBytes :=
  IsFull_after_appends maxCount maxBytes b es hb hk hs

/-- Witness of `IsFull_iff_count_or_bytes`: `maxCount = 3`, `maxBytes = 16` and two
10-byte entries. -/
theorem IsFull_iff_count_or_bytes_witness :
    ([sampleEntry 0 10, sampleEntry 1 10].foldl LokiStreams.AddData
        ⟨[], 0, 0, 3, 16⟩).IsFull = true ↔
      (([sampleEntry 0 10, sampleEntry 1 10].length : Nat) : Int) ≥ 3 ∨
        totalSize [sampleEntry 0 10, sampleEntry 1 10] ≥ 16 :=
  IsFull_iff_count_or_bytes 3 16 ⟨[], 0, 0, 3, 16⟩ [sampleEntry 0 10, sampleEntry 1 10]
    (by decide) (by decide) (by decide)

/-- C5: `flushCurrentBatch` on a running pusher, whatever `SendData` returns
(`env.sendErr`): when the open batch is empty nothing changes and the sink receives no
call; otherwise the sink receives exactly one more call, `SendData` with the open
batch, the open batch is replaced by an empty batch (no entries, count 0, byte total
0) with the same two thresholds, and the last-flush time becomes the current time. -/
theorem flushCurrentBatch_contract (lp : Pusher) (env : FlushEnv) (h : lp.Reachable) :
    (lp.currentStreams.Streams = [] → lp.flushCurrentBatch env = Except.ok lp) ∧
      (lp.currentStreams.Streams ≠ [] → lp.flushCurrentBatch env = Except.ok
        { lp with
          speedySink := ⟨lp.speedySink.calls ++
            [SinkCall.SendData lp.currentStreams env.sendErr]⟩
          lastFlush := env.now
          currentStreams :=
            { Streams := [], Count := 0, TotalSize := 0,
              bufferMaxBatchSize := lp.currentStreams.bufferMaxBatchSize,
              bufferMaxByteSize := lp.currentStreams.bufferMaxByteSize } }) := by
  have hinv := Reachable.inv lp h
  have hs := flushCurrentBatch_spec lp env hinv
  refine ⟨hs.1, fun hne => ?_⟩
  rw [hs.2 hne]
  simp only [Pusher.freshBatch, hinv.batchSize, hinv.byteSize]

/-- Witness of `flushCurrentBatch_contract`: the pusher holding one sample entry,
with a `SendData` that fails. -/
theorem flushCurrentBatch_contract_witness :
    (samplePusher1.currentStreams.Streams = [] →
      samplePusher1.flushCurrentBatch ⟨some "connection refused", 8⟩ =
        Except.ok samplePusher1) ∧
      (samplePusher1.currentStreams.Streams ≠ [] →
        samplePusher1.flushCurrentBatch ⟨some "connection refused", 8⟩ = Except.ok
        { samplePusher1 with
          speedySink := ⟨samplePusher1.speedySink.calls ++
            [SinkCall.SendData samplePusher1.currentStreams
              (FlushEnv.mk (some "connection refused") 8).sendErr]⟩
          lastFlush := (FlushEnv.mk (some "connection refused") 8).now
          currentStreams :=
            { Streams := [], Count := 0, TotalSize := 0,
              bufferMaxBatchSize := samplePusher1.currentStreams.bufferMaxBatchSize,
              bufferMaxByteSize := samplePusher1.currentStreams.bufferMaxByteSize } }) :=
  flushCurrentBatch_contract samplePusher1 ⟨some "connection refused", 8⟩
    ⟨⟨[]⟩, 3, 16, 0, 60000000000, [Event.data (sampleArrival 0 10)], samplePusher0,
      by decide, by decide, by decide, by decide, by decide⟩

/-- C6: a timer tick at which the time since the last flush is at least the flush
interval makes the pusher call `flushCurrentBatch`. For every run in which, since the
last flush (the open batch of `lp0` is empty and the sink has received no call while
`events` were processed), at least one entry has arrived, that tick adds exactly one
call to the sink, `SendData` with a batch that holds exactly the entries that arrived
since the last flush, in arrival order and stamped by the pusher; afterwards the open
batch is empty and the last-flush time is the current time. -/
theorem tick_flushes_entries_since_last_flush (lp0 lp1 : Pusher) (events rest : List Event)
    (now : Int) (env : FlushEnv) (h0 : lp0.Reachable)
    (hempty : lp0.currentStreams.Streams = [])
    (hrun : lp0.RunForever events = Except.ok (RunState.running lp1))
    (hsame : lp1.speedySink.calls = lp0.speedySink.calls)
    (hne : entriesTaken events ≠ [])
    (hdue : lp1.SecondsToFlush ≤ now - lp1.lastFlush) :
    ∃ lp2, lp1.flushCurrentBatch env = Except.ok lp2 ∧
      lp1.RunForever (Event.tick now env :: rest) = lp2.RunForever rest ∧
      lp2.speedySink.calls = lp1.speedySink.calls ++
        [SinkCall.SendData lp1.currentStreams env.sendErr] ∧
      List.Forall₂ (fun a s => setTimestamp a.data a.timestamp = Except.ok s)
        (entriesTaken events) lp1.currentStreams.Streams ∧
      lp2.currentStreams.Streams = [] ∧ lp2.currentStreams.Count = 0 ∧
      lp2.currentStreams.TotalSize = 0 ∧ lp2.lastFlush = env.now := by
  have hinv0 := Reachable.inv lp0 h0
  obtain ⟨-, hinv1, sends, hcalls, -, hcons, -⟩ := RunForever_spec events lp0 _ hinv0 hrun
  have hinv1 : lp1.Inv := hinv1 rfl
  simp only [RunState.pusher, RunState.isReturned, Bool.false_eq_true, if_false,
    List.append_nil] at hcalls hcons
  have hsends : sends = [] := by
    rw [hsame] at hcalls
    exact List.self_eq_append_right.1 hcalls
  rw [hsends, hempty] at hcons
  simp only [sentEntries, List.nil_append] at hcons
  have hts := RunForever_hasTimestamp events lp0 _ hinv0 hrun
  have hne1 : lp1.currentStreams.Streams ≠ [] := by
    rw [hcons]
    simpa using hne
  have hfl := (flushCurrentBatch_spec lp1 env hinv1).2 hne1
  refine ⟨_, hfl, ?_, rfl, ?_, rfl, rfl, rfl, rfl⟩
  · rw [RunForever_tick, if_pos (tick_due now lp1.lastFlush lp1.SecondsToFlush
      hinv1.interval hdue), hfl]
  · rw [hcons]
    exact forall2_stamped _ hts

/-- Witness of `tick_flushes_entries_since_last_flush`: one sample entry arrives at a
fresh pusher and the timer fires 60 seconds after the construction. -/
theorem tick_flushes_entries_since_last_flush_witness :
    ∃ lp2, samplePusher1.flushCurrentBatch ⟨none, 60000000001⟩ = Except.ok lp2 ∧
      samplePusher1.RunForever (Event.tick 60000000000 ⟨none, 60000000001⟩ :: []) =
        lp2.RunForever [] ∧
      lp2.speedySink.calls = samplePusher1.speedySink.calls ++
        [SinkCall.SendData samplePusher1.currentStreams
          (FlushEnv.mk none 60000000001).sendErr] ∧
      List.Forall₂ (fun a s => setTimestamp a.data a.timestamp = Except.ok s)
        (entriesTaken [Event.data (sampleArrival 0 10)])
        samplePusher1.currentStreams.Streams ∧
      lp2.currentStreams.Streams = [] ∧ lp2.currentStreams.Count = 0 ∧
      lp2.currentStreams.TotalSize = 0 ∧
      lp2.lastFlush = (FlushEnv.mk none 60000000001).now :=
  tick_flushes_entries_since_last_flush samplePusher0 samplePusher1
    [Event.data (sampleArrival 0 10)] [] 60000000000 ⟨none, 60000000001⟩
    ⟨⟨[]⟩, 3, 16, 0, 60000000000, [], samplePusher0,
      by decide, by decide, by decide, by decide, by decide⟩
    (by decide) (by decide) (by decide) (by decide) (by decide)

/-- C7 (counterexample): `NewPusher` with a sink, `maxBatchSize = 0` and
`maxBatchSizeBytes = -1` does not fail; it returns a pusher. -/
theorem NewPusher_accepts_nonpositive_thresholds :
    NewPusher (some ⟨[]⟩) 0 (-1) 0 =
      Except.ok ⟨⟨[]⟩, 0, 60000000000, ⟨[], 0, 0, 0, -1⟩, 0, -1⟩ := by
  decide

/-- C7 (amended): `NewPusher` fails with the panic "Speedy sink is nil" when the sink
is nil. With a sink it checks no threshold: `maxBatchSizeBytes` is stored as it is,
and `maxBatchSize` only reaches `make([]LokiStream, 0, maxBatchSize)`, so `NewPusher`
fails, with the panic of `make`, exactly when `maxBatchSize` is negative or more than
2^48 bytes of `LokiStream` (40 bytes each), and otherwise returns a pusher with an
empty batch; in particular it returns one for `maxBatchSize = 0`, whatever
`maxBatchSizeBytes` is. -/
theorem NewPusher_fails_without_sink_or_capacity (sink : SpeedySink)
    (maxBatchSize maxBatchSizeBytes now : Int) :
    NewPusher none maxBatchSize maxBatchSizeBytes now = Except.error "Speedy sink is nil" ∧
      NewPusher (some sink) maxBatchSize maxBatchSizeBytes now =
        (if maxBatchSize < 0 ∨ 2 ^ 48 < 40 * maxBatchSize then
          Except.error "makeslice: cap out of range"
        else Except.ok ⟨sink, now, 60000000000,
          ⟨[], 0, 0, maxBatchSize, maxBatchSizeBytes⟩, maxBatchSize, maxBatchSizeBytes⟩) ∧
      NewPusher (some sink) 0 maxBatchSizeBytes now =
        Except.ok ⟨sink, now, 60000000000, ⟨[], 0, 0, 0, maxBatchSizeBytes⟩, 0,
          maxBatchSizeBytes⟩ := by
  refine ⟨rfl, ?_, rfl⟩
  by_cases h : maxBatchSize < 0 ∨ 2 ^ 48 < 40 * maxBatchSize
  · have hp : makeslicePanics 40 maxBatchSize = true := by
      unfold makeslicePanics
      exact decide_eq_true h
    rw [if_pos h]
    simp only [NewPusher, NewLokiStreams, hp, if_true]
  · have hp : makeslicePanics 40 maxBatchSize = false := by
      unfold makeslicePanics
      exact decide_eq_false h
    rw [if_neg h]
    simp only [NewPusher, NewLokiStreams_ok _ _ hp]

/-- C10 (counterexample): the pusher `NewPusher(sink, 3, 16)` that holds one 10-byte
entry takes one more entry from the queue. When that entry has an empty list of
values, `RunForever` stops with the panic of the index expression
`data.Values[0][0]`, although the sink's `SendData` never panics. When that entry is
the 10-byte entry `[["ts"]]`, which has a timestamp slot, and the sink is the binary
sink, `RunForever` stops with the panic that `SendData` raises on
`entry.Values[0][1]` when the full batch is flushed. -/
theorem RunForever_stopped_by_panics :
    NewPusher (some ⟨[]⟩) 3 16 0 = Except.ok samplePusher0 ∧
    samplePusher0.RunForeverWith (fun _ => none) [Event.data (sampleArrival 0 10)] =
      Except.ok (RunState.running samplePusher1) ∧
    samplePusher1.RunForeverWith (fun _ => none)
        [Event.data ⟨⟨[("label1", "value")], [], 10⟩, "1700000000000000000", ⟨none, 5⟩⟩] =
      Except.error "index out of range [0] with length 0" ∧
    LokiStream.hasTimestamp ⟨[("label1", "value")], [["ts"]], 10⟩ = true ∧
    samplePusher1.RunForeverWith
        (LokiProtoClient.panicOn 40 (goQuote fun _ => true) (fun _ => 0) sampleEncode
          ⟨"https://loki.com/loki/api/v1/push"⟩ (sampleTransport 204))
        [Event.data
          ⟨⟨[("label1", "value")], [["ts"]], 10⟩, "1700000000000000000", ⟨none, 5⟩⟩] =
      Except.error "index out of range [1] with length 1" := by
  decide

/-- C10 (amended): once running, for every sink whose `SendData` returns (with an error
or with none) whenever it is called, and for every sequence of events in which every
entry taken from the queue has a timestamp slot `Values[0][0]` (whatever its labels,
its other values and its size), `RunForever` meets no runtime failure, and it has
returned exactly when one of the events was a shutdown request; otherwise it is
still in its loop, ready for the next event. -/
theorem RunForever_stops_only_on_shutdown (panics : LokiStreams → Option String)
    (lp : Pusher) (events : List Event) (h : lp.Reachable)
    (hsend : ∀ b, panics b = none)
    (hts : ∀ a ∈ entriesTaken events, a.data.hasTimestamp = true) :
    ∃ r, lp.RunForeverWith panics events = Except.ok r ∧
      r.isReturned = hasShutdown events := by
  have hinv := Reachable.inv lp h
  obtain ⟨r, hr⟩ := RunForever_ok events lp hinv hts
  rw [RunForeverWith_eq panics hsend]
  exact ⟨r, hr, (RunForever_spec events lp r hinv hr).1⟩

/-- Witness of `RunForever_stops_only_on_shutdown`: a failing `SendData`, a tick and two
more arrivals, without shutdown request, with a sink that never panics. -/
theorem RunForever_stops_only_on_shutdown_witness :
    ∃ r, samplePusher1.RunForeverWith (fun _ => none)
        [Event.data ⟨sampleEntry 1 10, "1700000000000000001", ⟨some "timeout", 6⟩⟩,
          Event.tick 7 ⟨none, 7⟩, Event.data (sampleArrival 2 10)] = Except.ok r ∧
      r.isReturned = hasShutdown
        [Event.data ⟨sampleEntry 1 10, "1700000000000000001", ⟨some "timeout", 6⟩⟩,
          Event.tick 7 ⟨none, 7⟩, Event.data (sampleArrival 2 10)] :=
  RunForever_stops_only_on_shutdown (fun _ => none) samplePusher1
    [Event.data ⟨sampleEntry 1 10, "1700000000000000001", ⟨some "timeout", 6⟩⟩,
      Event.tick 7 ⟨none, 7⟩, Event.data (sampleArrival 2 10)]
    ⟨⟨[]⟩, 3, 16, 0, 60000000000, [Event.data (sampleArrival 0 10)], samplePusher0,
      by decide, by decide, by decide, by decide, by decide⟩
    (fun _ => rfl) (by decide)

/-! ## `FlattenMap` does not fail -/

section FlattenSafety
variable {σ : Type}

theorem WellFormed.good (e : Element σ) (h : e.WellFormed) : e.Good := by
  cases e with
  | other => exact h
  | ofPair p =>
    cases hr : p.isRoot with
    | true => exact Or.inr (h.1 hr).2
    | false => exact Or.inl (h.2 hr)

theorem wellFormed_child (key : StrSlice) (val : Value σ) (h : 0 < key.len) :
    (Element.ofPair ⟨key, false, val⟩).WellFormed := by
  simp [Element.WellFormed, h]

theorem pushFields_wellFormed (grow : Nat → Nat → Nat) (p : pair σ)
    (fs : List (String × Value σ)) (st : FlattenState σ)
    (hwf : ∀ e ∈ st.stack, e.WellFormed) :
    ∀ e ∈ (pushFields grow p fs st).stack, e.WellFormed := by
  induction fs generalizing st with
  | nil => exact hwf
  | cons f rest ih =>
    obtain ⟨key, val⟩ := f
    unfold pushFields
    split
    · rcases hs : singletonSlice st.heap key with ⟨h1, s⟩
      have hlen : s.len = 1 := by
        simp only [singletonSlice, Heap.alloc] at hs
        cases hs
        rfl
      exact ih ⟨h1, Element.ofPair ⟨s, false, val⟩ :: st.stack, st.returnValue⟩
        (by
          intro e he
          rcases List.mem_cons.1 he with rfl | he
          · exact wellFormed_child s val (by omega)
          · exact hwf e he)
    · rcases hs : goAppend grow st.heap p.key key with ⟨h1, s⟩
      have hlen : s.len = p.key.len + 1 := by
        have := goAppend_len grow st.heap p.key key
        rw [hs] at this
        exact this
      exact ih ⟨h1, Element.ofPair ⟨s, false, val⟩ :: st.stack, st.returnValue⟩
        (by
          intro e he
          rcases List.mem_cons.1 he with rfl | he
          · exact wellFormed_child s val (by omega)
          · exact hwf e he)

theorem pushItems_wellFormed (p : pair σ) (hp : 0 < p.key.len) (lastKey : String)
    (index : Nat) (vs : List (Value σ)) (st : FlattenState σ)
    (hwf : ∀ e ∈ st.stack, e.WellFormed) :
    ∀ e ∈ (pushItems p lastKey index vs st).stack, e.WellFormed := by
  induction vs generalizing st index with
  | nil => exact hwf
  | cons val rest ih =>
    unfold pushItems
    rcases hs : makeCopy st.heap p.key with ⟨h1, s⟩
    have hlen : s.len = p.key.len := by
      simp only [makeCopy, Heap.alloc] at hs
      cases hs
      rfl
    exact ih (index + 1)
      ⟨h1.store s.arr (s.len - 1) (lastKey ++ "[" ++ toString index ++ "]"),
        Element.ofPair ⟨s, false, val⟩ :: st.stack, st.returnValue⟩
      (by
        intro e he
        rcases List.mem_cons.1 he with rfl | he
        · exact wellFormed_child s val (by omega)
        · exact hwf e he)

/-- One iteration on a well-formed work list does not fail and leaves the work list
well-formed. -/
theorem processElement_wellFormed (grow : Nat → Nat → Nat) (e : Element σ)
    (st : FlattenState σ) (he : e.WellFormed) (hwf : ∀ x ∈ st.stack, x.WellFormed) :
    ∃ st1, processElement grow e st = Except.ok st1 ∧ ∀ x ∈ st1.stack, x.WellFormed := by
  cases e with
  | other => exact absurd he (by simp [Element.WellFormed])
  | ofPair p =>
    obtain ⟨key, isRoot, value⟩ := p
    cases value with
    | scalar v => exact ⟨_, rfl, hwf⟩
    | object fs => exact ⟨_, rfl, pushFields_wellFormed grow _ fs st hwf⟩
    | array vs =>
      have hk : 0 < key.len := by
        cases isRoot with
        | true =>
          obtain ⟨-, fs, hfs⟩ := he.1 rfl
          cases hfs
        | false => exact he.2 rfl
      have hk0 : ¬ key.len = 0 := by omega
      exact ⟨_, by simp only [processElement, hk0, if_false],
        pushItems_wellFormed ⟨key, isRoot, Value.array vs⟩ hk
          ((key.elems st.heap).getD (key.len - 1) "") 0 vs st hwf⟩

/-- Any number of iterations from a well-formed work list: no failure, and the work
list stays well-formed. -/
theorem flattenIterate_wellFormed (grow : Nat → Nat → Nat) (n : Nat) (st : FlattenState σ)
    (hwf : ∀ x ∈ st.stack, x.WellFormed) :
    ∃ st1, flattenIterate grow n st = Except.ok st1 ∧ ∀ x ∈ st1.stack, x.WellFormed := by
  induction n generalizing st with
  | zero => exact ⟨st, rfl, hwf⟩
  | succ n ih =>
    obtain ⟨heap, stack, rv⟩ := st
    cases stack with
    | nil => exact ⟨_, rfl, hwf⟩
    | cons e rest =>
      obtain ⟨st1, hst1, hwf1⟩ := processElement_wellFormed grow e ⟨heap, rest, rv⟩
        (hwf _ (List.mem_cons_self _ _)) (fun x hx => hwf x (List.mem_cons_of_mem _ hx))
      obtain ⟨st2, hst2, hwf2⟩ := ih st1 hwf1
      refine ⟨st2, ?_, hwf2⟩
      simp only [flattenIterate, hst1]
      exact hst2

/-- C18: `FlattenMap` never fails, for every input map and every growth policy of
`append`. After any number of iterations of its loop no failure has occurred and
every item on the work list is a `pair` (the branch "can't cast element to pair" is
not taken) that is either the root, with the empty path and a map as its value, or
has a path of at least one segment, so that the lookup of the last segment for a
list value is in bounds; hence `FlattenMap` returns a result. -/
theorem FlattenMap_never_fails (grow : Nat → Nat → Nat) (input : List (String × Value σ)) :
    (∀ n, ∃ st, flattenIterate grow n (flattenInit input) = Except.ok st ∧
      ∀ e ∈ st.stack, ∃ p, e = Element.ofPair p ∧
        (p.isRoot = true → p.key.len = 0 ∧ ∃ fs, p.value = Value.object fs) ∧
        (p.isRoot = false → 0 < p.key.len)) ∧
      ∃ result, FlattenMap grow input = some (Except.ok result) := by
  have hwf : ∀ x ∈ (flattenInit input).stack, x.WellFormed := by
    intro x hx
    simp only [flattenInit, List.mem_singleton] at hx
    subst hx
    exact ⟨fun _ => ⟨rfl, input, rfl⟩, fun h => by cases h⟩
  refine ⟨fun n => ?_, ?_⟩
  · obtain ⟨st, hst, hwf1⟩ := flattenIterate_wellFormed grow n (flattenInit input) hwf
    refine ⟨st, hst, fun e he => ?_⟩
    have := hwf1 e he
    cases e with
    | other => exact absurd this (by simp [Element.WellFormed])
    | ofPair p => exact ⟨p, rfl, this⟩
  · have hn : stackNodes (flattenInit input).stack = Value.nodes (Value.object input) := by
      simp [flattenInit, stackNodes, Element.nodes]
    exact (flattenLoop_fuel grow _ (flattenInit input)
      (fun x hx => WellFormed.good x (hwf x hx))).1 (le_of_eq hn)

end FlattenSafety

/-! ## The sink factory and the byte threshold 0 -/

/-- C14: `LokiClientFactoryCreate` returns the text (HTTP/JSON) sink bound to the
given URL exactly when the client name is `"http"`, the binary (protobuf) sink bound
to the given URL exactly when it is `"proto"`, and nil for every other name, for
instance `"batman"`. -/
theorem LokiClientFactoryCreate_by_name (clientName lokiUrl : String) :
    (LokiClientFactoryCreate clientName lokiUrl = some (LokiSink.http ⟨lokiUrl⟩) ↔
        clientName = "http") ∧
      (LokiClientFactoryCreate clientName lokiUrl = some (LokiSink.proto ⟨lokiUrl⟩) ↔
        clientName = "proto") ∧
      (LokiClientFactoryCreate clientName lokiUrl = none ↔
        clientName ≠ "http" ∧ clientName ≠ "proto") ∧
      (LokiClientFactoryCreate clientName lokiUrl).map LokiSink.lokiUrl =
        (if clientName = "http" ∨ clientName = "proto" then some lokiUrl else none) ∧
      LokiClientFactoryCreate "batman" lokiUrl = none := by
  refine ⟨?_, ?_, ?_, ?_, by simp [LokiClientFactoryCreate]⟩
  · by_cases h1 : clientName = "http"
    · simp [LokiClientFactoryCreate, NewLokiHttpClient, h1]
    · by_cases h2 : clientName = "proto" <;>
        simp [LokiClientFactoryCreate, NewLokiHttpClient, NewLokiProtoClient, h1, h2]
  · by_cases h1 : clientName = "http"
    · simp [LokiClientFactoryCreate, NewLokiHttpClient, h1]
    · by_cases h2 : clientName = "proto" <;>
        simp [LokiClientFactoryCreate, NewLokiHttpClient, NewLokiProtoClient, h1, h2]
  · by_cases h1 : clientName = "http"
    · simp [LokiClientFactoryCreate, NewLokiHttpClient, h1]
    · by_cases h2 : clientName = "proto" <;>
        simp [LokiClientFactoryCreate, NewLokiHttpClient, NewLokiProtoClient, h1, h2]
  · by_cases h1 : clientName = "http"
    · simp [LokiClientFactoryCreate, NewLokiHttpClient, LokiSink.lokiUrl, h1]
    · by_cases h2 : clientName = "proto" <;>
        simp [LokiClientFactoryCreate, NewLokiHttpClient, NewLokiProtoClient,
          LokiSink.lokiUrl, h1, h2]

/-- C15 (evaluation at a failing input): the empty batch `NewLokiStreams(3, 0)` has
the byte threshold 0 and a count below the count threshold, and `IsFull` returns
true for it; so does the batch `NewLokiStreams(3, 0)` after one 10-byte entry. -/
theorem IsFull_true_with_zero_byte_threshold :
    NewLokiStreams 3 0 = Except.ok ⟨[], 0, 0, 3, 0⟩ ∧
    (LokiStreams.mk [] 0 0 3 0).IsFull = true ∧
    ¬ ((LokiStreams.mk [] 0 0 3 0).Count ≥ (LokiStreams.mk [] 0 0 3 0).bufferMaxBatchSize) ∧
    ((LokiStreams.mk [] 0 0 3 0).AddData (sampleEntry 0 10)).IsFull = true ∧
    ¬ (((LokiStreams.mk [] 0 0 3 0).AddData (sampleEntry 0 10)).Count ≥ 3) := by
  decide

/-! ## Conservation of entries -/

theorem setTimestamp_keeps (data s : LokiStream) (ts : String)
    (h : setTimestamp data ts = Except.ok s) :
    s.Labels = data.Labels ∧ s.Size = data.Size ∧ s.line = data.line ∧
      ∃ cols rows, s.Values = (ts :: cols) :: rows := by
  unfold setTimestamp at h
  split at h
  · cases h
  · cases h
  · rename_i t cols rows hv
    cases h
    refine ⟨rfl, rfl, ?_, cols, rows, rfl⟩
    unfold LokiStream.line
    rw [hv]
    cases cols <;> rfl

/-- C16: no entry is lost, duplicated or reordered by batching. For every pusher
that `NewPusher` builds (thresholds being Go integers), every flush interval, every
sequence of entry arrivals, timer ticks and a shutdown request in which each entry
taken from the queue has a timestamp slot, and every outcome of each `SendData`:
`RunForever` returns, the calls it has made on the sink are `SendData` calls
followed by one `Shutdown`, the entries of the batches passed to `SendData`,
concatenated in call order, are exactly the entries taken from the queue in arrival
order, each with `Values[0][0]` overwritten by the value of `TimeProvider` and with
its labels, payload line and size unchanged, and the open batch is empty. -/
theorem no_entry_lost_duplicated_or_reordered (sink : SpeedySink)
    (maxBatchSize maxBatchSizeBytes now interval : Int) (events : List Event) (lp0 : Pusher)
    (hmax : IsInt maxBatchSize) (hint : IsInt interval)
    (hnew : NewPusher (some sink) maxBatchSize maxBatchSizeBytes now = Except.ok lp0)
    (hts : ∀ a ∈ entriesTaken events, a.data.hasTimestamp = true)
    (hshut : hasShutdown events = true) :
    ∃ lp1 sends,
      Pusher.RunForever { lp0 with SecondsToFlush := interval } events =
        Except.ok (RunState.returned lp1) ∧
      lp1.speedySink.calls = sink.calls ++ sends ++ [SinkCall.Shutdown] ∧
      (∀ c ∈ sends, ∃ b err, c = SinkCall.SendData b err ∧ b.Streams ≠ []) ∧
      List.Forall₂
        (fun a s => setTimestamp a.data a.timestamp = Except.ok s ∧
          s.Labels = a.data.Labels ∧ s.Size = a.data.Size ∧ s.line = a.data.line ∧
          ∃ cols rows, s.Values = (a.timestamp :: cols) :: rows)
        (entriesTaken events) (sentEntries sends) ∧
      lp1.currentStreams.Streams = [] := by
  obtain ⟨hinv, hcur, -, -, -, hsink, -⟩ :=
    NewPusher_inv (some sink) maxBatchSize maxBatchSizeBytes now interval lp0 hmax hint hnew
  obtain ⟨r, hr⟩ := RunForever_ok events _ hinv hts
  obtain ⟨hret, -, sends, hcalls, hsends, hcons, hempty⟩ := RunForever_spec events _ r hinv hr
  rw [hshut] at hret
  cases r with
  | running lp => simp [RunState.isReturned] at hret
  | returned lp1 =>
    have hem := hempty rfl
    simp only [RunState.pusher, RunState.isReturned, if_true] at hcalls hcons hem
    rw [hem, hcur] at hcons
    simp only [List.append_nil, List.nil_append] at hcons
    refine ⟨lp1, sends, hr, ?_, hsends, ?_, hem⟩
    · rw [hcalls, hsink sink rfl]
    · rw [hcons]
      have h2 := forall2_stamped (entriesTaken events) hts
      refine List.Forall₂.imp ?_ h2
      intro a s hs
      exact ⟨hs, setTimestamp_keeps a.data s a.timestamp hs⟩

/-! ## The open batch of a pusher with thresholds of at least 1 -/

theorem freshBatch_tight (lp : Pusher) (h : lp.Tight) (sink : SpeedySink) (t : Int) :
    Pusher.Tight { lp with speedySink := sink, lastFlush := t, currentStreams := lp.freshBatch } := by
  refine ⟨freshBatch_inv lp h.inv sink t, h.count, h.bytes, ?_, ?_⟩
  · have h1 := h.count
    have h2 := h.bytes
    simp only [Pusher.freshBatch, LokiStreams.IsFull]
    rw [if_neg (by omega), if_neg (by omega)]
  · simp only [Pusher.freshBatch]
    decide

theorem Tight.length_lt (lp : Pusher) (h : lp.Tight) :
    (lp.currentStreams.Streams.length : Int) < lp.maxBatchSize := by
  have hnf := h.notFull
  have hc := h.inv.count
  have hb := h.inv.batchSize
  unfold LokiStreams.IsFull at hnf
  split at hnf
  · cases hnf
  · split at hnf
    · cases hnf
    · omega

/-- What one arrival does to a pusher with thresholds of at least 1. -/
theorem receive_tight (lp lp1 : Pusher) (a : Arrival) (h : lp.Tight)
    (hr : lp.receive a = Except.ok lp1) :
    lp1.Tight ∧ lp1.maxBatchSize = lp.maxBatchSize ∧
      ∃ sends, lp1.speedySink.calls = lp.speedySink.calls ++ sends ∧
        ∀ b ∈ sentBatches sends, b.Streams ≠ [] ∧ (b.Streams.length : Int) ≤ lp.maxBatchSize := by
  obtain ⟨hinv1, -, hm, hmb, -, hcase⟩ := receive_spec lp lp1 a h.inv hr
  have hlt := Tight.length_lt lp h
  rcases hcase with ⟨hs, hc, -, hnf⟩ | ⟨hs, hc, -, -⟩
  · refine ⟨⟨hinv1, by rw [hm]; exact h.count, by rw [hmb]; exact h.bytes, by rw [hc]; exact hnf,
      ?_⟩, hm, [], by simp [hs], by simp [sentBatches]⟩
    rw [hc]
    simp only [LokiStreams.AddData, h.total, wrapInt_add_left, totalSize_append]
    simp [totalSize]
  · have ht := freshBatch_tight lp h lp1.speedySink lp1.lastFlush
    refine ⟨⟨hinv1, by rw [hm]; exact h.count, by rw [hmb]; exact h.bytes, ?_, ?_⟩, hm,
      [SinkCall.SendData (lp.currentStreams.AddData a.stamped) a.flush.sendErr], hs, ?_⟩
    · rw [hc]; exact ht.notFull
    · rw [hc]; exact ht.total
    · intro b hb
      simp only [sentBatches, List.mem_singleton] at hb
      subst hb
      simp only [LokiStreams.AddData, List.length_append, List.length_singleton]
      refine ⟨by simp, ?_⟩
      push_cast
      omega

/-- What a flush does to a pusher with thresholds of at least 1. -/
theorem flush_tight (lp : Pusher) (env : FlushEnv) (h : lp.Tight) :
    ∃ lp1 sends, lp.flushCurrentBatch env = Except.ok lp1 ∧ lp1.Tight ∧
      lp1.maxBatchSize = lp.maxBatchSize ∧
      lp1.speedySink.calls = lp.speedySink.calls ++ sends ∧
      ∀ b ∈ sentBatches sends, b.Streams ≠ [] ∧ (b.Streams.length : Int) ≤ lp.maxBatchSize := by
  have hs := flushCurrentBatch_spec lp env h.inv
  have hlt := Tight.length_lt lp h
  by_cases h0 : lp.currentStreams.Streams = []
  · exact ⟨lp, [], hs.1 h0, h, rfl, by simp, by simp [sentBatches]⟩
  · refine ⟨_, [SinkCall.SendData lp.currentStreams env.sendErr], hs.2 h0,
      freshBatch_tight lp h _ _, rfl, rfl, ?_⟩
    intro b hb
    simp only [sentBatches, List.mem_singleton] at hb
    subst hb
    exact ⟨h0, by omega⟩

theorem drain_tight (queued : List Arrival) (lp lp1 : Pusher) (h : lp.Tight)
    (hd : lp.drain queued = Except.ok lp1) :
    lp1.Tight ∧ lp1.maxBatchSize = lp.maxBatchSize ∧
      ∃ sends, lp1.speedySink.calls = lp.speedySink.calls ++ sends ∧
        ∀ b ∈ sentBatches sends, b.Streams ≠ [] ∧ (b.Streams.length : Int) ≤ lp.maxBatchSize := by
  induction queued generalizing lp with
  | nil =>
    cases hd
    exact ⟨h, rfl, [], by simp, by simp [sentBatches]⟩
  | cons a rest ih =>
    simp only [Pusher.drain] at hd
    cases hrec : lp.receive a with
    | error e => rw [hrec] at hd; cases hd
    | ok lp2 =>
      rw [hrec] at hd
      obtain ⟨ht2, hm2, s1, hc1, hb1⟩ := receive_tight lp lp2 a h hrec
      obtain ⟨ht1, hm1, s2, hc2, hb2⟩ := ih lp2 ht2 hd
      refine ⟨ht1, by rw [hm1, hm2], s1 ++ s2, by rw [hc2, hc1, List.append_assoc], ?_⟩
      intro b hb
      rw [sentBatches_append] at hb
      rcases List.mem_append.1 hb with hb | hb
      · exact hb1 b hb
      · rw [← hm2]; exact hb2 b hb

/-- A run of `RunForever` from a pusher with thresholds of at least 1 ends, whether
still in the loop or returned, with an open batch that is not full and whose counter
and byte total match its entries; every batch it has sent is non-empty and holds at
most `maxBatchSize` entries. -/
theorem RunForever_tight (events : List Event) (lp : Pusher) (r : RunState) (h : lp.Tight)
    (hr : lp.RunForever events = Except.ok r) :
    r.pusher.Tight ∧ r.pusher.maxBatchSize = lp.maxBatchSize ∧
      ∃ sends, r.pusher.speedySink.calls = lp.speedySink.calls ++ sends ∧
        ∀ b ∈ sentBatches sends, b.Streams ≠ [] ∧ (b.Streams.length : Int) ≤ lp.maxBatchSize := by
  induction events generalizing lp with
  | nil =>
    cases hr
    exact ⟨h, rfl, [], by simp [RunState.pusher], by simp [sentBatches]⟩
  | cons ev rest ih =>
    cases ev with
    | data a =>
      rw [RunForever_data] at hr
      cases hrec : lp.receive a with
      | error e => rw [hrec] at hr; cases hr
      | ok lp2 =>
        rw [hrec] at hr
        obtain ⟨ht2, hm2, s1, hc1, hb1⟩ := receive_tight lp lp2 a h hrec
        obtain ⟨ht1, hm1, s2, hc2, hb2⟩ := ih lp2 ht2 hr
        refine ⟨ht1, by rw [hm1, hm2], s1 ++ s2, by rw [hc2, hc1, List.append_assoc], ?_⟩
        intro b hb
        rw [sentBatches_append] at hb
        rcases List.mem_append.1 hb with hb | hb
        · exact hb1 b hb
        · rw [← hm2]; exact hb2 b hb
    | tick now env =>
      rw [RunForever_tick] at hr
      by_cases hc : Milliseconds (timeSub now lp.lastFlush) ≥ Milliseconds lp.SecondsToFlush
      · rw [if_pos hc] at hr
        obtain ⟨lp2, s1, hfl, ht2, hm2, hc1, hb1⟩ := flush_tight lp env h
        rw [hfl] at hr
        obtain ⟨ht1, hm1, s2, hc2, hb2⟩ := ih lp2 ht2 hr
        refine ⟨ht1, by rw [hm1, hm2], s1 ++ s2, by rw [hc2, hc1, List.append_assoc], ?_⟩
        intro b hb
        rw [sentBatches_append] at hb
        rcases List.mem_append.1 hb with hb | hb
        · exact hb1 b hb
        · rw [← hm2]; exact hb2 b hb
      · rw [if_neg hc] at hr
        exact ih lp h hr
    | shutdown queued final =>
      rw [RunForever_shutdown] at hr
      cases hd : lp.drain queued with
      | error e => rw [hd] at hr; cases hr
      | ok lp2 =>
        rw [hd] at hr
        simp only at hr
        obtain ⟨ht2, hm2, s1, hc1, hb1⟩ := drain_tight queued lp lp2 h hd
        obtain ⟨lp3, s2, hfl, ht3, hm3, hc2, hb2⟩ := flush_tight lp2 final ht2
        rw [hfl] at hr
        cases hr
        refine ⟨⟨⟨ht3.inv.count, ht3.inv.room, ht3.inv.batchSize, ht3.inv.byteSize,
          ht3.inv.nonneg, ht3.inv.isInt, ht3.inv.interval, ht3.inv.alloc⟩, ht3.count, ht3.bytes, ht3.notFull,
          ht3.total⟩, by simp only [RunState.pusher]; rw [hm3, hm2],
          s1 ++ s2 ++ [SinkCall.Shutdown], ?_, ?_⟩
        · simp only [RunState.pusher, hc2, hc1, List.append_assoc]
        · intro b hb
          rw [sentBatches_append, sentBatches_append] at hb
          simp only [sentBatches, List.append_nil] at hb
          rcases List.mem_append.1 hb with hb | hb
          · exact hb1 b hb
          · rw [← hm2]; exact hb2 b hb

/-- C17 (counterexample): a pusher built with `maxCount = 10` and
`maxBytes = 2^63 - 1` that has processed the arrivals of two entries of size `2^62`
holds both in its open batch, whose `TotalSize` is `-2^63` while the sum of the two
sizes is `2^63`. -/
theorem TotalSize_differs_from_sum_after_overflow :
    NewPusher (some ⟨[]⟩) 10 (2 ^ 63 - 1) 0 =
      Except.ok ⟨⟨[]⟩, 0, 60000000000, ⟨[], 0, 0, 10, 2 ^ 63 - 1⟩, 10, 2 ^ 63 - 1⟩ ∧
    (Pusher.RunForever ⟨⟨[]⟩, 0, 60000000000, ⟨[], 0, 0, 10, 2 ^ 63 - 1⟩, 10, 2 ^ 63 - 1⟩
        [Event.data (sampleArrival 0 (2 ^ 62)), Event.data (sampleArrival 1 (2 ^ 62))]).map
      (fun r => (r.pusher.currentStreams.Streams.length, r.pusher.currentStreams.TotalSize,
        totalSize r.pusher.currentStreams.Streams, r.pusher.speedySink.calls)) =
      Except.ok (2, -(2 ^ 63), 2 ^ 63, []) := by
  decide

/-- C17 (amended): for a pusher constructed with `maxCount >= 1` and `maxBytes >= 1`
(`maxCount` a Go integer), after every sequence of processed events (entry
arrivals, timer ticks, shutdown) the open batch is not full, its `Count` is the
number of entries it holds and its `TotalSize` is the sum of their sizes reduced to
a Go `int`, hence equal to that sum whenever the sum is in the range of a Go `int`;
and every batch passed to `SendData` is non-empty and holds at most `maxCount`
entries. -/
theorem open_batch_not_full_and_consistent (sink : SpeedySink)
    (maxCount maxBytes now interval : Int) (events : List Event) (lp0 : Pusher)
    (r : RunState) (hcount : 1 ≤ maxCount) (hbytes : 1 ≤ maxBytes) (hmax : IsInt maxCount)
    (hint : IsInt interval)
    (hnew : NewPusher (some sink) maxCount maxBytes now = Except.ok lp0)
    (hrun : Pusher.RunForever { lp0 with SecondsToFlush := interval } events = Except.ok r) :
    r.pusher.currentStreams.IsFull = false ∧
      r.pusher.currentStreams.Count = r.pusher.currentStreams.Streams.length ∧
      r.pusher.currentStreams.TotalSize =
        wrapInt (totalSize r.pusher.currentStreams.Streams) ∧
      (IsInt (totalSize r.pusher.currentStreams.Streams) →
        r.pusher.currentStreams.TotalSize = totalSize r.pusher.currentStreams.Streams) ∧
      ∃ sends, r.pusher.speedySink.calls = sink.calls ++ sends ∧
        ∀ b ∈ sentBatches sends, b.Streams ≠ [] ∧ (b.Streams.length : Int) ≤ maxCount := by
  obtain ⟨hinv, hcur, hm, hmb, -, hsink, -⟩ :=
    NewPusher_inv (some sink) maxCount maxBytes now interval lp0 hmax hint hnew
  have ht0 : Pusher.Tight { lp0 with SecondsToFlush := interval } := by
    refine ⟨hinv, by rw [hm]; exact hcount, by rw [hmb]; exact hbytes, ?_, ?_⟩
    · simp only [hcur, LokiStreams.IsFull]
      rw [if_neg (by omega), if_neg (by omega)]
    · simp only [hcur]
      decide
  obtain ⟨ht, -, sends, hcalls, hb⟩ := RunForever_tight events _ r ht0 hrun
  refine ⟨ht.notFull, ht.inv.count, ht.total, fun hi => ?_, sends, ?_, ?_⟩
  · rw [ht.total, wrapInt_of_isInt _ hi]
  · rw [hcalls, hsink sink rfl]
  · intro b hbm
    have := hb b hbm
    rw [hm] at this
    exact this

/-- Witness of `open_batch_not_full_and_consistent`: the pusher with thresholds 3 and
16 after the arrival of one 10-byte sample entry. -/
theorem open_batch_not_full_and_consistent_witness :
    (RunState.running samplePusher1).pusher.currentStreams.IsFull = false ∧
      (RunState.running samplePusher1).pusher.currentStreams.Count =
        (RunState.running samplePusher1).pusher.currentStreams.Streams.length ∧
      (RunState.running samplePusher1).pusher.currentStreams.TotalSize =
        wrapInt (totalSize (RunState.running samplePusher1).pusher.currentStreams.Streams) ∧
      (IsInt (totalSize (RunState.running samplePusher1).pusher.currentStreams.Streams) →
        (RunState.running samplePusher1).pusher.currentStreams.TotalSize =
          totalSize (RunState.running samplePusher1).pusher.currentStreams.Streams) ∧
      ∃ sends, (RunState.running samplePusher1).pusher.speedySink.calls =
          (SpeedySink.mk []).calls ++ sends ∧
        ∀ b ∈ sentBatches sends, b.Streams ≠ [] ∧ (b.Streams.length : Int) ≤ 3 :=
  open_batch_not_full_and_consistent ⟨[]⟩ 3 16 0 60000000000
    [Event.data (sampleArrival 0 10)] samplePusher0 (RunState.running samplePusher1)
    (by decide) (by decide) (by decide) (by decide) (by decide) (by decide)

/-- Witness of `no_entry_lost_duplicated_or_reordered`: three 10-byte sample entries,
a tick and a shutdown request with one of the entries still in the queue. -/
theorem no_entry_lost_duplicated_or_reordered_witness :
    ∃ lp1 sends,
      Pusher.RunForever { samplePusher0 with SecondsToFlush := 50000000 }
          [Event.data (sampleArrival 0 10), Event.tick 70000000 ⟨some "timeout", 70000001⟩,
            Event.data (sampleArrival 1 10), Event.shutdown [sampleArrival 2 10] ⟨none, 9⟩] =
        Except.ok (RunState.returned lp1) ∧
      lp1.speedySink.calls = (SpeedySink.mk []).calls ++ sends ++ [SinkCall.Shutdown] ∧
      (∀ c ∈ sends, ∃ b err, c = SinkCall.SendData b err ∧ b.Streams ≠ []) ∧
      List.Forall₂
        (fun a s => setTimestamp a.data a.timestamp = Except.ok s ∧
          s.Labels = a.data.Labels ∧ s.Size = a.data.Size ∧ s.line = a.data.line ∧
          ∃ cols rows, s.Values = (a.timestamp :: cols) :: rows)
        (entriesTaken
          [Event.data (sampleArrival 0 10), Event.tick 70000000 ⟨some "timeout", 70000001⟩,
            Event.data (sampleArrival 1 10), Event.shutdown [sampleArrival 2 10] ⟨none, 9⟩])
        (sentEntries sends) ∧
      lp1.currentStreams.Streams = [] :=
  no_entry_lost_duplicated_or_reordered ⟨[]⟩ 3 16 0 50000000
    [Event.data (sampleArrival 0 10), Event.tick 70000000 ⟨some "timeout", 70000001⟩,
      Event.data (sampleArrival 1 10), Event.shutdown [sampleArrival 2 10] ⟨none, 9⟩]
    samplePusher0 (by decide) (by decide) (by decide) (by decide) (by decide)

/-! ## The two sinks -/

theorem appendLabels_eq (quote : String → String) (labels : List (String × String))
    (tmpLabels : List String) :
    appendLabels quote labels tmpLabels =
      tmpLabels ++ labels.map fun kv => kv.1 ++ "=" ++ quote kv.2 := by
  induction labels generalizing tmpLabels with
  | nil => simp [appendLabels]
  | cons kv rest ih =>
    obtain ⟨k, v⟩ := kv
    simp [appendLabels, ih]

theorem line_of_pair (e : LokiStream) (ts line : String) (h : e.Values = [[ts, line]]) :
    e.line = Except.ok line := by
  unfold LokiStream.line
  rw [h]

/-- The outer loop of the binary sink appends one record per entry, in order. -/
theorem appendStreams_spec (quote : String → String) (now : Nat → Int)
    (entries : List LokiStream) (i : Nat) (streams : List logproto.Stream)
    (hpair : ∀ e ∈ entries, ∃ ts line, e.Values = [[ts, line]]) :
    ∃ added, appendStreams quote now i entries streams = Except.ok (streams ++ added) ∧
      List.Forall₂
        (fun e r => ∃ ts line t, e.Values = [[ts, line]] ∧
          r.Entries = [⟨t, line⟩] ∧
          r.Labels = "\x7b" ++ ", ".intercalate
            (e.Labels.map fun kv => kv.1 ++ "=" ++ quote kv.2) ++ "\x7d")
        entries added := by
  induction entries generalizing i streams with
  | nil => exact ⟨[], by simp [appendStreams], List.Forall₂.nil⟩
  | cons e rest ih =>
    obtain ⟨ts, line, hv⟩ := hpair e (List.mem_cons_self _ _)
    obtain ⟨added, hrun, hall⟩ := ih (i + 1)
      (streams ++ [⟨"\x7b" ++ ", ".intercalate (appendLabels quote e.Labels []) ++ "\x7d",
        [⟨now i, line⟩]⟩])
      (fun x hx => hpair x (List.mem_cons_of_mem _ hx))
    refine ⟨⟨"\x7b" ++ ", ".intercalate (appendLabels quote e.Labels []) ++ "\x7d",
        [⟨now i, line⟩]⟩ :: added, ?_, List.Forall₂.cons ⟨ts, line, now i, hv, rfl, ?_⟩ hall⟩
    · simp only [appendStreams, line_of_pair e ts line hv]
      rw [hrun, List.append_assoc]
      rfl
    · rw [appendLabels_eq]
      rfl

theorem doRequest_err (env : TransportEnv) (req : HttpRequest)
    (closeLogs : String → List LogEvent) :
    (doRequest env req closeLogs).err =
        (match env.response with
          | Except.error e => some e
          | Except.ok _ => none) ∧
      (doRequest env req closeLogs).request = some req := by
  unfold doRequest
  cases env.response with
  | error e => exact ⟨rfl, rfl⟩
  | ok resp =>
    simp only
    split
    · cases resp.body <;> exact ⟨rfl, rfl⟩
    · exact ⟨rfl, rfl⟩


theorem hasOnePair_values (e : LokiStream) (h : e.hasOnePair = true) :
    ∃ ts line, e.Values = [[ts, line]] := by
  unfold LokiStream.hasOnePair at h
  split at h
  · rename_i ts line hv
    exact ⟨ts, line, hv⟩
  · cases h

/-- C13: a response is never turned into an error by either sink. The text sink
returns no error exactly when the request could be built and `HttpClient.Do` returned
a response, whatever its status code (204 or any other) and whatever reading its body
gives; it returns an error exactly when building the request or transporting it
fails (serialising a batch to JSON has no failing case). Whenever the binary sink
returns, its loop has built the stream records, and it returns no error exactly when
serialising them, building the request and transporting it all succeed, whatever the
status code of the response, and it returns an error exactly when one of the three
fails; and on such a batch it returns whatever the transport answers. -/
theorem SendData_error_only_on_failure (jsonString goString : String → String)
    (streamSize : Int) (now : Nat → Int)
    (encode : List logproto.Stream → Except String String)
    (text : LokiHttpClient) (binary : LokiProtoClient) (env : TransportEnv)
    (body : MarshalStreams) (data : LokiStreams) (out : SendOutcome)
    (hout : LokiProtoClient.SendData streamSize goString now encode binary env data =
      Except.ok out) :
    ((LokiHttpClient.SendData jsonString text env body).err = none ↔
        env.requestErr = none ∧ ∃ resp, env.response = Except.ok resp) ∧
      (∀ e, (LokiHttpClient.SendData jsonString text env body).err = some e ↔
        env.requestErr = some e ∨ (env.requestErr = none ∧ env.response = Except.error e)) ∧
      ∃ streams, appendStreams goString now 0 data.Streams [] = Except.ok streams ∧
        (out.err = none ↔
          (∃ b, encode streams = Except.ok b) ∧ env.requestErr = none ∧
            ∃ resp, env.response = Except.ok resp) ∧
        (∀ e, out.err = some e ↔
          encode streams = Except.error e ∨
            ((∃ b, encode streams = Except.ok b) ∧ env.requestErr = some e) ∨
            ((∃ b, encode streams = Except.ok b) ∧ env.requestErr = none ∧
              env.response = Except.error e)) ∧
        ∀ env1 : TransportEnv, ∃ out1,
          LokiProtoClient.SendData streamSize goString now encode binary env1 data =
            Except.ok out1 := by
  refine ⟨?_, ?_, ?_⟩
  · unfold LokiHttpClient.SendData jsonMarshal
    simp only
    cases hreq : env.requestErr with
    | some e => simp
    | none =>
      simp only [(doRequest_err env _ _).1]
      cases env.response <;> simp
  · intro e
    unfold LokiHttpClient.SendData jsonMarshal
    simp only
    cases hreq : env.requestErr with
    | some e1 => simp
    | none =>
      simp only [(doRequest_err env _ _).1]
      cases env.response <;> simp
  · unfold LokiProtoClient.SendData at hout
    cases hp : makeslicePanics streamSize data.Count with
    | true => simp [hp] at hout
    | false =>
      cases hstreams : appendStreams goString now 0 data.Streams [] with
      | error e1 => simp [hp, hstreams] at hout
      | ok streams =>
        have hret : ∀ env1 : TransportEnv, ∃ out1,
            LokiProtoClient.SendData streamSize goString now encode binary env1 data =
              Except.ok out1 := by
          intro env1
          unfold LokiProtoClient.SendData
          simp only [hp, hstreams]
          cases encode streams with
          | error e1 => exact ⟨_, rfl⟩
          | ok b1 =>
            cases env1.requestErr with
            | some e1 => exact ⟨_, rfl⟩
            | none => exact ⟨_, rfl⟩
        refine ⟨streams, rfl, ?_⟩
        simp only [hp, hstreams] at hout
        cases henc : encode streams with
        | error e1 =>
          simp only [henc] at hout
          simp at hout
          subst hout
          exact ⟨by simp, by simp, hret⟩
        | ok b =>
          simp only [henc] at hout
          cases hreq : env.requestErr with
          | some e1 =>
            simp only [hreq] at hout
            simp at hout
            subst hout
            exact ⟨by simp, by simp, hret⟩
          | none =>
            simp only [hreq] at hout
            simp at hout
            subst hout
            refine ⟨?_, ?_, hret⟩
            · simp only [(doRequest_err env _ _).1]
              cases env.response <;> simp
            · intro e
              simp only [(doRequest_err env _ _).1]
              cases env.response <;> simp


/-- C12 (counterexample): the batch that holds the one entry of the tests, with the
pair `["0", "log-line"]`, and whose `Count` is -1: the binary sink builds no record;
it stops with the panic of `make([]logproto.Stream, 0, data.Count)`. -/
theorem binary_sink_panics_on_negative_count :
    LokiStream.hasOnePair ⟨[("label1", "value")], [["0", "log-line"]], 0⟩ = true ∧
    LokiProtoClient.SendData 40 (goQuote fun _ => true) (fun _ => 0) sampleEncode
        ⟨"https://loki.com/loki/api/v1/push"⟩ (sampleTransport 204)
        ⟨[⟨[("label1", "value")], [["0", "log-line"]], 0⟩], -1, 0, 0, 0⟩ =
      Except.error "makeslice: cap out of range" := by
  decide

/-- C12 (amended): for every batch whose `Count` is a capacity that `make` accepts and
whose entries each hold one `[timestamp, line]` pair, the loop of the binary sink
builds exactly one stream record per entry, in batch order; each record carries
exactly one log entry, whose line is the entry's `Values[0][1]`, and the labels
string made of an opening brace, the entry's labels each formatted as `key=`
followed by the value quoted with `%q`, joined by `", "` in the iteration order of
the label map, and a closing brace; these records are what the sink serialises and
sends with the content type `application/x-protobuf`. A single label `label1=value`
gives `{label1="value"}`. -/
theorem binary_sink_one_record_per_entry (streamSize : Int) (quote : String → String)
    (now : Nat → Int)
    (encode : List logproto.Stream → Except String String) (l : LokiProtoClient)
    (env : TransportEnv) (data : LokiStreams) (b : String)
    (hcount : makeslicePanics streamSize data.Count = false)
    (hpair : ∀ e ∈ data.Streams, e.hasOnePair = true)
    (hreq : env.requestErr = none) :
    (∃ streams, appendStreams quote now 0 data.Streams [] = Except.ok streams ∧
      List.Forall₂
        (fun e r => ∃ ts line t, e.Values = [[ts, line]] ∧
          r.Entries = [⟨t, line⟩] ∧
          r.Labels = "\x7b" ++ ", ".intercalate
            (e.Labels.map fun kv => kv.1 ++ "=" ++ quote kv.2) ++ "\x7d")
        data.Streams streams ∧
      (∃ out, LokiProtoClient.SendData streamSize quote now encode l env data =
        Except.ok out) ∧
      (encode streams = Except.ok b →
        ∃ out, LokiProtoClient.SendData streamSize quote now encode l env data =
            Except.ok out ∧
          out.request = some ⟨"POST", l.lokiUrl, "application/x-protobuf", b⟩)) ∧
    appendStreams (goQuote fun _ => true) (fun _ => 0) 0 sampleBatch.Streams [] =
      Except.ok [⟨"\x7blabel1=\"value\"\x7d", [⟨0, "log-line"⟩]⟩] := by
  refine ⟨?_, by decide⟩
  obtain ⟨added, hrun, hall⟩ := appendStreams_spec quote now data.Streams 0 []
    (fun e he => hasOnePair_values e (hpair e he))
  rw [List.nil_append] at hrun
  refine ⟨added, hrun, hall, ?_, fun henc => ?_⟩
  · unfold LokiProtoClient.SendData
    simp only [hcount, hrun, hreq]
    cases encode added with
    | error e => exact ⟨_, rfl⟩
    | ok b1 => exact ⟨_, rfl⟩
  · unfold LokiProtoClient.SendData
    simp only [hcount, hrun, henc, hreq]
    exact ⟨_, rfl, (doRequest_err env _ _).2⟩

/-- Witness of `binary_sink_one_record_per_entry`: the batch of the tests, answered
with status 204. -/
theorem binary_sink_one_record_per_entry_witness :
    (∃ streams, appendStreams (goQuote fun _ => true) (fun i => 100 + i) 0
        sampleBatch.Streams [] = Except.ok streams ∧
      List.Forall₂
        (fun e r => ∃ ts line t, e.Values = [[ts, line]] ∧
          r.Entries = [⟨t, line⟩] ∧
          r.Labels = "\x7b" ++ ", ".intercalate
            (e.Labels.map fun kv => kv.1 ++ "=" ++ (goQuote fun _ => true) kv.2) ++ "\x7d")
        sampleBatch.Streams streams ∧
      (∃ out, LokiProtoClient.SendData 40 (goQuote fun _ => true) (fun i => 100 + i)
          sampleEncode ⟨"https://loki.com/loki/api/v1/push"⟩ (sampleTransport 204)
          sampleBatch = Except.ok out) ∧
      (sampleEncode streams = Except.ok "bytes" →
        ∃ out, LokiProtoClient.SendData 40 (goQuote fun _ => true) (fun i => 100 + i)
            sampleEncode ⟨"https://loki.com/loki/api/v1/push"⟩ (sampleTransport 204)
            sampleBatch = Except.ok out ∧
          out.request = some ⟨"POST",
            (LokiProtoClient.mk "https://loki.com/loki/api/v1/push").lokiUrl,
            "application/x-protobuf", "bytes"⟩)) ∧
    appendStreams (goQuote fun _ => true) (fun _ => 0) 0 sampleBatch.Streams [] =
      Except.ok [⟨"\x7blabel1=\"value\"\x7d", [⟨0, "log-line"⟩]⟩] :=
  binary_sink_one_record_per_entry 40 (goQuote fun _ => true) (fun i => 100 + i)
    sampleEncode ⟨"https://loki.com/loki/api/v1/push"⟩ (sampleTransport 204)
    sampleBatch "bytes" (by decide) (by decide) rfl


/-- Witness of `SendData_error_only_on_failure`: the batch of the tests and a response
with status 500. -/
theorem SendData_error_only_on_failure_witness :
    ((LokiHttpClient.SendData jsonQuote ⟨"https://loki.com/loki/api/v1/push"⟩
          (sampleTransport 500) sampleBatch.forMarshal).err = none ↔
        (sampleTransport 500).requestErr = none ∧
          ∃ resp, (sampleTransport 500).response = Except.ok resp) ∧
      (∀ e, (LokiHttpClient.SendData jsonQuote ⟨"https://loki.com/loki/api/v1/push"⟩
          (sampleTransport 500) sampleBatch.forMarshal).err = some e ↔
        (sampleTransport 500).requestErr = some e ∨
          ((sampleTransport 500).requestErr = none ∧
            (sampleTransport 500).response = Except.error e)) ∧
      ∃ streams, appendStreams (goQuote fun _ => true) (fun _ => 0) 0
          sampleBatch.Streams [] = Except.ok streams ∧
        ((SendOutcome.mk none (some ⟨"POST", "https://loki.com/loki/api/v1/push",
            "application/x-protobuf", "bytes"⟩)
            [LogEvent.debug "\x7b500\x7d - \x7bboom\x7d", LogEvent.sentry none]).err = none ↔
          (∃ b, sampleEncode streams = Except.ok b) ∧
            (sampleTransport 500).requestErr = none ∧
            ∃ resp, (sampleTransport 500).response = Except.ok resp) ∧
        (∀ e, (SendOutcome.mk none (some ⟨"POST", "https://loki.com/loki/api/v1/push",
            "application/x-protobuf", "bytes"⟩)
            [LogEvent.debug "\x7b500\x7d - \x7bboom\x7d", LogEvent.sentry none]).err =
              some e ↔
          sampleEncode streams = Except.error e ∨
            ((∃ b, sampleEncode streams = Except.ok b) ∧
              (sampleTransport 500).requestErr = some e) ∨
            ((∃ b, sampleEncode streams = Except.ok b) ∧
              (sampleTransport 500).requestErr = none ∧
              (sampleTransport 500).response = Except.error e)) ∧
        ∀ env1 : TransportEnv, ∃ out1,
          LokiProtoClient.SendData 40 (goQuote fun _ => true) (fun _ => 0) sampleEncode
            ⟨"https://loki.com/loki/api/v1/push"⟩ env1 sampleBatch = Except.ok out1 :=
  SendData_error_only_on_failure jsonQuote (goQuote fun _ => true) 40 (fun _ => 0)
    sampleEncode ⟨"https://loki.com/loki/api/v1/push"⟩
    ⟨"https://loki.com/loki/api/v1/push"⟩ (sampleTransport 500) sampleBatch.forMarshal
    sampleBatch
    ⟨none, some ⟨"POST", "https://loki.com/loki/api/v1/push", "application/x-protobuf",
      "bytes"⟩, [LogEvent.debug "\x7b500\x7d - \x7bboom\x7d", LogEvent.sentry none]⟩
    (by decide)

theorem renderItems_map {α : Type} (quote : String → String) (f : α → Json) (xs : List α) :
    Json.render.renderItems quote (xs.map f) = xs.map fun x => (f x).render quote := by
  induction xs with
  | nil => rfl
  | cons x rest ih => simp [Json.render.renderItems, ih]

theorem renderFields_labels (quote : String → String) (labels : List (String × String)) :
    Json.render.renderFields quote (labels.map fun kv => (kv.1, Json.str kv.2)) =
      labels.map fun kv => quote kv.1 ++ ":" ++ quote kv.2 := by
  induction labels with
  | nil => rfl
  | cons kv rest ih => simp [Json.render.renderFields, Json.render, ih]

/-- The JSON text of one entry that holds one pair. -/
theorem render_entry (e : LokiStream) (ts line : String) (h : e.Values = [[ts, line]]) :
    e.forMarshal.toJson.render jsonQuote =
      "\x7b\"stream\":\x7b" ++
        ",".intercalate ((sortByKey e.Labels).map fun kv => jsonQuote kv.1 ++ ":" ++ jsonQuote kv.2)
        ++ "\x7d,\"values\":[[" ++ jsonQuote ts ++ "," ++ jsonQuote line ++ "]]\x7d" := by
  have q1 : jsonQuote "stream" = "\"stream\"" := by decide
  have q2 : jsonQuote "values" = "\"values\"" := by decide
  simp only [LokiStream.forMarshal, MarshalStream.toJson, labelsJson, valuesJson, rowJson,
    Json.render, Json.render.renderFields,
    Json.render.renderItems, renderFields_labels, h, List.map_cons, List.map_nil, q1, q2]
  simp only [String.intercalate, String.intercalate.go, String.append_assoc]
  apply String.ext
  simp only [String.data_append]
  simp

/-- The JSON text of a batch in terms of the texts of its entries. -/
theorem render_batch (d : LokiStreams) :
    d.forMarshal.toJson.render jsonQuote =
      "\x7b\"streams\":[" ++
        ",".intercalate (d.Streams.map fun e => e.forMarshal.toJson.render jsonQuote) ++
        "]\x7d" := by
  have q : jsonQuote "streams" = "\"streams\"" := by decide
  have h1 : d.forMarshal.toJson.render jsonQuote =
      "\x7b" ++ ",".intercalate [jsonQuote "streams" ++ ":" ++
        ("[" ++ ",".intercalate
          (Json.render.renderItems jsonQuote
            ((d.Streams.map LokiStream.forMarshal).map MarshalStream.toJson)) ++ "]")]
        ++ "\x7d" := by
    simp only [LokiStreams.forMarshal, MarshalStreams.toJson, Json.render,
      Json.render.renderFields]
  rw [h1, renderItems_map, q, List.map_map]
  have hX : (d.Streams.map ((fun x => x.toJson.render jsonQuote) ∘ LokiStream.forMarshal)) =
      d.Streams.map fun e => e.forMarshal.toJson.render jsonQuote := rfl
  rw [hX]
  generalize ",".intercalate
    (d.Streams.map fun e => e.forMarshal.toJson.render jsonQuote) = X
  apply String.ext
  simp only [String.data_append, String.intercalate, String.intercalate.go]
  simp

theorem forall2_map_right {α β : Type} (R : α → β → Prop) (f : α → β) (xs : List α)
    (h : ∀ x ∈ xs, R x (f x)) : List.Forall₂ R xs (xs.map f) := by
  induction xs with
  | nil => exact List.Forall₂.nil
  | cons x rest ih =>
    exact List.Forall₂.cons (h x (List.mem_cons_self _ _))
      (ih (fun y hy => h y (List.mem_cons_of_mem _ hy)))

theorem uEscapeReadsBack_all :
    ∀ n ∈ List.range 32 ++ [60, 62, 38, 8232, 8233], uEscapeReadsBack n = true := by
  decide

theorem jsonUnescape_short (e x : Char) (rest r : List Char) (he : e.toNat ≠ 117)
    (hx : jsonShortEscape e = some x) (h : jsonUnescape rest = some r) :
    jsonUnescape (Char.ofNat 92 :: e :: rest) = some (x :: r) := by
  have h92 : (Char.ofNat 92).toNat = 92 := by decide
  rw [jsonUnescape.eq_def]
  simp [h92, he, hx, h]

theorem jsonUnescape_u (n : Nat) (rest r : List Char) (hn : uEscapeReadsBack n = true)
    (h : jsonUnescape rest = some r) :
    jsonUnescape (Char.ofNat 92 :: Char.ofNat 117 :: ((hexPadded 4 n).data ++ rest)) =
      some (Char.ofNat n :: r) := by
  have h92 : (Char.ofNat 92).toNat = 92 := by decide
  have h117 : (Char.ofNat 117).toNat = 117 := by decide
  unfold uEscapeReadsBack at hn
  split at hn
  · rename_i h1 h2 h3 h4 hd
    split at hn
    · rename_i d1 d2 d3 d4 e1 e2 e3 e4
      have hv := of_decide_eq_true hn
      rw [hd]
      simp [jsonUnescape, h92, h117, e1, e2, e3, e4, h, hv]
    · cases hn
  · cases hn

theorem jsonUnescape_plain (c : Char) (rest r : List Char) (h1 : c.toNat ≠ 92)
    (h2 : c.toNat ≠ 34) (h3 : ¬ c.toNat < 32) (h : jsonUnescape rest = some r) :
    jsonUnescape (c :: rest) = some (c :: r) := by
  rw [jsonUnescape.eq_def]
  simp [h1, h2, h3, h]

theorem char_eq_ofNat (c : Char) (n : Nat) (h : c.toNat = n) : c = Char.ofNat n := by
  rw [← h, Char.ofNat_toNat]

/-- Reading the escape of one character gives the character back. -/
theorem jsonUnescape_escape (c : Char) (rest r : List Char)
    (h : jsonUnescape rest = some r) :
    jsonUnescape ((jsonEscapeChar c).data ++ rest) = some (c :: r) := by
  unfold jsonEscapeChar
  simp only
  split_ifs with c1 c2 c3 c4 c5 c6 c7 c8
  · rw [char_eq_ofNat c 34 c1]
    exact jsonUnescape_short (Char.ofNat 34) _ rest r (by decide) (by decide) h
  · rw [char_eq_ofNat c 92 c2]
    exact jsonUnescape_short (Char.ofNat 92) _ rest r (by decide) (by decide) h
  · rw [char_eq_ofNat c 8 c3]
    exact jsonUnescape_short (Char.ofNat 98) _ rest r (by decide) (by decide) h
  · rw [char_eq_ofNat c 12 c4]
    exact jsonUnescape_short (Char.ofNat 102) _ rest r (by decide) (by decide) h
  · rw [char_eq_ofNat c 10 c5]
    exact jsonUnescape_short (Char.ofNat 110) _ rest r (by decide) (by decide) h
  · rw [char_eq_ofNat c 13 c6]
    exact jsonUnescape_short (Char.ofNat 114) _ rest r (by decide) (by decide) h
  · rw [char_eq_ofNat c 9 c7]
    exact jsonUnescape_short (Char.ofNat 116) _ rest r (by decide) (by decide) h
  · have hmem : c.toNat ∈ List.range 32 ++ [60, 62, 38, 8232, 8233] := by
      simp only [List.mem_append, List.mem_range, List.mem_cons, List.mem_singleton,
        List.not_mem_nil, or_false]
      omega
    have hu := jsonUnescape_u c.toNat rest r (uEscapeReadsBack_all _ hmem) h
    rw [Char.ofNat_toNat] at hu
    exact hu
  · have h32 : ¬ c.toNat < 32 := by omega
    exact jsonUnescape_plain c rest r c2 c1 h32 h

theorem data_foldl_append (xs : List String) (acc : String) :
    (xs.foldl (fun r s => r ++ s) acc).data = acc.data ++ (xs.map String.data).flatten := by
  induction xs generalizing acc with
  | nil => simp
  | cons x rest ih => simp [ih, String.data_append]

theorem data_join (xs : List String) :
    (String.join xs).data = (xs.map String.data).flatten := by
  unfold String.join
  rw [data_foldl_append]
  rfl

/-- Reading the inside of the literal that `jsonQuote` writes gives the string back. -/
theorem jsonUnescape_quote (cs : List Char) :
    jsonUnescape (String.join (cs.map jsonEscapeChar)).data = some cs := by
  rw [data_join]
  induction cs with
  | nil => rfl
  | cons c rest ih =>
    simp only [List.map_cons, List.flatten_cons]
    exact jsonUnescape_escape c _ rest ih

/-- C11 (counterexample): the batch of the tests with the label map of its entry left
nil has one entry and that entry holds one pair, yet the body the text sink sends has
`null` in the place of the object of labels; and the batch whose slice `Streams` is
nil, which has no entry, gives the body `{"streams":null}`. -/
theorem text_sink_writes_null_for_nil :
    (LokiHttpClient.SendData jsonQuote ⟨"https://loki.com/loki/api/v1/push"⟩
        (sampleTransport 204) ⟨some [⟨none, some [some ["0", "log-line"]]⟩]⟩).request =
      some ⟨"POST", "https://loki.com/loki/api/v1/push", "application/json",
        "\x7b\"streams\":[\x7b\"stream\":null,\"values\":[[\"0\",\"log-line\"]]\x7d]\x7d"⟩ ∧
    (LokiHttpClient.SendData jsonQuote ⟨"https://loki.com/loki/api/v1/push"⟩
        (sampleTransport 204) ⟨none⟩).request =
      some ⟨"POST", "https://loki.com/loki/api/v1/push", "application/json",
        "\x7b\"streams\":null\x7d"⟩ := by
  decide

/-- C11 (amended): for every batch whose slice of entries and whose label maps are not
nil and whose entries each hold one `[timestamp, line]` pair, the request the text
sink hands to the HTTP client is a `POST` to its URL with the content type
`application/json`, and its body is the JSON document `{"streams":[...]}` with
exactly one object per entry, in batch order, each of the form
`{"stream":{<labels>},"values":[["<timestamp>","<line>"]]}` (labels in key order,
every string as a JSON string literal); `Size`, `Count`, `TotalSize` and the
thresholds do not occur in it. The batch of one entry with the label `label1=value`
and the pair `["0", "log-line"]` gives exactly
`{"streams":[{"stream":{"label1":"value"},"values":[["0","log-line"]]}]}`. In a JSON
string literal the quote and the backslash are preceded by a backslash, backspace,
form feed, newline, carriage return and tab are written `\b`, `\f`, `\n`, `\r`,
`\t`, the other control characters, `<`, `>`, `&` and the two Unicode line
separators are written as `\u` escapes, and every other character is written as it
is; reading the literal of a string as JSON gives the string back. -/
theorem text_sink_body (l : LokiHttpClient) (env : TransportEnv) (data : LokiStreams)
    (hpair : ∀ e ∈ data.Streams, e.hasOnePair = true) (hreq : env.requestErr = none) :
    (∃ docs, (LokiHttpClient.SendData jsonQuote l env data.forMarshal).request =
        some ⟨"POST", l.lokiUrl, "application/json",
          "\x7b\"streams\":[" ++ ",".intercalate docs ++ "]\x7d"⟩ ∧
      List.Forall₂
        (fun e d => ∃ ts line, e.Values = [[ts, line]] ∧
          d = "\x7b\"stream\":\x7b" ++
            ",".intercalate
              ((sortByKey e.Labels).map fun kv => jsonQuote kv.1 ++ ":" ++ jsonQuote kv.2)
            ++ "\x7d,\"values\":[[" ++ jsonQuote ts ++ "," ++ jsonQuote line ++ "]]\x7d")
        data.Streams docs) ∧
    (LokiHttpClient.SendData jsonQuote l env sampleBatch.forMarshal).request =
      some ⟨"POST", l.lokiUrl, "application/json",
        "\x7b\"streams\":[\x7b\"stream\":\x7b\"label1\":\"value\"\x7d,\"values\":[[\"0\",\"log-line\"]]\x7d]\x7d"⟩ ∧
    jsonQuote "say \"hi\" \\ \x08\x0c\n\r\t\x01\x1f <&> \u2028\u2029 caf\u00e9" =
      "\"say \\\"hi\\\" \\\\ \\b\\f\\n\\r\\t\\u0001\\u001f \\u003c\\u0026\\u003e \\u2028\\u2029 caf\u00e9\"" ∧
    (∀ s : String, ∃ inner, jsonQuote s = "\"" ++ inner ++ "\"" ∧
      jsonUnescape inner.data = some s.data) := by
  have hbody : ∀ d : MarshalStreams, (LokiHttpClient.SendData jsonQuote l env d).request =
      some ⟨"POST", l.lokiUrl, "application/json", d.toJson.render jsonQuote⟩ := by
    intro d
    unfold LokiHttpClient.SendData jsonMarshal
    simp only [hreq]
    exact (doRequest_err env _ _).2
  refine ⟨⟨data.Streams.map fun e => e.forMarshal.toJson.render jsonQuote, ?_, ?_⟩, ?_, ?_,
    fun s => ⟨String.join (s.toList.map jsonEscapeChar), rfl, jsonUnescape_quote s.data⟩⟩
  · rw [hbody, render_batch]
  · apply forall2_map_right
    intro e he
    obtain ⟨ts, line, hv⟩ := hasOnePair_values e (hpair e he)
    exact ⟨ts, line, hv, render_entry e ts line hv⟩
  · rw [hbody]
    have hs : sampleBatch.forMarshal.toJson.render jsonQuote =
        "\x7b\"streams\":[\x7b\"stream\":\x7b\"label1\":\"value\"\x7d,\"values\":[[\"0\",\"log-line\"]]\x7d]\x7d" := by
      decide
    rw [hs]
  · decide

/-- Witness of `text_sink_body`: the batch of the tests, answered with status 204. -/
theorem text_sink_body_witness :
    (∃ docs, (LokiHttpClient.SendData jsonQuote ⟨"https://loki.com/loki/api/v1/push"⟩
          (sampleTransport 204) sampleBatch.forMarshal).request =
        some ⟨"POST", (LokiHttpClient.mk "https://loki.com/loki/api/v1/push").lokiUrl,
          "application/json", "\x7b\"streams\":[" ++ ",".intercalate docs ++ "]\x7d"⟩ ∧
      List.Forall₂
        (fun e d => ∃ ts line, e.Values = [[ts, line]] ∧
          d = "\x7b\"stream\":\x7b" ++
            ",".intercalate
              ((sortByKey e.Labels).map fun kv => jsonQuote kv.1 ++ ":" ++ jsonQuote kv.2)
            ++ "\x7d,\"values\":[[" ++ jsonQuote ts ++ "," ++ jsonQuote line ++ "]]\x7d")
        sampleBatch.Streams docs) ∧
    (LokiHttpClient.SendData jsonQuote ⟨"https://loki.com/loki/api/v1/push"⟩
        (sampleTransport 204) sampleBatch.forMarshal).request =
      some ⟨"POST", (LokiHttpClient.mk "https://loki.com/loki/api/v1/push").lokiUrl,
        "application/json",
        "\x7b\"streams\":[\x7b\"stream\":\x7b\"label1\":\"value\"\x7d,\"values\":[[\"0\",\"log-line\"]]\x7d]\x7d"⟩ ∧
    jsonQuote "say \"hi\" \\ \x08\x0c\n\r\t\x01\x1f <&> \u2028\u2029 caf\u00e9" =
      "\"say \\\"hi\\\" \\\\ \\b\\f\\n\\r\\t\\u0001\\u001f \\u003c\\u0026\\u003e \\u2028\\u2029 caf\u00e9\"" ∧
    (∀ s : String, ∃ inner, jsonQuote s = "\"" ++ inner ++ "\"" ∧
      jsonUnescape inner.data = some s.data) :=
  text_sink_body ⟨"https://loki.com/loki/api/v1/push"⟩ (sampleTransport 204) sampleBatch
    (by decide) rfl

end Speedy
